import Mathlib

/-!
# Loan service: state machine, investment aggregation, idempotency and locking

A shallow embedding of `internal/domain/loan.go`, `internal/usecase/loan_usecase.go`
and `internal/infrastructure/redis/redis_client.go`, followed by theorems about them.

Modelling conventions
* `float64` is IEEE 754 binary64 with rounding to nearest, ties to even: a NaN, an
  infinity or a finite value kept as the rational number it denotes; every
  operation rounds its exact result.
* `time.Time` is a natural number of ticks, `time.Duration` a number of seconds.
* `uuid.UUID` is a 128-bit number; its text form is the canonical 36-character one.
* A Go `error` result is `Option GoError` (`none` is `nil`); a `(T, error)` result
  of a repository is `Except GoError T`.
* Pointers to loans are treated as values, as the PostgreSQL repositories do
  (every `GetByID` scans into a fresh struct).
-/

namespace LoanService

/-! ## `float64` (IEEE 754 binary64, rounding to nearest, ties to even) -/

/-- A Go `float64`: a NaN, an infinity, or a finite value, kept as the rational
number it denotes. The two zeros are one value: they compare equal and add
alike, and the embedded code never divides; the error of
`ValidateInvestmentAmount` carries the two numbers, not their printed text.
All NaNs are one value. -/
inductive Float64 where
  | nan
  | inf (negative : Bool)
  | fin (value : ℚ)
deriving DecidableEq

/-- The number of binary digits of `n`, found by halving at most `fuel` times. -/
def bitLength : Nat → Nat → Nat
  | 0, _ => 0
  | fuel + 1, n => if n = 0 then 0 else bitLength fuel (n / 2) + 1

/-- The difference of the bit lengths of numerator and denominator: for a
positive `q` it is `⌊log₂ q⌋` or one more. -/
def Float64.log2Guess (q : ℚ) : Int :=
  (bitLength q.num.natAbs q.num.natAbs : Int) - (bitLength q.den q.den : Int)

/-- The integer `⌊log₂ q⌋` of a positive `q`: `2 ^ log2 q ≤ q < 2 ^ (log2 q + 1)`. -/
def Float64.log2 (q : ℚ) : Int :=
  if (2 : ℚ) ^ Float64.log2Guess q ≤ q then Float64.log2Guess q else Float64.log2Guess q - 1

/-- Rounding to the nearest integer, a tie to the even one. -/
def roundHalfEven (x : ℚ) : Int :=
  if x - ⌊x⌋ < 1 / 2 then ⌊x⌋
  else if 1 / 2 < x - ⌊x⌋ then ⌊x⌋ + 1
  else if ⌊x⌋ % 2 = 0 then ⌊x⌋ else ⌊x⌋ + 1

/-- The binary exponent of a positive `q` as a `float64`: that of its binade,
and `-1022` in the subnormal range. -/
def Float64.exponent (q : ℚ) : Int := max (Float64.log2 q) (-1022)

/-- The spacing of the `float64` values around a positive `q` (53 significant
binary digits). -/
def Float64.quantum (q : ℚ) : ℚ := (2 : ℚ) ^ (Float64.exponent q - 52)

/-- The multiple of the spacing nearest to a positive `q`, a tie going to the
even multiple. -/
def Float64.nearest (q : ℚ) : ℚ := roundHalfEven (q / Float64.quantum q) * Float64.quantum q

/-- The least magnitude that rounds to an infinity, `2 ^ 1024`. -/
def Float64.huge : ℚ := (((2 ^ 256) ^ 4 : ℕ) : ℚ)

/-- The `float64` nearest to the rational number `q`: the result of a Go
operation whose exact value is `q`, and the conversion of a constant. -/
def Float64.ofRat (q : ℚ) : Float64 :=
  if q = 0 then .fin 0
  else if 0 < q then
    if Float64.huge ≤ Float64.nearest q then .inf false else .fin (Float64.nearest q)
  else
    if Float64.huge ≤ Float64.nearest (-q) then .inf true else .fin (-Float64.nearest (-q))

/-- Go `x + y` on `float64`. -/
def Float64.add : Float64 → Float64 → Float64
  | .nan, _ => .nan
  | _, .nan => .nan
  | .inf a, .inf b => if a = b then .inf a else .nan
  | .inf a, .fin _ => .inf a
  | .fin _, .inf b => .inf b
  | .fin a, .fin b => Float64.ofRat (a + b)

/-- Go `x - y` on `float64`. -/
def Float64.sub : Float64 → Float64 → Float64
  | .nan, _ => .nan
  | _, .nan => .nan
  | .inf a, .inf b => if a = b then .nan else .inf a
  | .inf a, .fin _ => .inf a
  | .fin _, .inf b => .inf (!b)
  | .fin a, .fin b => Float64.ofRat (a - b)

/-- Go `x <= y` on `float64`: false when either side is a NaN. -/
def Float64.le : Float64 → Float64 → Bool
  | .nan, _ => false
  | _, .nan => false
  | .inf a, .inf b => a || !b
  | .inf a, .fin _ => a
  | .fin _, .inf b => !b
  | .fin a, .fin b => decide (a ≤ b)

/-- Go `x < y` on `float64`: false when either side is a NaN. -/
def Float64.lt : Float64 → Float64 → Bool
  | .nan, _ => false
  | _, .nan => false
  | .inf a, .inf b => a && !b
  | .inf a, .fin _ => a
  | .fin _, .inf b => !b
  | .fin a, .fin b => decide (a < b)

instance : Add Float64 := ⟨Float64.add⟩

instance : Sub Float64 := ⟨Float64.sub⟩

instance : LE Float64 := ⟨fun a b => Float64.le a b = true⟩

instance : LT Float64 := ⟨fun a b => Float64.lt a b = true⟩

instance (a b : Float64) : Decidable (a ≤ b) := inferInstanceAs (Decidable (Float64.le a b = true))

instance (a b : Float64) : Decidable (a < b) := inferInstanceAs (Decidable (Float64.lt a b = true))

/-- A numeric constant used as a `float64`. -/
instance (n : Nat) : OfNat Float64 n := ⟨Float64.ofRat n⟩

/-- The value is a `float64`: rounding leaves it unchanged. -/
def Float64.IsValue (x : Float64) : Prop :=
  match x with
  | .fin q => Float64.ofRat q = .fin q
  | _ => True

/-- The rational number a finite `float64` denotes (and `0` for the others). -/
def Float64.toRat : Float64 → ℚ
  | .fin q => q
  | _ => 0

/-! ## Domain (`internal/domain/loan.go`) -/

/-- Go `type LoanState string`. -/
abbrev LoanState := String

def StateProposed : LoanState := "proposed"
def StateApproved : LoanState := "approved"
def StateInvested : LoanState := "invested"
def StateDisbursed : LoanState := "disbursed"

/-- Abstraction of `time.Time`. -/
abbrev Time := Nat

/-- Abstraction of `time.Duration`, in seconds. -/
abbrev Duration := Nat

/-- A `uuid.UUID`: sixteen bytes, kept as one 128-bit number. -/
structure UUID where
  val : Fin (2 ^ 128)
deriving DecidableEq

/-- One lowercase hexadecimal digit. -/
def hexChar (n : Nat) : Char :=
  if n < 10 then Char.ofNat (48 + n) else Char.ofNat (87 + n)

/-- The `i`-th byte (big-endian, `i < 16`) of a UUID. -/
def UUID.byte (u : UUID) (i : Nat) : Nat :=
  (u.val.val / 256 ^ (15 - i)) % 256

/-- Two hexadecimal digits for each of the bytes `i, i+1, .., i+n-1`. -/
def UUID.hex (u : UUID) (i n : Nat) : List Char :=
  (List.range n).flatMap fun k => [hexChar (u.byte (i + k) / 16), hexChar (u.byte (i + k) % 16)]

/-- The method `UUID.String()`: the form `xxxxxxxx-xxxx-xxxx-xxxx-xxxxxxxxxxxx`. -/
def UUID.String (u : UUID) : String :=
  ⟨u.hex 0 4 ++ '-' :: u.hex 4 2 ++ '-' :: u.hex 6 2 ++ '-' :: u.hex 8 2 ++ '-' :: u.hex 10 6⟩

/-- The UUID whose 128-bit number is `n` (modulo `2 ^ 128`). -/
def UUID.ofNat (n : Nat) : UUID := ⟨⟨n % 2 ^ 128, Nat.mod_lt _ (Nat.two_pow_pos 128)⟩⟩

structure Loan where
  ID : UUID
  BorrowerID : UUID
  PrincipalAmount : Float64
  Rate : Float64
  ROI : Float64
  AgreementLetterURL : Option String
  State : LoanState
  CreatedAt : Time
  UpdatedAt : Time
deriving DecidableEq

structure LoanApproval where
  LoanID : UUID
  EmployeeID : UUID
  PictureProof : String
  ApprovalDate : Time
  CreatedAt : Time
deriving DecidableEq

structure Investment where
  ID : UUID
  LoanID : UUID
  InvestorID : UUID
  Amount : Float64
  CreatedAt : Time
deriving DecidableEq

structure Disbursement where
  LoanID : UUID
  EmployeeID : UUID
  SignedAgreementURL : String
  DisbursementDate : Time
  CreatedAt : Time
deriving DecidableEq

structure StateTransitionError where
  From : LoanState
  To : LoanState
  Cause : String
deriving DecidableEq

/-- Go `error` values produced or forwarded by the embedded code.
`new` is `errors.New` or a `fmt.Errorf` without `%w`; `wrap msg cause` is
`fmt.Errorf(msg + ": %w", cause)`; `transition` is a `*StateTransitionError`;
`exceedsPrincipal total principal` is the error of `ValidateInvestmentAmount`
whose text prints the would-be total and the principal. -/
inductive GoError where
  | new (msg : String)
  | wrap (msg : String) (cause : GoError)
  | transition (e : StateTransitionError)
  | exceedsPrincipal (total principal : Float64)
deriving DecidableEq

/-- The map literal `validTransitions`. -/
def validTransitions : List (LoanState × List LoanState) :=
  [ (StateProposed, [StateApproved]),
    (StateApproved, [StateInvested]),
    (StateInvested, [StateDisbursed]),
    (StateDisbursed, []) ]

def Loan.CanTransitionTo (l : Loan) (target : LoanState) : Option GoError :=
  match validTransitions.lookup l.State with
  | none =>
    some (.transition { From := l.State, To := target, Cause := "unknown current state" })
  | some allowed =>
    if allowed.contains target then none
    else some (.transition { From := l.State, To := target, Cause := "transition not allowed" })

/-- The method `TransitionTo`; `now` is the value `time.Now()` yields, read only
on the successful path. Returns the error and the loan after the call. -/
def Loan.TransitionTo (l : Loan) (newState : LoanState) (now : Time) : Option GoError × Loan :=
  match l.CanTransitionTo newState with
  | some err => (some err, l)
  | none => (none, { l with State := newState, UpdatedAt := now })

/-- The constructor `NewLoan`; `id` is the value of `uuid.New()`, `now` of `time.Now()`. -/
def NewLoan (id : UUID) (now : Time) (borrowerID : UUID) (principalAmount rate roi : Float64) : Loan :=
  { ID := id
    BorrowerID := borrowerID
    PrincipalAmount := principalAmount
    Rate := rate
    ROI := roi
    AgreementLetterURL := none
    State := StateProposed
    CreatedAt := now
    UpdatedAt := now }

def Loan.ValidateInvestmentAmount (l : Loan) (amount currentTotal : Float64) : Option GoError :=
  if amount ≤ 0 then some (.new "investment amount must be positive")
  else if currentTotal + amount > l.PrincipalAmount then
    some (.exceedsPrincipal (currentTotal + amount) l.PrincipalAmount)
  else none

/-- The constant `epsilon = 0.01` of `IsFullyInvested`, as the `float64` it is
converted to. -/
def epsilon : Float64 := Float64.ofRat (1 / 100)

def Loan.IsFullyInvested (l : Loan) (totalInvested : Float64) : Bool :=
  decide (totalInvested ≥ l.PrincipalAmount - epsilon)

/-- The states a loan passes through under a sequence of `TransitionTo` calls
(target and clock reading per call): the state before the first call, then the
state after each call that returned no error. -/
def transitionHistory (l : Loan) : List (LoanState × Time) → List LoanState
  | [] => [l.State]
  | (target, now) :: rest =>
    match l.TransitionTo target now with
    | (none, l') => l.State :: transitionHistory l' rest
    | (some _, l') => transitionHistory l' rest

/-- The loan after a sequence of `TransitionTo` calls. -/
def transitionAll (l : Loan) : List (LoanState × Time) → Loan
  | [] => l
  | (target, now) :: rest => transitionAll (l.TransitionTo target now).2 rest

/-- The part of the chain proposed, approved, invested, disbursed that starts at
`s`; for a string that is none of the four states, `s` alone. -/
def chainFrom (s : LoanState) : List LoanState :=
  if s = StateProposed then [StateProposed, StateApproved, StateInvested, StateDisbursed]
  else if s = StateApproved then [StateApproved, StateInvested, StateDisbursed]
  else if s = StateInvested then [StateInvested, StateDisbursed]
  else [s]

/-! ## Collaborators (`internal/domain/repository.go`, `redis.RedisClient`,
`storage.FileStorage`, `email.EmailService`)

Every collaborator is an interface in the source. Here an interface is a record
of functions over the collaborators' joint state `σ`: a method takes its
arguments and the state before the call and returns its result and the state
after the call. -/

/-- The content read from an `io.Reader`. -/
abbrev Reader := List Nat

structure User where
  ID : UUID
  Email : String
  Password : String
  UserType : String
  CreatedAt : Time
  UpdatedAt : Time
deriving DecidableEq

structure LoanRepository (σ : Type) where
  Create : Loan → σ → Option GoError × σ
  GetByID : UUID → σ → Except GoError Loan × σ
  GetByState : LoanState → σ → Except GoError (List Loan) × σ
  Update : Loan → σ → Option GoError × σ

structure ApprovalRepository (σ : Type) where
  Create : LoanApproval → σ → Option GoError × σ
  GetByLoanID : UUID → σ → Except GoError LoanApproval × σ

structure InvestmentRepository (σ : Type) where
  Create : Investment → σ → Option GoError × σ
  GetByLoanID : UUID → σ → Except GoError (List Investment) × σ
  GetTotalByLoanID : UUID → σ → Except GoError Float64 × σ

structure DisbursementRepository (σ : Type) where
  Create : Disbursement → σ → Option GoError × σ
  GetByLoanID : UUID → σ → Except GoError Disbursement × σ

structure UserRepository (σ : Type) where
  Create : User → σ → Option GoError × σ
  GetByID : UUID → σ → Except GoError User × σ
  GetByEmail : String → σ → Except GoError User × σ

/-- The interface `redis.RedisClient`. `CheckIdempotencyKey` and `AcquireLock`
return the Go pair `(bool, error)` as it is. -/
structure RedisClient (σ : Type) where
  SetIdempotencyKey : String → String → Duration → σ → Option GoError × σ
  CheckIdempotencyKey : String → σ → (Bool × Option GoError) × σ
  AcquireLock : String → Duration → σ → (Bool × Option GoError) × σ
  ReleaseLock : String → σ → Option GoError × σ
  SetCache : String → String → Duration → σ → Option GoError × σ
  GetCache : String → σ → Except GoError String × σ

structure FileStorage (σ : Type) where
  Store : Reader → String → σ → Except GoError String × σ
  GetURL : String → σ → String × σ
  Delete : String → σ → Option GoError × σ

structure EmailService (σ : Type) where
  SendAgreementEmail : String → String → σ → Option GoError × σ

/-- The two ambient sources the use cases read: `time.Now()` and `uuid.New()`. -/
structure Runtime (σ : Type) where
  Now : σ → Time × σ
  NewUUID : σ → UUID × σ

/-! ## Use cases (`internal/usecase/loan_usecase.go`) -/

/-- The struct `LoanUseCase`: its eight collaborators, and the runtime. -/
structure LoanUseCase (σ : Type) where
  loanRepo : LoanRepository σ
  approvalRepo : ApprovalRepository σ
  investmentRepo : InvestmentRepository σ
  disbursementRepo : DisbursementRepository σ
  userRepo : UserRepository σ
  redisClient : RedisClient σ
  fileStorage : FileStorage σ
  emailService : EmailService σ
  runtime : Runtime σ

structure CreateLoanRequest where
  BorrowerID : UUID
  PrincipalAmount : Float64
  Rate : Float64
  ROI : Float64

structure ApproveLoanRequest where
  LoanID : UUID
  EmployeeID : UUID
  PictureProof : Reader
  PictureProofFilename : String
  ApprovalDate : Time
  IdempotencyKey : String

structure InvestRequest where
  LoanID : UUID
  InvestorID : UUID
  Amount : Float64
  IdempotencyKey : String

structure DisburseLoanRequest where
  LoanID : UUID
  EmployeeID : UUID
  SignedAgreement : Reader
  SignedAgreementFilename : String
  DisbursementDate : Time
  IdempotencyKey : String

/-- The duration `time.Hour`, in seconds. -/
def Hour : Duration := 3600

/-- The duration `time.Minute`, in seconds. -/
def Minute : Duration := 60

/-- The duration `time.Second`. -/
def Second : Duration := 1

/-- The error of the three idempotency guards. -/
def errDuplicateRequest : GoError := .new "duplicate request: idempotency key already used"

/-- The error `Invest` returns when the lock is held by someone else. -/
def errLockNotAcquired : GoError := .new "could not acquire lock, please try again"

/-- The key `fmt.Sprintf("approve:%s:%s", req.LoanID, req.IdempotencyKey)`. -/
def approveKey (loanID : UUID) (token : String) : String :=
  "approve:" ++ loanID.String ++ ":" ++ token

/-- The key `fmt.Sprintf("invest:%s", req.LoanID)`. -/
def investLockKey (loanID : UUID) : String :=
  "invest:" ++ loanID.String

/-- The key `fmt.Sprintf("invest:%s:%s:%s", req.LoanID, req.InvestorID, req.IdempotencyKey)`. -/
def investKey (loanID investorID : UUID) (token : String) : String :=
  "invest:" ++ loanID.String ++ ":" ++ investorID.String ++ ":" ++ token

/-- The key `fmt.Sprintf("disburse:%s:%s", req.LoanID, req.IdempotencyKey)`. -/
def disburseKey (loanID : UUID) (token : String) : String :=
  "disburse:" ++ loanID.String ++ ":" ++ token

/-- The path `fmt.Sprintf("agreements/%s.pdf", req.LoanID)`. -/
def agreementPath (loanID : UUID) : String :=
  "agreements/" ++ loanID.String ++ ".pdf"

variable {σ : Type}

def LoanUseCase.CreateLoan (uc : LoanUseCase σ) (req : CreateLoanRequest) (s : σ) :
    Except GoError Loan × σ :=
  let (id, s) := uc.runtime.NewUUID s
  let (now, s) := uc.runtime.Now s
  let loan := NewLoan id now req.BorrowerID req.PrincipalAmount req.Rate req.ROI
  match uc.loanRepo.Create loan s with
  | (some err, s) => (.error (.wrap "failed to create loan" err), s)
  | (none, s) => (.ok loan, s)

def LoanUseCase.ApproveLoan (uc : LoanUseCase σ) (req : ApproveLoanRequest) (s : σ) :
    Option GoError × σ :=
  let idempotencyKey := approveKey req.LoanID req.IdempotencyKey
  match uc.redisClient.CheckIdempotencyKey idempotencyKey s with
  | ((true, _), s) => (some errDuplicateRequest, s)
  | ((false, _), s) =>
  match uc.loanRepo.GetByID req.LoanID s with
  | (.error err, s) => (some (.wrap "loan not found" err), s)
  | (.ok loan, s) =>
  match loan.CanTransitionTo StateApproved with
  | some err => (some err, s)
  | none =>
  match uc.fileStorage.Store req.PictureProof req.PictureProofFilename s with
  | (.error err, s) => (some (.wrap "failed to store picture proof" err), s)
  | (.ok picturePath, s) =>
  match uc.fileStorage.GetURL picturePath s with
  | (url, s) =>
  match uc.runtime.Now s with
  | (createdAt, s) =>
  let approval : LoanApproval :=
    { LoanID := req.LoanID
      EmployeeID := req.EmployeeID
      PictureProof := url
      ApprovalDate := req.ApprovalDate
      CreatedAt := createdAt }
  -- `TransitionTo` reads the clock only when the transition is allowed
  match loan.TransitionTo StateApproved (uc.runtime.Now s).1 with
  | (some err, _) => (some err, s)
  | (none, loan) =>
  match uc.loanRepo.Update loan (uc.runtime.Now s).2 with
  | (some err, s) => (some (.wrap "failed to update loan" err), s)
  | (none, s) =>
  match uc.approvalRepo.Create approval s with
  | (some err, s) => (some (.wrap "failed to create approval" err), s)
  | (none, s) =>
  match uc.redisClient.SetIdempotencyKey idempotencyKey "approved" (24 * Hour) s with
  | (_, s) => (none, s)

/-- The loop `for _, inv := range investments` of `Invest`: one user lookup per
investment and, when it succeeds, one email whose error is discarded. -/
def LoanUseCase.notifyInvestors (uc : LoanUseCase σ) (agreementURL : String) :
    List Investment → σ → σ
  | [], s => s
  | inv :: rest, s =>
    match uc.userRepo.GetByID inv.InvestorID s with
    | (.ok investorUser, s) =>
      match uc.emailService.SendAgreementEmail investorUser.Email agreementURL s with
      | (_, s) => uc.notifyInvestors agreementURL rest s
    | (.error _, s) => uc.notifyInvestors agreementURL rest s

/-- The block `if loan.IsFullyInvested(newTotal) { ... }` of `Invest`, entered
with the loan and the state after the investment insert. `some err` is an early
return of `Invest` with `err`; `none` means the block ran to its end. -/
def LoanUseCase.investFullyFunded (uc : LoanUseCase σ) (req : InvestRequest) (loan : Loan)
    (s : σ) : Option GoError × σ :=
  -- `TransitionTo` reads the clock only when the transition is allowed
  match loan.TransitionTo StateInvested (uc.runtime.Now s).1 with
  | (some err, _) => (some err, s)
  | (none, loan) =>
  match uc.loanRepo.Update loan (uc.runtime.Now s).2 with
  | (some err, s) => (some (.wrap "failed to update loan state" err), s)
  | (none, s) =>
  match uc.fileStorage.GetURL (agreementPath req.LoanID) s with
  | (agreementURL, s) =>
  let loan := { loan with AgreementLetterURL := some agreementURL }
  match uc.loanRepo.Update loan s with
  | (some err, s) => (some (.wrap "failed to update agreement letter URL" err), s)
  | (none, s) =>
  match uc.investmentRepo.GetByLoanID req.LoanID s with
  | (.ok investments, s) => (none, uc.notifyInvestors agreementURL investments s)
  | (.error _, s) => (none, s)

/-- The part of `Invest` after `defer uc.redisClient.ReleaseLock(ctx, lockKey)`:
everything that runs while the lock is held, up to the return statement. -/
def LoanUseCase.investLocked (uc : LoanUseCase σ) (req : InvestRequest) (s : σ) :
    Option GoError × σ :=
  let idempotencyKey := investKey req.LoanID req.InvestorID req.IdempotencyKey
  match uc.redisClient.CheckIdempotencyKey idempotencyKey s with
  | ((true, _), s) => (some errDuplicateRequest, s)
  | ((false, _), s) =>
  match uc.loanRepo.GetByID req.LoanID s with
  | (.error err, s) => (some (.wrap "loan not found" err), s)
  | (.ok loan, s) =>
  if loan.State ≠ StateApproved then
    (some (.new "loan must be in approved state to accept investments"), s)
  else
  match uc.investmentRepo.GetTotalByLoanID req.LoanID s with
  | (.error err, s) => (some (.wrap "failed to get current investment total" err), s)
  | (.ok currentTotal, s) =>
  match loan.ValidateInvestmentAmount req.Amount currentTotal with
  | some err => (some err, s)
  | none =>
  match uc.runtime.NewUUID s with
  | (id, s) =>
  match uc.runtime.Now s with
  | (createdAt, s) =>
  let investment : Investment :=
    { ID := id
      LoanID := req.LoanID
      InvestorID := req.InvestorID
      Amount := req.Amount
      CreatedAt := createdAt }
  match uc.investmentRepo.Create investment s with
  | (some err, s) => (some (.wrap "failed to create investment" err), s)
  | (none, s) =>
  let newTotal := currentTotal + req.Amount
  match (if loan.IsFullyInvested newTotal then uc.investFullyFunded req loan s
         else (none, s)) with
  | (some err, s) => (some err, s)
  | (none, s) =>
  match uc.redisClient.SetIdempotencyKey idempotencyKey "invested" (24 * Hour) s with
  | (_, s) => (none, s)

/-- The method `Invest`. The deferred `ReleaseLock` runs after the locked part,
whatever that part returns, and its own result is discarded. -/
def LoanUseCase.Invest (uc : LoanUseCase σ) (req : InvestRequest) (s : σ) :
    Option GoError × σ :=
  let lockKey := investLockKey req.LoanID
  match uc.redisClient.AcquireLock lockKey (30 * Second) s with
  | ((_, some err), s) => (some (.wrap "failed to acquire lock" err), s)
  | ((false, none), s) => (some errLockNotAcquired, s)
  | ((true, none), s) =>
  match uc.investLocked req s with
  | (result, s) =>
  match uc.redisClient.ReleaseLock lockKey s with
  | (_, s) => (result, s)

def LoanUseCase.DisburseLoan (uc : LoanUseCase σ) (req : DisburseLoanRequest) (s : σ) :
    Option GoError × σ :=
  let idempotencyKey := disburseKey req.LoanID req.IdempotencyKey
  match uc.redisClient.CheckIdempotencyKey idempotencyKey s with
  | ((true, _), s) => (some errDuplicateRequest, s)
  | ((false, _), s) =>
  match uc.loanRepo.GetByID req.LoanID s with
  | (.error err, s) => (some (.wrap "loan not found" err), s)
  | (.ok loan, s) =>
  match loan.CanTransitionTo StateDisbursed with
  | some err => (some err, s)
  | none =>
  match uc.fileStorage.Store req.SignedAgreement req.SignedAgreementFilename s with
  | (.error err, s) => (some (.wrap "failed to store signed agreement" err), s)
  | (.ok agreementPath, s) =>
  match uc.fileStorage.GetURL agreementPath s with
  | (url, s) =>
  match uc.runtime.Now s with
  | (createdAt, s) =>
  let disbursement : Disbursement :=
    { LoanID := req.LoanID
      EmployeeID := req.EmployeeID
      SignedAgreementURL := url
      DisbursementDate := req.DisbursementDate
      CreatedAt := createdAt }
  -- `TransitionTo` reads the clock only when the transition is allowed
  match loan.TransitionTo StateDisbursed (uc.runtime.Now s).1 with
  | (some err, _) => (some err, s)
  | (none, loan) =>
  match uc.loanRepo.Update loan (uc.runtime.Now s).2 with
  | (some err, s) => (some (.wrap "failed to update loan" err), s)
  | (none, s) =>
  match uc.disbursementRepo.Create disbursement s with
  | (some err, s) => (some (.wrap "failed to create disbursement" err), s)
  | (none, s) =>
  match uc.redisClient.SetIdempotencyKey idempotencyKey "disbursed" (24 * Hour) s with
  | (_, s) => (none, s)

def LoanUseCase.GetLoan (uc : LoanUseCase σ) (loanID : UUID) (s : σ) : Except GoError Loan × σ :=
  match uc.loanRepo.GetByID loanID s with
  | (.error err, s) => (.error err, s)
  | (.ok loan, s) =>
  match uc.redisClient.SetCache ("loan:" ++ loanID.String) loanID.String (5 * Minute) s with
  | (_, s) => (.ok loan, s)

def LoanUseCase.GetLoansByState (uc : LoanUseCase σ) (state : LoanState) (s : σ) :
    Except GoError (List Loan) × σ :=
  uc.loanRepo.GetByState state s

/-! ## Recording the collaborator calls

The use cases are written once, for any collaborators. To speak about which
collaborator calls a use case makes, it is run on collaborators that append
every call, with its arguments and whether it returned a nil error, to a log
kept next to the state. -/

/-- A collaborator call with its arguments. -/
inductive Call where
  | LoanCreate (loan : Loan)
  | LoanGetByID (id : UUID)
  | LoanGetByState (state : LoanState)
  | LoanUpdate (loan : Loan)
  | ApprovalCreate (approval : LoanApproval)
  | ApprovalGetByLoanID (loanID : UUID)
  | InvestmentCreate (investment : Investment)
  | InvestmentGetByLoanID (loanID : UUID)
  | InvestmentGetTotalByLoanID (loanID : UUID)
  | DisbursementCreate (disbursement : Disbursement)
  | DisbursementGetByLoanID (loanID : UUID)
  | UserCreate (user : User)
  | UserGetByID (id : UUID)
  | UserGetByEmail (email : String)
  | SetIdempotencyKey (key value : String) (expiration : Duration)
  | CheckIdempotencyKey (key : String)
  | AcquireLock (key : String) (expiration : Duration)
  | ReleaseLock (key : String)
  | SetCache (key value : String) (expiration : Duration)
  | GetCache (key : String)
  | FileStore (file : Reader) (filename : String)
  | FileGetURL (path : String)
  | FileDelete (path : String)
  | SendAgreementEmail (investorEmail agreementURL : String)
deriving DecidableEq

/-- One entry of the log: the call, and whether its error result was nil. -/
structure Event where
  call : Call
  ok : Bool
deriving DecidableEq

/-- Whether a Go `error` is nil. -/
def errNil (e : Option GoError) : Bool := e.isNone

/-- Whether the error of a `(T, error)` result is nil. -/
def resNil {α : Type} : Except GoError α → Bool
  | .ok _ => true
  | .error _ => false

/-- The collaborator method `f`, also appending its call to the log. -/
def logged {α : Type} (call : Call) (ok : α → Bool) (f : σ → α × σ)
    (st : σ × List Event) : α × (σ × List Event) :=
  ((f st.1).1, ((f st.1).2, st.2 ++ [{ call := call, ok := ok (f st.1).1 }]))

/-- The collaborators `uc` with every call recorded. Reading the clock and
drawing a UUID are not collaborator calls and leave the log as it is. -/
def traced (uc : LoanUseCase σ) : LoanUseCase (σ × List Event) where
  loanRepo :=
    { Create := fun loan => logged (.LoanCreate loan) errNil (uc.loanRepo.Create loan)
      GetByID := fun id => logged (.LoanGetByID id) resNil (uc.loanRepo.GetByID id)
      GetByState := fun st => logged (.LoanGetByState st) resNil (uc.loanRepo.GetByState st)
      Update := fun loan => logged (.LoanUpdate loan) errNil (uc.loanRepo.Update loan) }
  approvalRepo :=
    { Create := fun a => logged (.ApprovalCreate a) errNil (uc.approvalRepo.Create a)
      GetByLoanID := fun id =>
        logged (.ApprovalGetByLoanID id) resNil (uc.approvalRepo.GetByLoanID id) }
  investmentRepo :=
    { Create := fun i => logged (.InvestmentCreate i) errNil (uc.investmentRepo.Create i)
      GetByLoanID := fun id =>
        logged (.InvestmentGetByLoanID id) resNil (uc.investmentRepo.GetByLoanID id)
      GetTotalByLoanID := fun id =>
        logged (.InvestmentGetTotalByLoanID id) resNil (uc.investmentRepo.GetTotalByLoanID id) }
  disbursementRepo :=
    { Create := fun d => logged (.DisbursementCreate d) errNil (uc.disbursementRepo.Create d)
      GetByLoanID := fun id =>
        logged (.DisbursementGetByLoanID id) resNil (uc.disbursementRepo.GetByLoanID id) }
  userRepo :=
    { Create := fun u => logged (.UserCreate u) errNil (uc.userRepo.Create u)
      GetByID := fun id => logged (.UserGetByID id) resNil (uc.userRepo.GetByID id)
      GetByEmail := fun e => logged (.UserGetByEmail e) resNil (uc.userRepo.GetByEmail e) }
  redisClient :=
    { SetIdempotencyKey := fun k v d =>
        logged (.SetIdempotencyKey k v d) errNil (uc.redisClient.SetIdempotencyKey k v d)
      CheckIdempotencyKey := fun k =>
        logged (.CheckIdempotencyKey k) (fun r => errNil r.2) (uc.redisClient.CheckIdempotencyKey k)
      AcquireLock := fun k d =>
        logged (.AcquireLock k d) (fun r => errNil r.2) (uc.redisClient.AcquireLock k d)
      ReleaseLock := fun k => logged (.ReleaseLock k) errNil (uc.redisClient.ReleaseLock k)
      SetCache := fun k v d => logged (.SetCache k v d) errNil (uc.redisClient.SetCache k v d)
      GetCache := fun k => logged (.GetCache k) resNil (uc.redisClient.GetCache k) }
  fileStorage :=
    { Store := fun f n => logged (.FileStore f n) resNil (uc.fileStorage.Store f n)
      GetURL := fun p => logged (.FileGetURL p) (fun _ => true) (uc.fileStorage.GetURL p)
      Delete := fun p => logged (.FileDelete p) errNil (uc.fileStorage.Delete p) }
  emailService :=
    { SendAgreementEmail := fun e u =>
        logged (.SendAgreementEmail e u) errNil (uc.emailService.SendAgreementEmail e u) }
  runtime :=
    { Now := fun st => ((uc.runtime.Now st.1).1, ((uc.runtime.Now st.1).2, st.2))
      NewUUID := fun st => ((uc.runtime.NewUUID st.1).1, ((uc.runtime.NewUUID st.1).2, st.2)) }

/-- Whether a call is a `ReleaseLock`. -/
def Call.isReleaseLock : Call → Bool
  | .ReleaseLock _ => true
  | _ => false

/-- The log `log2` is `log1` followed by calls none of which is a `ReleaseLock`. -/
def ExtendsWithoutRelease (log1 log2 : List Event) : Prop :=
  ∃ body, log2 = log1 ++ body ∧ ∀ e ∈ body, e.call.isReleaseLock = false

/-! ## Faithful collaborators in memory

A concrete state for the collaborators: the tables of the PostgreSQL
repositories as lists of rows, the Redis keyspace as a list of key-value pairs,
the stored files and the sent emails. `redis_client.go` is embedded over the
Redis commands it uses (`SETNX`, `EXISTS`, `DEL`, `SET`, `GET`); the repositories
follow the SQL statements of `internal/repository/postgres`. No key expires
during the runs considered.

Any call that can return an error may be made to fail: `faults` is a script, one
flag per such call in the order the calls are made, and a call whose flag is
`true` returns an error and changes nothing else. With an empty script no call
fails. -/

structure World where
  loans : List Loan
  approvals : List LoanApproval
  investments : List Investment
  disbursements : List Disbursement
  users : List User
  redis : List (String × String)
  files : List (String × Reader)
  outbox : List (String × String)
  baseURL : String
  clock : Time
  uuids : Nat
  faults : List Bool

/-- The error of a call that the fault script makes fail. -/
def errInjected : GoError := .new "collaborator unavailable"

/-- The error `pgx.ErrNoRows`. -/
def errNoRows : GoError := .new "no rows in result set"

/-- The error `redis.Nil`. -/
def errRedisNil : GoError := .new "redis: nil"

/-- Whether the next call is made to fail. -/
def World.faulty (w : World) : Bool := w.faults.headD false

/-- The world once the next flag of the fault script is consumed. -/
def World.tick (w : World) : World := { w with faults := w.faults.tail }

/-- Whether the Redis keyspace holds `key`. -/
def World.hasKey (w : World) (key : String) : Bool := (w.redis.map Prod.fst).contains key

/-- Redis `SETNX key value`. -/
def World.SetNX (key value : String) (w : World) : (Bool × Option GoError) × World :=
  if w.faulty then ((false, some errInjected), w.tick)
  else if w.hasKey key then ((false, none), w.tick)
  else ((true, none), { w.tick with redis := w.redis ++ [(key, value)] })

/-- Redis `EXISTS key`: the number of keys found. -/
def World.Exists (key : String) (w : World) : (Nat × Option GoError) × World :=
  if w.faulty then ((0, some errInjected), w.tick)
  else ((if w.hasKey key then 1 else 0, none), w.tick)

/-- Redis `DEL key`. -/
def World.Del (key : String) (w : World) : Option GoError × World :=
  if w.faulty then (some errInjected, w.tick)
  else (none, { w.tick with redis := w.redis.filter fun kv => kv.1 ≠ key })

/-- Redis `SET key value`. -/
def World.Set (key value : String) (w : World) : Option GoError × World :=
  if w.faulty then (some errInjected, w.tick)
  else (none, { w.tick with redis := (w.redis.filter fun kv => kv.1 ≠ key) ++ [(key, value)] })

/-- Redis `GET key`. -/
def World.Get (key : String) (w : World) : Except GoError String × World :=
  if w.faulty then (.error errInjected, w.tick)
  else
    match w.redis.lookup key with
    | some v => (.ok v, w.tick)
    | none => (.error errRedisNil, w.tick)

/-- The methods of `redis.Client` (`redis_client.go`). -/
def Client.SetIdempotencyKey (key value : String) (_expiration : Duration) (w : World) :
    Option GoError × World :=
  ((w.SetNX ("idempotency:" ++ key) value).1.2, (w.SetNX ("idempotency:" ++ key) value).2)

def Client.CheckIdempotencyKey (key : String) (w : World) : (Bool × Option GoError) × World :=
  ((decide ((w.Exists ("idempotency:" ++ key)).1.1 > 0), (w.Exists ("idempotency:" ++ key)).1.2),
    (w.Exists ("idempotency:" ++ key)).2)

def Client.AcquireLock (key : String) (_expiration : Duration) (w : World) :
    (Bool × Option GoError) × World :=
  w.SetNX ("lock:" ++ key) "1"

def Client.ReleaseLock (key : String) (w : World) : Option GoError × World :=
  w.Del ("lock:" ++ key)

def Client.SetCache (key value : String) (_expiration : Duration) (w : World) :
    Option GoError × World :=
  w.Set ("cache:" ++ key) value

def Client.GetCache (key : String) (w : World) : Except GoError String × World :=
  w.Get ("cache:" ++ key)

/-- The loan table: `INSERT`, with `id` as the key of the table. -/
def World.loanCreate (loan : Loan) (w : World) : Option GoError × World :=
  if w.faulty then (some errInjected, w.tick)
  else if (w.loans.map Loan.ID).contains loan.ID then
    (some (.new "duplicate key value violates unique constraint"), w.tick)
  else (none, { w.tick with loans := w.loans ++ [loan] })

/-- The loan table: `SELECT ... WHERE id = $1`. -/
def World.loanGetByID (id : UUID) (w : World) : Except GoError Loan × World :=
  if w.faulty then (.error errInjected, w.tick)
  else
    match w.loans.find? fun l => l.ID = id with
    | some loan => (.ok loan, w.tick)
    | none => (.error (.wrap "loan not found" errNoRows), w.tick)

/-- The loan table: `SELECT ... WHERE state = $1 ORDER BY created_at DESC`. -/
def World.loanGetByState (state : LoanState) (w : World) : Except GoError (List Loan) × World :=
  if w.faulty then (.error errInjected, w.tick)
  else
    (.ok ((w.loans.filter fun l => l.State = state).insertionSort
      fun a b => a.CreatedAt ≥ b.CreatedAt), w.tick)

/-- The columns `UPDATE loans SET ... WHERE id = $1` writes into a row. -/
def Loan.updateFrom (row loan : Loan) : Loan :=
  { row with
    PrincipalAmount := loan.PrincipalAmount
    Rate := loan.Rate
    ROI := loan.ROI
    AgreementLetterURL := loan.AgreementLetterURL
    State := loan.State
    UpdatedAt := loan.UpdatedAt }

/-- The loan table: `UPDATE loans SET ... WHERE id = $1`; no error when no row
has this id. -/
def World.loanUpdate (loan : Loan) (w : World) : Option GoError × World :=
  if w.faulty then (some errInjected, w.tick)
  else
    (none, { w.tick with
      loans := w.loans.map fun row => if row.ID = loan.ID then row.updateFrom loan else row })

def World.approvalCreate (approval : LoanApproval) (w : World) : Option GoError × World :=
  if w.faulty then (some errInjected, w.tick)
  else (none, { w.tick with approvals := w.approvals ++ [approval] })

def World.approvalGetByLoanID (loanID : UUID) (w : World) : Except GoError LoanApproval × World :=
  if w.faulty then (.error errInjected, w.tick)
  else
    match w.approvals.find? fun a => a.LoanID = loanID with
    | some a => (.ok a, w.tick)
    | none => (.error (.wrap "approval not found" errNoRows), w.tick)

def World.investmentCreate (investment : Investment) (w : World) : Option GoError × World :=
  if w.faulty then (some errInjected, w.tick)
  else (none, { w.tick with investments := w.investments ++ [investment] })

/-- The investment table: `SELECT ... WHERE loan_id = $1 ORDER BY created_at ASC`. -/
def World.investmentGetByLoanID (loanID : UUID) (w : World) :
    Except GoError (List Investment) × World :=
  if w.faulty then (.error errInjected, w.tick)
  else
    (.ok ((w.investments.filter fun i => i.LoanID = loanID).insertionSort
      fun a b => a.CreatedAt ≤ b.CreatedAt), w.tick)

/-- Modelled from the spec: the sum `SELECT COALESCE(SUM(amount), 0) FROM investments
WHERE loan_id = $1`. The schema is not among the sources; the spec has the
storage layer accumulate floats, so the amounts of the rows of the loan are
added as `float64` values, in the order of insertion, starting from 0. -/
def World.total (w : World) (loanID : UUID) : Float64 :=
  ((w.investments.filter fun i => i.LoanID = loanID).map Investment.Amount).foldl (· + ·) 0

/-- The sum of the amounts of the rows of the loan as rational numbers, without
any rounding. -/
def World.exactTotal (w : World) (loanID : UUID) : ℚ :=
  ((w.investments.filter fun i => i.LoanID = loanID).map fun i => i.Amount.toRat).sum

def World.investmentGetTotalByLoanID (loanID : UUID) (w : World) :
    Except GoError Float64 × World :=
  if w.faulty then (.error (.wrap "failed to get total investment" errInjected), w.tick)
  else (.ok (w.total loanID), w.tick)

def World.disbursementCreate (d : Disbursement) (w : World) : Option GoError × World :=
  if w.faulty then (some errInjected, w.tick)
  else (none, { w.tick with disbursements := w.disbursements ++ [d] })

def World.disbursementGetByLoanID (loanID : UUID) (w : World) :
    Except GoError Disbursement × World :=
  if w.faulty then (.error errInjected, w.tick)
  else
    match w.disbursements.find? fun d => d.LoanID = loanID with
    | some d => (.ok d, w.tick)
    | none => (.error (.wrap "disbursement not found" errNoRows), w.tick)

def World.userCreate (user : User) (w : World) : Option GoError × World :=
  if w.faulty then (some errInjected, w.tick)
  else (none, { w.tick with users := w.users ++ [user] })

def World.userGetByID (id : UUID) (w : World) : Except GoError User × World :=
  if w.faulty then (.error errInjected, w.tick)
  else
    match w.users.find? fun u => u.ID = id with
    | some u => (.ok u, w.tick)
    | none => (.error (.wrap "user not found" errNoRows), w.tick)

def World.userGetByEmail (email : String) (w : World) : Except GoError User × World :=
  if w.faulty then (.error errInjected, w.tick)
  else
    match w.users.find? fun u => u.Email = email with
    | some u => (.ok u, w.tick)
    | none => (.error (.wrap "user not found" errNoRows), w.tick)

/-- The method `LocalFileStorage.Store`: the file is kept under
`{unix time}_{filename}`. -/
def World.fileStore (file : Reader) (filename : String) (w : World) :
    Except GoError String × World :=
  if w.faulty then (.error (.wrap "failed to create file" errInjected), w.tick)
  else
    (.ok (toString w.clock ++ "_" ++ filename),
      { w.tick with files := w.files ++ [(toString w.clock ++ "_" ++ filename, file)] })

/-- The method `LocalFileStorage.GetURL`. -/
def World.fileGetURL (path : String) (w : World) : String × World :=
  (w.baseURL ++ "/" ++ path, w)

def World.fileDelete (path : String) (w : World) : Option GoError × World :=
  if w.faulty then (some errInjected, w.tick)
  else (none, { w.tick with files := w.files.filter fun f => f.1 ≠ path })

/-- The email service: the message is put in the outbox. -/
def World.sendAgreementEmail (investorEmail agreementURL : String) (w : World) :
    Option GoError × World :=
  if w.faulty then (some errInjected, w.tick)
  else (none, { w.tick with outbox := w.outbox ++ [(investorEmail, agreementURL)] })

/-- The function `time.Now()`: the clock is read and moves on. -/
def World.now (w : World) : Time × World :=
  (w.clock, { w with clock := w.clock + 1 })

/-- The function `uuid.New()`. -/
def World.newUUID (w : World) : UUID × World :=
  (UUID.ofNat w.uuids, { w with uuids := w.uuids + 1 })

/-- The use cases wired to the in-memory collaborators. -/
def World.useCase : LoanUseCase World where
  loanRepo :=
    { Create := World.loanCreate
      GetByID := World.loanGetByID
      GetByState := World.loanGetByState
      Update := World.loanUpdate }
  approvalRepo := { Create := World.approvalCreate, GetByLoanID := World.approvalGetByLoanID }
  investmentRepo :=
    { Create := World.investmentCreate
      GetByLoanID := World.investmentGetByLoanID
      GetTotalByLoanID := World.investmentGetTotalByLoanID }
  disbursementRepo :=
    { Create := World.disbursementCreate, GetByLoanID := World.disbursementGetByLoanID }
  userRepo :=
    { Create := World.userCreate
      GetByID := World.userGetByID
      GetByEmail := World.userGetByEmail }
  redisClient :=
    { SetIdempotencyKey := Client.SetIdempotencyKey
      CheckIdempotencyKey := Client.CheckIdempotencyKey
      AcquireLock := Client.AcquireLock
      ReleaseLock := Client.ReleaseLock
      SetCache := Client.SetCache
      GetCache := Client.GetCache }
  fileStorage :=
    { Store := World.fileStore, GetURL := World.fileGetURL, Delete := World.fileDelete }
  emailService := { SendAgreementEmail := World.sendAgreementEmail }
  runtime := { Now := World.now, NewUUID := World.newUUID }

/-- The world after a sequence of `Invest` calls made one after another. -/
def World.runInvests (w : World) : List InvestRequest → World
  | [] => w
  | req :: rest => World.runInvests (World.useCase.Invest req w).2 rest

/-- An empty world: no rows, no keys, no faults. -/
def World.empty : World :=
  { loans := [], approvals := [], investments := [], disbursements := [], users := []
    redis := [], files := [], outbox := [], baseURL := "http://localhost:8080/files"
    clock := 0, uuids := 0, faults := [] }

/-- Whether a call is an insert of an approval record. -/
def Call.isApprovalCreate : Call → Bool
  | .ApprovalCreate _ => true
  | _ => false

/-- Whether a call is a loan update. -/
def Call.isLoanUpdate : Call → Bool
  | .LoanUpdate _ => true
  | _ => false


/-- The world `w'` has the same loan rows and investment rows as `w`. -/
def World.SameBooks (w w' : World) : Prop :=
  w'.loans = w.loans ∧ w'.investments = w.investments

/-- Every row of loan `id` has principal `P`, and the total of the investments
of loan `id` does not exceed `P`. -/
def World.WithinPrincipal (P : Float64) (id : UUID) (w : World) : Prop :=
  (∀ l ∈ w.loans, l.ID = id → l.PrincipalAmount = P) ∧ ¬ w.total id > P

/-! ## Concrete data for the examples -/

namespace Example

/-- A loan of 10000 as `NewLoan` makes it. -/
def proposedLoan : Loan := NewLoan (UUID.ofNat 1) 0 (UUID.ofNat 2) 10000 5 3

/-- The same loan once approved. -/
def approvedLoan : Loan := { proposedLoan with State := StateApproved }

/-- A world holding the proposed loan and nothing else. -/
def fresh : World := { World.empty with loans := [proposedLoan] }

/-- A world holding the approved loan and nothing else. -/
def funding : World := { World.empty with loans := [approvedLoan] }

/-- A request to approve the loan. -/
def approveRequest : ApproveLoanRequest :=
  { LoanID := UUID.ofNat 1, EmployeeID := UUID.ofNat 3, PictureProof := [1, 2, 3]
    PictureProofFilename := "proof.jpg", ApprovalDate := 5, IdempotencyKey := "token-1" }

/-- A request to invest in the loan. -/
def investRequest (investor : Nat) (amount : Float64) (token : String) : InvestRequest :=
  { LoanID := UUID.ofNat 1, InvestorID := UUID.ofNat investor, Amount := amount
    IdempotencyKey := token }

/-- The world `funding` while somebody holds the investment lock of the loan. -/
def locked : World :=
  { funding with redis := [("lock:invest:00000000-0000-0000-0000-000000000001", "1")] }

/-- The world `fresh` with the marker of `approveRequest` already written. -/
def marked : World :=
  { fresh with
    redis := [("idempotency:approve:00000000-0000-0000-0000-000000000001:token-1", "approved")] }

end Example


namespace Example

/-- A request to create a loan of 10000. -/
def createRequest : CreateLoanRequest :=
  { BorrowerID := UUID.ofNat 2, PrincipalAmount := 10000, Rate := 5, ROI := 3 }

end Example

namespace Example

/-- A request to disburse the loan. -/
def disburseRequest : DisburseLoanRequest :=
  { LoanID := UUID.ofNat 1, EmployeeID := UUID.ofNat 3, SignedAgreement := [4, 5, 6]
    SignedAgreementFilename := "agreement.pdf", DisbursementDate := 9, IdempotencyKey := "token-2" }

end Example

/-! ## What a call does to the tables of the in-memory collaborators -/

/-- The rows of the loan table after `UPDATE loans SET ... WHERE id = $1` with
the fields of `loan`. -/
def updateRows (rows : List Loan) (loan : Loan) : List Loan :=
  rows.map fun row => if row.ID = loan.ID then row.updateFrom loan else row

/-- The tables of `w'` other than the loan table (approvals, investments,
disbursements) and the base URL of the document store are those of `w`. -/
def World.SameExceptLoans (w w' : World) : Prop :=
  w'.approvals = w.approvals ∧ w'.investments = w.investments ∧
    w'.disbursements = w.disbursements ∧ w'.baseURL = w.baseURL

/-- The four tables of `w'` (loans, approvals, investments, disbursements) and
the base URL of the document store are those of `w`. -/
def World.SameTables (w w' : World) : Prop :=
  w'.loans = w.loans ∧ w.SameExceptLoans w'

/-- The errors with which `ApproveLoan` returns before a loan update is
persisted: duplicate token, loan not found, transition not allowed, failure of
the proof store, failure of the loan update. -/
inductive ApproveFailsEarly : GoError → Prop
  | duplicate : ApproveFailsEarly errDuplicateRequest
  | notFound (cause : GoError) : ApproveFailsEarly (.wrap "loan not found" cause)
  | transition (e : StateTransitionError) : ApproveFailsEarly (.transition e)
  | store (cause : GoError) : ApproveFailsEarly (.wrap "failed to store picture proof" cause)
  | update (cause : GoError) : ApproveFailsEarly (.wrap "failed to update loan" cause)

/-- The three ways an `ApproveLoan` call on the in-memory collaborators can end,
as a relation between the world before and the result with the world after. -/
inductive ApproveOutcome (req : ApproveLoanRequest) (w : World) :
    Option GoError × World → Prop
  | early (err : GoError) (w' : World) (hfail : ApproveFailsEarly err)
      (hsame : w.SameTables w') : ApproveOutcome req w (some err, w')
  | updated (loan : Loan) (t : Time) (cause : GoError) (w' : World)
      (hfind : w.loans.find? (fun l => l.ID = req.LoanID) = some loan)
      (hstate : loan.State = StateProposed)
      (hloans : w'.loans
        = updateRows w.loans { loan with State := StateApproved, UpdatedAt := t })
      (hrest : w.SameExceptLoans w') :
      ApproveOutcome req w (some (.wrap "failed to create approval" cause), w')
  | completed (loan : Loan) (t : Time) (approval : LoanApproval) (w' : World)
      (hfind : w.loans.find? (fun l => l.ID = req.LoanID) = some loan)
      (hstate : loan.State = StateProposed)
      (hloans : w'.loans
        = updateRows w.loans { loan with State := StateApproved, UpdatedAt := t })
      (hid : approval.LoanID = req.LoanID)
      (happ : w'.approvals = w.approvals ++ [approval])
      (hinv : w'.investments = w.investments)
      (hdis : w'.disbursements = w.disbursements)
      (hurl : w'.baseURL = w.baseURL) :
      ApproveOutcome req w (none, w')

/-- The three ways a `DisburseLoan` call on the in-memory collaborators can end. -/
inductive DisburseOutcome (req : DisburseLoanRequest) (w : World) :
    Option GoError × World → Prop
  | early (err : GoError) (w' : World) (hsame : w.SameTables w') :
      DisburseOutcome req w (some err, w')
  | updated (loan : Loan) (t : Time) (cause : GoError) (w' : World)
      (hfind : w.loans.find? (fun l => l.ID = req.LoanID) = some loan)
      (hstate : loan.State = StateInvested)
      (hloans : w'.loans
        = updateRows w.loans { loan with State := StateDisbursed, UpdatedAt := t })
      (hrest : w.SameExceptLoans w') :
      DisburseOutcome req w (some (.wrap "failed to create disbursement" cause), w')
  | completed (loan : Loan) (t : Time) (disbursement : Disbursement) (w' : World)
      (hfind : w.loans.find? (fun l => l.ID = req.LoanID) = some loan)
      (hstate : loan.State = StateInvested)
      (hloans : w'.loans
        = updateRows w.loans { loan with State := StateDisbursed, UpdatedAt := t })
      (hid : disbursement.LoanID = req.LoanID)
      (happ : w'.approvals = w.approvals)
      (hinv : w'.investments = w.investments)
      (hdis : w'.disbursements = w.disbursements ++ [disbursement])
      (hurl : w'.baseURL = w.baseURL) :
      DisburseOutcome req w (none, w')

/-- The facts common to every `Invest` call that inserted its investment row:
the loan it loaded, the validation it passed and the row it added. -/
structure InvestAdded (req : InvestRequest) (w : World) (loan : Loan)
    (investment : Investment) (w' : World) : Prop where
  hfind : w.loans.find? (fun l => l.ID = req.LoanID) = some loan
  hstate : loan.State = StateApproved
  hpos : ¬ req.Amount ≤ 0
  hfit : ¬ w.total req.LoanID + req.Amount > loan.PrincipalAmount
  hloan : investment.LoanID = req.LoanID
  hinvestor : investment.InvestorID = req.InvestorID
  hamount : investment.Amount = req.Amount
  hinv : w'.investments = w.investments ++ [investment]
  happ : w'.approvals = w.approvals
  hdis : w'.disbursements = w.disbursements
  hurl : w'.baseURL = w.baseURL

/-- The five ways an `Invest` call on the in-memory collaborators can end: before
the investment row is inserted (`early`); with the row inserted and the loan
not yet fully funded (`partly`); with the row inserted and the loan fully
funded, where the first loan update fails (`stuck`), the second one fails
(`halfway`) or both succeed (`funded`). -/
inductive InvestOutcome (req : InvestRequest) (w : World) : Option GoError × World → Prop
  | early (err : GoError) (w' : World) (hsame : w.SameTables w') :
      InvestOutcome req w (some err, w')
  | partly (loan : Loan) (investment : Investment) (w' : World)
      (hadd : InvestAdded req w loan investment w')
      (hopen : loan.IsFullyInvested (w.total req.LoanID + req.Amount) = false)
      (hloans : w'.loans = w.loans) : InvestOutcome req w (none, w')
  | stuck (loan : Loan) (investment : Investment) (cause : GoError) (w' : World)
      (hadd : InvestAdded req w loan investment w')
      (hfull : loan.IsFullyInvested (w.total req.LoanID + req.Amount) = true)
      (hloans : w'.loans = w.loans) :
      InvestOutcome req w (some (.wrap "failed to update loan state" cause), w')
  | halfway (loan : Loan) (investment : Investment) (t : Time) (cause : GoError) (w' : World)
      (hadd : InvestAdded req w loan investment w')
      (hfull : loan.IsFullyInvested (w.total req.LoanID + req.Amount) = true)
      (hloans : w'.loans
        = updateRows w.loans { loan with State := StateInvested, UpdatedAt := t }) :
      InvestOutcome req w (some (.wrap "failed to update agreement letter URL" cause), w')
  | funded (loan : Loan) (investment : Investment) (t : Time) (w' : World)
      (hadd : InvestAdded req w loan investment w')
      (hfull : loan.IsFullyInvested (w.total req.LoanID + req.Amount) = true)
      (hloans : w'.loans
        = updateRows (updateRows w.loans { loan with State := StateInvested, UpdatedAt := t })
            { loan with
              State := StateInvested
              UpdatedAt := t
              AgreementLetterURL := some (w.baseURL ++ "/" ++ agreementPath req.LoanID) }) :
      InvestOutcome req w (none, w')

/-! ## Sequences of calls on the in-memory collaborators -/

/-- One state-changing call of the use-case layer. -/
inductive Request where
  | approve (req : ApproveLoanRequest)
  | invest (req : InvestRequest)
  | disburse (req : DisburseLoanRequest)

/-- The world after one call. -/
def World.step (w : World) : Request → World
  | .approve req => (World.useCase.ApproveLoan req w).2
  | .invest req => (World.useCase.Invest req w).2
  | .disburse req => (World.useCase.DisburseLoan req w).2

/-- The world after a sequence of calls made one after another. -/
def World.run (w : World) : List Request → World
  | [] => w
  | r :: rest => World.run (w.step r) rest

/-- The approval records of a loan. -/
def World.approvalsOf (w : World) (loanID : UUID) : List LoanApproval :=
  w.approvals.filter fun a => a.LoanID = loanID

/-- The investment rows of a loan. -/
def World.investmentsOf (w : World) (loanID : UUID) : List Investment :=
  w.investments.filter fun i => i.LoanID = loanID

/-- The disbursement records of a loan. -/
def World.disbursementsOf (w : World) (loanID : UUID) : List Disbursement :=
  w.disbursements.filter fun d => d.LoanID = loanID

/-- Every row of loan `id` among `rows` has a state satisfying `P`. -/
def rowsIn (rows : List Loan) (id : UUID) (P : LoanState → Prop) : Prop :=
  ∀ l ∈ rows, l.ID = id → P l.State

namespace Example

/-- The world `fresh` in which the fourth call that can fail, the loan update of
`ApproveLoan`, fails. -/
def updateFails : World := { fresh with faults := [false, false, false, true] }

/-- The world `fresh` in which the fifth call that can fail, the approval insert
of `ApproveLoan`, fails. -/
def insertFails : World := { fresh with faults := [false, false, false, false, true] }

end Example

/-- The loan `id` has at most one approval record, and when it has one none of
its stored rows is in state proposed. -/
def World.ApprovalInv (w : World) (id : UUID) : Prop :=
  (w.approvalsOf id).length ≤ 1 ∧
    (w.approvalsOf id ≠ [] → rowsIn w.loans id fun s => s ≠ StateProposed)

/-- The loan `id` has at most one disbursement record, and when it has one all
its stored rows are in state disbursed. -/
def World.DisbursementInv (w : World) (id : UUID) : Prop :=
  (w.disbursementsOf id).length ≤ 1 ∧
    (w.disbursementsOf id ≠ [] → rowsIn w.loans id fun s => s = StateDisbursed)

/-- Every stored row of loan `id` is in state invested or disbursed. -/
def World.Closed (w : World) (id : UUID) : Prop :=
  rowsIn w.loans id fun s => s = StateInvested ∨ s = StateDisbursed


namespace Example

/-- The world `funding` after investor 7 has invested 6000 in the loan. -/
def partlyFunded : World := (World.useCase.Invest (investRequest 7 6000 "token-a") funding).2

end Example

namespace Example

/-- The same loan once fully funded. -/
def investedLoan : Loan := { proposedLoan with State := StateInvested }

/-- A world holding the invested loan and nothing else. -/
def funded : World := { World.empty with loans := [investedLoan] }

end Example

/-! ## The notification attempts -/

/-- Whether a call is a `SendAgreementEmail`. -/
def Call.isSendAgreementEmail : Call → Bool
  | .SendAgreementEmail _ _ => true
  | _ => false

/-- The log entries of one notification attempt: the lookup of the investor of
the row and, when the lookup returned a user, the send to the email address of
that user. `outcome` is what the lookup returned and whether the send returned
nil. -/
def rowAttempt (agreementURL : String) (inv : Investment)
    (outcome : Except GoError User × Bool) : List Event :=
  match outcome.1 with
  | .ok investorUser =>
    [{ call := .UserGetByID inv.InvestorID, ok := true },
     { call := .SendAgreementEmail investorUser.Email agreementURL, ok := outcome.2 }]
  | .error _ => [{ call := .UserGetByID inv.InvestorID, ok := false }]

/-- The log entries of one notification attempt per row, in the order of the
rows. -/
def attempts (agreementURL : String) :
    List Investment → List (Except GoError User × Bool) → List Event
  | inv :: invs, outcome :: outcomes =>
    rowAttempt agreementURL inv outcome ++ attempts agreementURL invs outcomes
  | _, _ => []

namespace Example

/-- The user record of investor 7. -/
def investor7 : User :=
  { ID := UUID.ofNat 7, Email := "seven@example.com", Password := "hash", UserType := "investor"
    CreatedAt := 0, UpdatedAt := 0 }

/-- The user record of investor 8. -/
def investor8 : User :=
  { ID := UUID.ofNat 8, Email := "eight@example.com", Password := "hash", UserType := "investor"
    CreatedAt := 0, UpdatedAt := 0 }

/-- The world `funding` where investor 7 is a user and the ninth call that can
fail, the first user lookup of the notification loop of `Invest`, fails. -/
def lookupFails : World :=
  { funding with
    users := [investor7]
    faults := [false, false, false, false, false, false, false, false, true] }

/-- The world `partlyFunded` where investor 8 is a user and investor 7 is not. -/
def oneKnown : World := { partlyFunded with users := [investor8] }

end Example

namespace Example

/-- The investment row of investor 7 in `partlyFunded`. -/
def row7 : Investment :=
  { ID := UUID.ofNat 0, LoanID := UUID.ofNat 1, InvestorID := UUID.ofNat 7, Amount := 6000
    CreatedAt := 0 }

/-- The investment row that the request of investor 8 for 4000 adds to
`partlyFunded`. -/
def row8 : Investment :=
  { ID := UUID.ofNat 1, LoanID := UUID.ofNat 1, InvestorID := UUID.ofNat 8, Amount := 4000
    CreatedAt := 1 }

end Example
/-! ## The agreement reference of the stored loans -/

/-- Every stored loan with an agreement reference is in state invested or
disbursed. -/
def World.AgreementOnlyWhenFunded (w : World) : Prop :=
  ∀ l ∈ w.loans, l.AgreementLetterURL ≠ none →
    l.State = StateInvested ∨ l.State = StateDisbursed

namespace Example

/-- An empty world whose next UUID is that of the example loan. -/
def blank : World := { World.empty with uuids := 1 }

/-- The life of the example loan after its creation: approved, funded in one
investment by investor 7, disbursed. -/
def lifecycle : List Request :=
  [.approve approveRequest, .invest (investRequest 7 10000 "token-a"), .disburse disburseRequest]

end Example

/-! ## The shapes of the call logs

Each use case makes its collaborator calls in a fixed order and stops at the
first failure it does not discard. The relations below list, exit by exit, the
result of a use case with the log entries it adds. -/

/-- Whether the use cases discard the error of a call: the idempotency check
(only its boolean is used), the marker commit, the deferred lock release, and
the calls of the notification step (the rows query, the user lookups, the
sends). -/
def Call.isBestEffort : Call → Bool
  | .CheckIdempotencyKey _ => true
  | .SetIdempotencyKey _ _ _ => true
  | .ReleaseLock _ => true
  | .InvestmentGetByLoanID _ => true
  | .UserGetByID _ => true
  | .SendAgreementEmail _ _ => true
  | _ => false

/-- Whether a call is a marker commit. -/
def Call.isSetIdempotencyKey : Call → Bool
  | .SetIdempotencyKey _ _ _ => true
  | _ => false

/-- Whether a call is an insert of an approval, investment or disbursement
record. -/
def Call.isInsert : Call → Bool
  | .ApprovalCreate _ => true
  | .InvestmentCreate _ => true
  | .DisbursementCreate _ => true
  | _ => false

/-- Whether a call is a durable write of a use case: a loan update or a record
insert. -/
def Call.isWrite (c : Call) : Bool := c.isLoanUpdate || c.isInsert

/-- The exits of `ApproveLoan`: its result and the log entries of the call. -/
inductive ApproveTrace (req : ApproveLoanRequest) : Option GoError → List Event → Prop
  | duplicate (c : Bool) :
      ApproveTrace req (some errDuplicateRequest)
        [⟨.CheckIdempotencyKey (approveKey req.LoanID req.IdempotencyKey), c⟩]
  | notFound (c : Bool) (err : GoError) :
      ApproveTrace req (some (.wrap "loan not found" err))
        [⟨.CheckIdempotencyKey (approveKey req.LoanID req.IdempotencyKey), c⟩,
         ⟨.LoanGetByID req.LoanID, false⟩]
  | illegal (c : Bool) (err : GoError) :
      ApproveTrace req (some err)
        [⟨.CheckIdempotencyKey (approveKey req.LoanID req.IdempotencyKey), c⟩,
         ⟨.LoanGetByID req.LoanID, true⟩]
  | storeFails (c : Bool) (err : GoError) :
      ApproveTrace req (some (.wrap "failed to store picture proof" err))
        [⟨.CheckIdempotencyKey (approveKey req.LoanID req.IdempotencyKey), c⟩,
         ⟨.LoanGetByID req.LoanID, true⟩,
         ⟨.FileStore req.PictureProof req.PictureProofFilename, false⟩]
  | updateFails (c : Bool) (path : String) (loan : Loan) (err : GoError) :
      ApproveTrace req (some (.wrap "failed to update loan" err))
        [⟨.CheckIdempotencyKey (approveKey req.LoanID req.IdempotencyKey), c⟩,
         ⟨.LoanGetByID req.LoanID, true⟩,
         ⟨.FileStore req.PictureProof req.PictureProofFilename, true⟩,
         ⟨.FileGetURL path, true⟩,
         ⟨.LoanUpdate loan, false⟩]
  | insertFails (c : Bool) (path : String) (loan : Loan) (approval : LoanApproval)
      (err : GoError) :
      ApproveTrace req (some (.wrap "failed to create approval" err))
        [⟨.CheckIdempotencyKey (approveKey req.LoanID req.IdempotencyKey), c⟩,
         ⟨.LoanGetByID req.LoanID, true⟩,
         ⟨.FileStore req.PictureProof req.PictureProofFilename, true⟩,
         ⟨.FileGetURL path, true⟩,
         ⟨.LoanUpdate loan, true⟩,
         ⟨.ApprovalCreate approval, false⟩]
  | done (c : Bool) (path : String) (loan : Loan) (approval : LoanApproval) (m : Bool) :
      ApproveTrace req none
        [⟨.CheckIdempotencyKey (approveKey req.LoanID req.IdempotencyKey), c⟩,
         ⟨.LoanGetByID req.LoanID, true⟩,
         ⟨.FileStore req.PictureProof req.PictureProofFilename, true⟩,
         ⟨.FileGetURL path, true⟩,
         ⟨.LoanUpdate loan, true⟩,
         ⟨.ApprovalCreate approval, true⟩,
         ⟨.SetIdempotencyKey (approveKey req.LoanID req.IdempotencyKey) "approved" (24 * Hour),
           m⟩]

/-- The exits of `DisburseLoan`: its result and the log entries of the call. -/
inductive DisburseTrace (req : DisburseLoanRequest) : Option GoError → List Event → Prop
  | duplicate (c : Bool) :
      DisburseTrace req (some errDuplicateRequest)
        [⟨.CheckIdempotencyKey (disburseKey req.LoanID req.IdempotencyKey), c⟩]
  | notFound (c : Bool) (err : GoError) :
      DisburseTrace req (some (.wrap "loan not found" err))
        [⟨.CheckIdempotencyKey (disburseKey req.LoanID req.IdempotencyKey), c⟩,
         ⟨.LoanGetByID req.LoanID, false⟩]
  | illegal (c : Bool) (err : GoError) :
      DisburseTrace req (some err)
        [⟨.CheckIdempotencyKey (disburseKey req.LoanID req.IdempotencyKey), c⟩,
         ⟨.LoanGetByID req.LoanID, true⟩]
  | storeFails (c : Bool) (err : GoError) :
      DisburseTrace req (some (.wrap "failed to store signed agreement" err))
        [⟨.CheckIdempotencyKey (disburseKey req.LoanID req.IdempotencyKey), c⟩,
         ⟨.LoanGetByID req.LoanID, true⟩,
         ⟨.FileStore req.SignedAgreement req.SignedAgreementFilename, false⟩]
  | updateFails (c : Bool) (path : String) (loan : Loan) (err : GoError) :
      DisburseTrace req (some (.wrap "failed to update loan" err))
        [⟨.CheckIdempotencyKey (disburseKey req.LoanID req.IdempotencyKey), c⟩,
         ⟨.LoanGetByID req.LoanID, true⟩,
         ⟨.FileStore req.SignedAgreement req.SignedAgreementFilename, true⟩,
         ⟨.FileGetURL path, true⟩,
         ⟨.LoanUpdate loan, false⟩]
  | insertFails (c : Bool) (path : String) (loan : Loan) (disbursement : Disbursement)
      (err : GoError) :
      DisburseTrace req (some (.wrap "failed to create disbursement" err))
        [⟨.CheckIdempotencyKey (disburseKey req.LoanID req.IdempotencyKey), c⟩,
         ⟨.LoanGetByID req.LoanID, true⟩,
         ⟨.FileStore req.SignedAgreement req.SignedAgreementFilename, true⟩,
         ⟨.FileGetURL path, true⟩,
         ⟨.LoanUpdate loan, true⟩,
         ⟨.DisbursementCreate disbursement, false⟩]
  | done (c : Bool) (path : String) (loan : Loan) (disbursement : Disbursement) (m : Bool) :
      DisburseTrace req none
        [⟨.CheckIdempotencyKey (disburseKey req.LoanID req.IdempotencyKey), c⟩,
         ⟨.LoanGetByID req.LoanID, true⟩,
         ⟨.FileStore req.SignedAgreement req.SignedAgreementFilename, true⟩,
         ⟨.FileGetURL path, true⟩,
         ⟨.LoanUpdate loan, true⟩,
         ⟨.DisbursementCreate disbursement, true⟩,
         ⟨.SetIdempotencyKey (disburseKey req.LoanID req.IdempotencyKey) "disbursed"
           (24 * Hour), m⟩]

/-- The exits of the part of `Invest` that runs while the lock is held: its
result and the log entries it adds. -/
inductive LockedTrace (req : InvestRequest) : Option GoError → List Event → Prop
  | duplicate (c : Bool) :
      LockedTrace req (some errDuplicateRequest)
        [⟨.CheckIdempotencyKey (investKey req.LoanID req.InvestorID req.IdempotencyKey), c⟩]
  | notFound (c : Bool) (err : GoError) :
      LockedTrace req (some (.wrap "loan not found" err))
        [⟨.CheckIdempotencyKey (investKey req.LoanID req.InvestorID req.IdempotencyKey), c⟩,
         ⟨.LoanGetByID req.LoanID, false⟩]
  | notApproved (c : Bool) :
      LockedTrace req (some (.new "loan must be in approved state to accept investments"))
        [⟨.CheckIdempotencyKey (investKey req.LoanID req.InvestorID req.IdempotencyKey), c⟩,
         ⟨.LoanGetByID req.LoanID, true⟩]
  | totalFails (c : Bool) (err : GoError) :
      LockedTrace req (some (.wrap "failed to get current investment total" err))
        [⟨.CheckIdempotencyKey (investKey req.LoanID req.InvestorID req.IdempotencyKey), c⟩,
         ⟨.LoanGetByID req.LoanID, true⟩,
         ⟨.InvestmentGetTotalByLoanID req.LoanID, false⟩]
  | invalid (c : Bool) (err : GoError) :
      LockedTrace req (some err)
        [⟨.CheckIdempotencyKey (investKey req.LoanID req.InvestorID req.IdempotencyKey), c⟩,
         ⟨.LoanGetByID req.LoanID, true⟩,
         ⟨.InvestmentGetTotalByLoanID req.LoanID, true⟩]
  | insertFails (c : Bool) (investment : Investment) (err : GoError) :
      LockedTrace req (some (.wrap "failed to create investment" err))
        [⟨.CheckIdempotencyKey (investKey req.LoanID req.InvestorID req.IdempotencyKey), c⟩,
         ⟨.LoanGetByID req.LoanID, true⟩,
         ⟨.InvestmentGetTotalByLoanID req.LoanID, true⟩,
         ⟨.InvestmentCreate investment, false⟩]
  | partly (c : Bool) (investment : Investment) (m : Bool) :
      LockedTrace req none
        [⟨.CheckIdempotencyKey (investKey req.LoanID req.InvestorID req.IdempotencyKey), c⟩,
         ⟨.LoanGetByID req.LoanID, true⟩,
         ⟨.InvestmentGetTotalByLoanID req.LoanID, true⟩,
         ⟨.InvestmentCreate investment, true⟩,
         ⟨.SetIdempotencyKey (investKey req.LoanID req.InvestorID req.IdempotencyKey)
           "invested" (24 * Hour), m⟩]
  | firstUpdateFails (c : Bool) (investment : Investment) (loan : Loan) (err : GoError) :
      LockedTrace req (some (.wrap "failed to update loan state" err))
        [⟨.CheckIdempotencyKey (investKey req.LoanID req.InvestorID req.IdempotencyKey), c⟩,
         ⟨.LoanGetByID req.LoanID, true⟩,
         ⟨.InvestmentGetTotalByLoanID req.LoanID, true⟩,
         ⟨.InvestmentCreate investment, true⟩,
         ⟨.LoanUpdate loan, false⟩]
  | secondUpdateFails (c : Bool) (investment : Investment) (loan withURL : Loan)
      (err : GoError) :
      LockedTrace req (some (.wrap "failed to update agreement letter URL" err))
        [⟨.CheckIdempotencyKey (investKey req.LoanID req.InvestorID req.IdempotencyKey), c⟩,
         ⟨.LoanGetByID req.LoanID, true⟩,
         ⟨.InvestmentGetTotalByLoanID req.LoanID, true⟩,
         ⟨.InvestmentCreate investment, true⟩,
         ⟨.LoanUpdate loan, true⟩,
         ⟨.FileGetURL (agreementPath req.LoanID), true⟩,
         ⟨.LoanUpdate withURL, false⟩]
  | rowsFail (c : Bool) (investment : Investment) (loan withURL : Loan) (m : Bool) :
      LockedTrace req none
        [⟨.CheckIdempotencyKey (investKey req.LoanID req.InvestorID req.IdempotencyKey), c⟩,
         ⟨.LoanGetByID req.LoanID, true⟩,
         ⟨.InvestmentGetTotalByLoanID req.LoanID, true⟩,
         ⟨.InvestmentCreate investment, true⟩,
         ⟨.LoanUpdate loan, true⟩,
         ⟨.FileGetURL (agreementPath req.LoanID), true⟩,
         ⟨.LoanUpdate withURL, true⟩,
         ⟨.InvestmentGetByLoanID req.LoanID, false⟩,
         ⟨.SetIdempotencyKey (investKey req.LoanID req.InvestorID req.IdempotencyKey)
           "invested" (24 * Hour), m⟩]
  | notified (c : Bool) (investment : Investment) (loan withURL : Loan) (url : String)
      (invs : List Investment) (outcomes : List (Except GoError User × Bool)) (m : Bool) :
      LockedTrace req none
        ([⟨.CheckIdempotencyKey (investKey req.LoanID req.InvestorID req.IdempotencyKey), c⟩,
          ⟨.LoanGetByID req.LoanID, true⟩,
          ⟨.InvestmentGetTotalByLoanID req.LoanID, true⟩,
          ⟨.InvestmentCreate investment, true⟩,
          ⟨.LoanUpdate loan, true⟩,
          ⟨.FileGetURL (agreementPath req.LoanID), true⟩,
          ⟨.LoanUpdate withURL, true⟩,
          ⟨.InvestmentGetByLoanID req.LoanID, true⟩] ++
         attempts url invs outcomes ++
         [⟨.SetIdempotencyKey (investKey req.LoanID req.InvestorID req.IdempotencyKey)
           "invested" (24 * Hour), m⟩])

/-- The exits of `Invest`: without the lock, only the acquisition is logged;
with it, the entries of the locked part follow and the release comes last. -/
inductive InvestTrace (req : InvestRequest) : Option GoError → List Event → Prop
  | lockFails (err : GoError) :
      InvestTrace req (some (.wrap "failed to acquire lock" err))
        [⟨.AcquireLock (investLockKey req.LoanID) (30 * Second), false⟩]
  | lockBusy :
      InvestTrace req (some errLockNotAcquired)
        [⟨.AcquireLock (investLockKey req.LoanID) (30 * Second), true⟩]
  | locked (r : Option GoError) (body : List Event) (k : Bool) (h : LockedTrace req r body) :
      InvestTrace req r
        (⟨.AcquireLock (investLockKey req.LoanID) (30 * Second), true⟩ ::
          (body ++ [⟨.ReleaseLock (investLockKey req.LoanID), k⟩]))

/-- The call with result `r` and log entries `body` stops at the first failed
call whose error is not discarded: whenever an entry of `body` is a failed call
that is not best-effort, `r` is an error and the only entries after it are lock
releases. -/
def FailStops (r : Option GoError) (body : List Event) : Prop :=
  ∀ pre e post, body = pre ++ e :: post → e.ok = false → e.call.isBestEffort = false →
    r ≠ none ∧ ∀ x ∈ post, x.call.isReleaseLock = true

/-- The call with result `r` and log entries `body` commits its marker last and
after its writes: whenever an entry of `body` is a marker commit, `r` is nil,
every loan update and record insert of the call comes before it and returned
nil, a record insert is among them, and the only entries after it are lock
releases. -/
def CommitsAfterWrites (r : Option GoError) (body : List Event) : Prop :=
  ∀ pre e post, body = pre ++ e :: post → e.call.isSetIdempotencyKey = true →
    r = none ∧ (∀ x ∈ pre, x.call.isWrite = true → x.ok = true) ∧
    (∃ x ∈ pre, x.call.isInsert = true ∧ x.ok = true) ∧
    ∀ x ∈ post, x.call.isReleaseLock = true

namespace Example

/-- The world `fresh` in which the first call that can fail, the idempotency
check, fails. -/
def checkFails : World := { fresh with faults := [true] }

/-- The world `fresh` in which the sixth call that can fail, the marker commit
of `ApproveLoan`, fails. -/
def commitFails : World := { fresh with faults := [false, false, false, false, false, true] }

/-- The world `funding` with the marker of the request of investor 7 with token
`token-a` written, while somebody holds the investment lock of the loan. -/
def lockedAndMarked : World :=
  { funding with
    redis :=
      [("idempotency:invest:00000000-0000-0000-0000-000000000001:" ++
          "00000000-0000-0000-0000-000000000007:token-a", "invested"),
       ("lock:invest:00000000-0000-0000-0000-000000000001", "1")] }

end Example

/-- In the log entries `body`, a successful loan update comes before every
marker commit. -/
def UpdatesBeforeCommit (body : List Event) : Prop :=
  ∀ pre e post, body = pre ++ e :: post → e.call.isSetIdempotencyKey = true →
    ∃ x ∈ pre, x.call.isLoanUpdate = true ∧ x.ok = true

namespace Example

/-- The world `funding` with the marker of the request of investor 7 with token
`token-a` written and the investment lock free. -/
def markedOnly : World :=
  { funding with
    redis :=
      [("idempotency:invest:00000000-0000-0000-0000-000000000001:" ++
          "00000000-0000-0000-0000-000000000007:token-a", "invested")] }

end Example

/-- The key of an idempotency check or marker commit; `none` for other calls. -/
def Call.idempotencyKey? : Call → Option String
  | .CheckIdempotencyKey key => some key
  | .SetIdempotencyKey key _ _ => some key
  | _ => none

/-! ## The investment total recomputed from the stored rows

The code computes the total after the insert as `currentTotal + req.Amount`. The
specification speaks of a total recomputed from the persisted rows. The two
definitions below follow the specification: they are `investLocked` and `Invest`
with both totals read from the store, `stored s loanID` being the sum of the
persisted investment rows of the loan in state `s`. -/

/-- The locked part of `Invest` as the specification words it: the amount is
validated against the sum of the persisted rows at that moment, and full funding
is decided on the sum of the persisted rows right after the insert. The total
query is still made and must succeed; its value is not used. -/
def LoanUseCase.investLockedRecomputing (uc : LoanUseCase σ) (stored : σ → UUID → Float64)
    (req : InvestRequest) (s : σ) : Option GoError × σ :=
  let idempotencyKey := investKey req.LoanID req.InvestorID req.IdempotencyKey
  match uc.redisClient.CheckIdempotencyKey idempotencyKey s with
  | ((true, _), s) => (some errDuplicateRequest, s)
  | ((false, _), s) =>
  match uc.loanRepo.GetByID req.LoanID s with
  | (.error err, s) => (some (.wrap "loan not found" err), s)
  | (.ok loan, s) =>
  if loan.State ≠ StateApproved then
    (some (.new "loan must be in approved state to accept investments"), s)
  else
  match uc.investmentRepo.GetTotalByLoanID req.LoanID s with
  | (.error err, s) => (some (.wrap "failed to get current investment total" err), s)
  | (.ok _, s) =>
  match loan.ValidateInvestmentAmount req.Amount (stored s req.LoanID) with
  | some err => (some err, s)
  | none =>
  match uc.runtime.NewUUID s with
  | (id, s) =>
  match uc.runtime.Now s with
  | (createdAt, s) =>
  let investment : Investment :=
    { ID := id
      LoanID := req.LoanID
      InvestorID := req.InvestorID
      Amount := req.Amount
      CreatedAt := createdAt }
  match uc.investmentRepo.Create investment s with
  | (some err, s) => (some (.wrap "failed to create investment" err), s)
  | (none, s) =>
  let newTotal := stored s req.LoanID
  match (if loan.IsFullyInvested newTotal then uc.investFullyFunded req loan s
         else (none, s)) with
  | (some err, s) => (some err, s)
  | (none, s) =>
  match uc.redisClient.SetIdempotencyKey idempotencyKey "invested" (24 * Hour) s with
  | (_, s) => (none, s)

/-- The method `Invest` with the locked part as the specification words it. -/
def LoanUseCase.InvestRecomputing (uc : LoanUseCase σ) (stored : σ → UUID → Float64)
    (req : InvestRequest) (s : σ) : Option GoError × σ :=
  let lockKey := investLockKey req.LoanID
  match uc.redisClient.AcquireLock lockKey (30 * Second) s with
  | ((_, some err), s) => (some (.wrap "failed to acquire lock" err), s)
  | ((false, none), s) => (some errLockNotAcquired, s)
  | ((true, none), s) =>
  match uc.investLockedRecomputing stored req s with
  | (result, s) =>
  match uc.redisClient.ReleaseLock lockKey s with
  | (_, s) => (result, s)

/-! ## Amounts that show the rounding -/

namespace Example

/-- A request of investor 7 for 9999.5. -/
def almostAll : InvestRequest := investRequest 7 (.fin (19999 / 2)) "token-a"

/-- A request of investor 8 for 0.5 + 2⁻⁴¹. -/
def sliver : InvestRequest := investRequest 8 (.fin (1 / 2 + 1 / 2 ^ 41)) "token-b"

/-- The world `funding` after investor 7 has invested 9999.5 in the loan. -/
def almostFunded : World := (World.useCase.Invest almostAll funding).2

/-- The `float64` nearest to 9999.99. -/
def short : Float64 := .fin (5497552641321861 / 549755813888)

end Example

/-! ## Theorems: rounding to `float64` -/

theorem pos_of_lt_two_pow {n b : Nat} (hn : n ≠ 0) (h : n < 2 ^ b) : 0 < b := by
  rcases Nat.eq_zero_or_pos b with h0 | h0
  · subst h0
    exact absurd (Nat.lt_one_iff.mp (by simpa using h)) hn
  · exact h0

theorem bitLength_spec (fuel : Nat) : ∀ n : Nat, n ≤ fuel → n ≠ 0 →
    2 ^ (bitLength fuel n - 1) ≤ n ∧ n < 2 ^ bitLength fuel n := by
  induction fuel with
  | zero => intro n h hn; omega
  | succ fuel ih =>
    intro n h hn
    rw [bitLength, if_neg hn]
    by_cases h2 : n / 2 = 0
    · have h1 : n = 1 := by omega
      subst h1
      cases fuel <;> simp [bitLength]
    · obtain ⟨ha, hb⟩ := ih (n / 2) (by omega) h2
      have hpos : 0 < bitLength fuel (n / 2) := pos_of_lt_two_pow h2 hb
      constructor
      · have : bitLength fuel (n / 2) + 1 - 1 = (bitLength fuel (n / 2) - 1) + 1 := by omega
        rw [this, pow_succ]
        omega
      · rw [pow_succ]; omega

theorem Float64.log2_spec {q : ℚ} (hq : 0 < q) :
    (2 : ℚ) ^ Float64.log2 q ≤ q ∧ q < (2 : ℚ) ^ (Float64.log2 q + 1) := by
  have hnum : 0 < q.num := Rat.num_pos.mpr hq
  have hn0 : q.num.natAbs ≠ 0 := by omega
  obtain ⟨n1, n2⟩ := bitLength_spec _ q.num.natAbs le_rfl hn0
  obtain ⟨d1, d2⟩ := bitLength_spec _ q.den le_rfl q.den_nz
  have hbn : 0 < bitLength q.num.natAbs q.num.natAbs := pos_of_lt_two_pow hn0 n2
  have hbd : 0 < bitLength q.den q.den := pos_of_lt_two_pow q.den_nz d2
  set bn := bitLength q.num.natAbs q.num.natAbs with hbn'
  set bd := bitLength q.den q.den with hbd'
  have hqe : q = (q.num.natAbs : ℚ) / (q.den : ℚ) := by
    rw [← Int.cast_natCast, Int.natAbs_of_nonneg hnum.le]
    exact (Rat.num_div_den q).symm
  have hden : (0 : ℚ) < q.den := by exact_mod_cast q.den_pos
  have n1q : (2 : ℚ) ^ (bn - 1) ≤ (q.num.natAbs : ℚ) := by exact_mod_cast n1
  have n2q : (q.num.natAbs : ℚ) < (2 : ℚ) ^ bn := by exact_mod_cast n2
  have d1q : (2 : ℚ) ^ (bd - 1) ≤ (q.den : ℚ) := by exact_mod_cast d1
  have d2q : (q.den : ℚ) < (2 : ℚ) ^ bd := by exact_mod_cast d2
  have two : (0 : ℚ) < 2 := by norm_num
  -- `2 ^ (k - 1) < q < 2 ^ (k + 1)` for the guess `k`
  have hk : Float64.log2Guess q = (bn : ℤ) - bd := rfl
  have lower : (2 : ℚ) ^ (Float64.log2Guess q - 1) < q := by
    rw [hk, hqe, lt_div_iff₀ hden]
    have e : ((bn : ℤ) - bd - 1) = ((bn - 1 : ℕ) : ℤ) - (bd : ℕ) := by omega
    rw [e, zpow_sub₀ two.ne', zpow_natCast, zpow_natCast, div_mul_eq_mul_div,
      div_lt_iff₀ (pow_pos two _)]
    calc (2 : ℚ) ^ (bn - 1) * q.den < (2 : ℚ) ^ (bn - 1) * 2 ^ bd :=
          mul_lt_mul_of_pos_left d2q (pow_pos two _)
      _ ≤ q.num.natAbs * 2 ^ bd := mul_le_mul_of_nonneg_right n1q (pow_pos two _).le
  have upper : q < (2 : ℚ) ^ (Float64.log2Guess q + 1) := by
    rw [hk, hqe, div_lt_iff₀ hden]
    have e : ((bn : ℤ) - bd + 1) = ((bn : ℕ) : ℤ) - ((bd - 1 : ℕ) : ℤ) := by omega
    rw [e, zpow_sub₀ two.ne', zpow_natCast, zpow_natCast, div_mul_eq_mul_div,
      lt_div_iff₀ (pow_pos two _)]
    calc (q.num.natAbs : ℚ) * 2 ^ (bd - 1) < 2 ^ bn * 2 ^ (bd - 1) :=
          mul_lt_mul_of_pos_right n2q (pow_pos two _)
      _ ≤ 2 ^ bn * q.den := mul_le_mul_of_nonneg_left d1q (pow_pos two _).le
  unfold Float64.log2
  split_ifs with h
  · exact ⟨h, upper⟩
  · refine ⟨lower.le, ?_⟩
    rw [sub_add_cancel]
    exact not_le.mp h

theorem Float64.log2_eq_log {q : ℚ} (hq : 0 < q) : Float64.log2 q = Int.log 2 q := by
  obtain ⟨h1, h2⟩ := Float64.log2_spec hq
  apply le_antisymm
  · exact (Int.zpow_le_iff_le_log (by norm_num) hq).mp (by exact_mod_cast h1)
  · have := (Int.lt_zpow_iff_log_lt (b := 2) (by norm_num) hq).mp (by exact_mod_cast h2)
    omega

theorem Float64.log2_mono {x y : ℚ} (hx : 0 < x) (hxy : x ≤ y) :
    Float64.log2 x ≤ Float64.log2 y := by
  rw [Float64.log2_eq_log hx, Float64.log2_eq_log (hx.trans_le hxy)]
  exact Int.log_mono_right hx hxy

theorem roundHalfEven_intCast (n : Int) : roundHalfEven (n : ℚ) = n := by
  simp [roundHalfEven]

theorem floor_le_roundHalfEven (x : ℚ) : ⌊x⌋ ≤ roundHalfEven x := by
  unfold roundHalfEven
  split_ifs <;> omega

theorem roundHalfEven_le_floor_add_one (x : ℚ) : roundHalfEven x ≤ ⌊x⌋ + 1 := by
  unfold roundHalfEven
  split_ifs <;> omega

theorem roundHalfEven_mono {x y : ℚ} (h : x ≤ y) : roundHalfEven x ≤ roundHalfEven y := by
  have hf : ⌊x⌋ ≤ ⌊y⌋ := Int.floor_mono h
  rcases hf.lt_or_eq with hlt | heq
  · calc roundHalfEven x ≤ ⌊x⌋ + 1 := roundHalfEven_le_floor_add_one x
      _ ≤ ⌊y⌋ := hlt
      _ ≤ roundHalfEven y := floor_le_roundHalfEven y
  · have hfr : x - ⌊x⌋ ≤ y - ⌊y⌋ := by rw [heq]; linarith
    unfold roundHalfEven
    rw [heq]
    split_ifs <;> first | omega | (exfalso; linarith)

theorem roundHalfEven_le_of_le {x : ℚ} {n : Int} (h : x ≤ n) : roundHalfEven x ≤ n := by
  have := roundHalfEven_mono h
  rwa [roundHalfEven_intCast] at this

theorem le_roundHalfEven_of_le {x : ℚ} {n : Int} (h : (n : ℚ) ≤ x) : n ≤ roundHalfEven x := by
  have := roundHalfEven_mono h
  rwa [roundHalfEven_intCast] at this

theorem Float64.quantum_pos (q : ℚ) : 0 < Float64.quantum q :=
  zpow_pos (by norm_num) _

theorem Float64.exponent_mono {x y : ℚ} (hx : 0 < x) (hxy : x ≤ y) :
    Float64.exponent x ≤ Float64.exponent y :=
  max_le_max (Float64.log2_mono hx hxy) le_rfl

theorem Float64.nearest_nonneg {q : ℚ} (hq : 0 < q) : 0 ≤ Float64.nearest q := by
  unfold Float64.nearest
  have h0 : (0 : Int) ≤ roundHalfEven (q / Float64.quantum q) :=
    le_roundHalfEven_of_le (by simpa using (div_pos hq (Float64.quantum_pos q)).le)
  exact mul_nonneg (by exact_mod_cast h0) (Float64.quantum_pos q).le

theorem Float64.nearest_mono {x y : ℚ} (hx : 0 < x) (hxy : x ≤ y) :
    Float64.nearest x ≤ Float64.nearest y := by
  have hy : 0 < y := hx.trans_le hxy
  have two : (0 : ℚ) < 2 := by norm_num
  rcases (Float64.exponent_mono hx hxy).lt_or_eq with hlt | heq
  · -- different binades: the power of two between them is a value of both grids
    have hey : Float64.exponent y = Float64.log2 y := by
      unfold Float64.exponent at hlt ⊢
      have : (-1022 : Int) ≤ max (Float64.log2 x) (-1022) := le_max_right _ _
      exact max_eq_left (by omega)
    have hylow : (2 : ℚ) ^ Float64.exponent y ≤ y := by
      rw [hey]; exact (Float64.log2_spec hy).1
    have hxup : x ≤ (2 : ℚ) ^ Float64.exponent y := by
      have h1 := (Float64.log2_spec hx).2
      have h2 : Float64.log2 x + 1 ≤ Float64.exponent y := by
        have : Float64.log2 x ≤ Float64.exponent x := le_max_left _ _
        omega
      exact h1.le.trans (zpow_le_zpow_right₀ (by norm_num) h2)
    have hny : (2 : ℚ) ^ Float64.exponent y ≤ Float64.nearest y := by
      unfold Float64.nearest Float64.quantum
      have hq : ((2 ^ 52 : Int) : ℚ) ≤ y / (2 : ℚ) ^ (Float64.exponent y - 52) := by
        rw [le_div_iff₀ (zpow_pos two _)]
        calc ((2 ^ 52 : Int) : ℚ) * (2 : ℚ) ^ (Float64.exponent y - 52)
            = (2 : ℚ) ^ Float64.exponent y := by
              rw [zpow_sub₀ two.ne']; push_cast; field_simp; norm_num; ring
          _ ≤ y := hylow
      have hr := le_roundHalfEven_of_le hq
      calc (2 : ℚ) ^ Float64.exponent y
          = ((2 ^ 52 : Int) : ℚ) * (2 : ℚ) ^ (Float64.exponent y - 52) := by
            rw [zpow_sub₀ two.ne']; push_cast; field_simp; norm_num; ring
        _ ≤ _ := mul_le_mul_of_nonneg_right (by exact_mod_cast hr) (zpow_pos two _).le
    have hnx : Float64.nearest x ≤ (2 : ℚ) ^ Float64.exponent y := by
      unfold Float64.nearest Float64.quantum
      obtain ⟨k, hk⟩ : ∃ k : Nat, Float64.exponent y - (Float64.exponent x - 52) = k :=
        ⟨(Float64.exponent y - (Float64.exponent x - 52)).toNat, by omega⟩
      have hpow : (2 : ℚ) ^ Float64.exponent y
          = ((2 ^ k : Int) : ℚ) * (2 : ℚ) ^ (Float64.exponent x - 52) := by
        push_cast
        rw [← zpow_natCast, ← hk, ← zpow_add₀ two.ne']
        congr 1; ring
      have hq : x / (2 : ℚ) ^ (Float64.exponent x - 52) ≤ ((2 ^ k : Int) : ℚ) := by
        rw [div_le_iff₀ (zpow_pos two _), ← hpow]
        exact hxup
      have hr := roundHalfEven_le_of_le hq
      rw [hpow]
      exact mul_le_mul_of_nonneg_right (by exact_mod_cast hr) (zpow_pos two _).le
    exact hnx.trans hny
  · unfold Float64.nearest Float64.quantum
    rw [heq]
    have hu : (0 : ℚ) < (2 : ℚ) ^ (Float64.exponent y - 52) := zpow_pos two _
    have := roundHalfEven_mono (div_le_div_of_nonneg_right hxy hu.le)
    exact mul_le_mul_of_nonneg_right (by exact_mod_cast this) hu.le

theorem Float64.ofRat_mono {x y : ℚ} (h : x ≤ y) :
    Float64.le (Float64.ofRat x) (Float64.ofRat y) = true := by
  unfold Float64.ofRat
  rcases lt_trichotomy x 0 with hx | hx | hx
  · have hx0 : ¬ x = 0 := hx.ne
    have hx1 : ¬ 0 < x := not_lt.mpr hx.le
    have hnx : 0 ≤ Float64.nearest (-x) := Float64.nearest_nonneg (by linarith)
    rw [if_neg hx0, if_neg hx1]
    rcases lt_trichotomy y 0 with hy | hy | hy
    · have hy0 : ¬ y = 0 := hy.ne
      have hy1 : ¬ 0 < y := not_lt.mpr hy.le
      rw [if_neg hy0, if_neg hy1]
      have hm : Float64.nearest (-y) ≤ Float64.nearest (-x) :=
        Float64.nearest_mono (by linarith) (by linarith)
      by_cases h1 : Float64.huge ≤ Float64.nearest (-x)
      · rw [if_pos h1]; split_ifs <;> rfl
      · have h2 : ¬ Float64.huge ≤ Float64.nearest (-y) := fun h2 => h1 (h2.trans hm)
        rw [if_neg h1, if_neg h2]
        simp only [Float64.le, decide_eq_true_eq]; linarith
    · subst hy
      rw [if_pos rfl]
      split_ifs
      · rfl
      · simp only [Float64.le, decide_eq_true_eq]; linarith
    · have hy0 : ¬ y = 0 := hy.ne'
      have hny : 0 ≤ Float64.nearest y := Float64.nearest_nonneg hy
      rw [if_neg hy0, if_pos hy]
      split_ifs
      · rfl
      · rfl
      · rfl
      · simp only [Float64.le, decide_eq_true_eq]; linarith
  · subst hx
    rw [if_pos rfl]
    rcases h.lt_or_eq with hy | hy
    · have hy0 : ¬ y = 0 := hy.ne'
      have hny : 0 ≤ Float64.nearest y := Float64.nearest_nonneg hy
      rw [if_neg hy0, if_pos hy]
      split_ifs
      · rfl
      · simp only [Float64.le, decide_eq_true_eq]; exact hny
    · subst hy
      rw [if_pos rfl]
      simp [Float64.le]
  · have hy : 0 < y := hx.trans_le h
    rw [if_neg hx.ne', if_pos hx, if_neg hy.ne', if_pos hy]
    have hm := Float64.nearest_mono hx h
    by_cases h2 : Float64.huge ≤ Float64.nearest y
    · rw [if_pos h2]; split_ifs <;> rfl
    · have h1 : ¬ Float64.huge ≤ Float64.nearest x := fun h1 => h2 (h1.trans hm)
      rw [if_neg h1, if_neg h2]
      simp only [Float64.le, decide_eq_true_eq]; exact hm

theorem Float64.zero_eq : (0 : Float64) = .fin 0 := rfl

theorem Float64.le_iff (a b : Float64) : a ≤ b ↔ Float64.le a b = true := Iff.rfl

theorem Float64.lt_iff (a b : Float64) : a < b ↔ Float64.lt a b = true := Iff.rfl

theorem Float64.fin_add_fin (a b : ℚ) : Float64.fin a + Float64.fin b = Float64.ofRat (a + b) :=
  rfl

theorem Float64.fin_sub_fin (a b : ℚ) : Float64.fin a - Float64.fin b = Float64.ofRat (a - b) :=
  rfl

theorem Float64.fin_le_fin {a b : ℚ} : Float64.fin a ≤ Float64.fin b ↔ a ≤ b := by
  simp [Float64.le_iff, Float64.le]

theorem Float64.fin_lt_fin {a b : ℚ} : Float64.fin a < Float64.fin b ↔ a < b := by
  simp [Float64.lt_iff, Float64.lt]

theorem Float64.not_lt_of_le {a b : Float64} (h : a ≤ b) : ¬ b < a := by
  rw [Float64.le_iff] at h
  rw [Float64.lt_iff]
  rcases a with _ | a | a <;> rcases b with _ | b | b <;>
    simp only [Float64.le, Float64.lt, Bool.false_eq_true, not_false_eq_true] at h ⊢
  · cases a <;> cases b <;> simp_all
  · cases a <;> simp_all
  · cases b <;> simp_all
  · simpa using h

theorem Float64.not_le_of_lt {a b : Float64} (h : a < b) : ¬ b ≤ a :=
  fun h' => Float64.not_lt_of_le h' h

theorem Float64.lt_asymm {a b : Float64} (h : a < b) : ¬ b < a := by
  rw [Float64.lt_iff] at h ⊢
  rcases a with _ | a | a <;> rcases b with _ | b | b <;>
    simp only [Float64.lt, Bool.false_eq_true, not_false_eq_true] at h ⊢
  · cases a <;> cases b <;> simp_all
  · cases a <;> simp_all
  · cases b <;> simp_all
  · simpa using (show a < b by simpa using h).le

theorem Float64.le_trans {a b c : Float64} (h1 : a ≤ b) (h2 : b ≤ c) : a ≤ c := by
  rw [Float64.le_iff] at h1 h2 ⊢
  rcases a with _ | a | a <;> rcases b with _ | b | b <;> rcases c with _ | c | c <;>
    simp only [Float64.le, Bool.false_eq_true] at h1 h2 ⊢
  · cases a <;> cases b <;> cases c <;> simp_all
  · cases a <;> cases b <;> simp_all
  · cases a <;> cases c <;> simp_all
  · cases a <;> simp_all
  · cases b <;> cases c <;> simp_all
  · cases b <;> simp_all
  · cases c <;> simp_all
  · simp only [decide_eq_true_eq] at h1 h2 ⊢
    exact h1.trans h2

theorem Float64.ofRat_ne_nan (q : ℚ) : Float64.ofRat q ≠ .nan := by
  unfold Float64.ofRat
  split_ifs <;> simp

/-- Rounding is monotone. -/
theorem Float64.ofRat_le_ofRat {x y : ℚ} (h : x ≤ y) : Float64.ofRat x ≤ Float64.ofRat y :=
  Float64.ofRat_mono h

theorem Float64.ofRat_le_fin {x p : ℚ} (hp : (Float64.fin p).IsValue) (h : x ≤ p) :
    Float64.ofRat x ≤ .fin p := by
  have := Float64.ofRat_le_ofRat h
  rwa [show Float64.ofRat p = .fin p from hp] at this

theorem Float64.fin_le_ofRat {x p : ℚ} (hp : (Float64.fin p).IsValue) (h : p ≤ x) :
    Float64.fin p ≤ Float64.ofRat x := by
  have := Float64.ofRat_le_ofRat h
  rwa [show Float64.ofRat p = .fin p from hp] at this

set_option maxRecDepth 8000 in
theorem epsilon_eq : epsilon = .fin (5764607523034235 / 576460752303423488) := by
  with_unfolding_all rfl

theorem Float64.isValue_zero : (0 : Float64).IsValue := by
  show Float64.ofRat 0 = .fin 0
  simp [Float64.ofRat]

theorem Float64.huge_eq : Float64.huge = 2 ^ (1024 : ℕ) := by
  norm_num [Float64.huge]

set_option maxRecDepth 8000 in
/-- Some values of the rounding: 0.1 + 0.2 is the `float64` next above the one
nearest to 0.3, and adding 2⁻⁵³ to 1 gives 1 (a tie, to the even side) while
adding 3 · 2⁻⁵⁴ gives the next `float64`. -/
theorem Float64.known_values :
    Float64.ofRat (3 / 10) = .fin (5404319552844595 / 18014398509481984) ∧
    Float64.ofRat (1 / 10) + Float64.ofRat (2 / 10)
      = .fin (5404319552844596 / 18014398509481984) ∧
    (1 : Float64) + .fin (1 / 2 ^ 53) = 1 ∧
    (1 : Float64) + .fin (3 / 2 ^ 54) = .fin (1 + 1 / 2 ^ 52) := by
  refine ⟨?_, ?_, ?_, ?_⟩ <;> with_unfolding_all rfl

/-! ## Theorems: the loan state machine -/

theorem lookup_validTransitions (s : LoanState) :
    validTransitions.lookup s =
      if s = StateProposed then some [StateApproved]
      else if s = StateApproved then some [StateInvested]
      else if s = StateInvested then some [StateDisbursed]
      else if s = StateDisbursed then some []
      else none := by
  by_cases h1 : s = StateProposed
  · subst h1; rfl
  by_cases h2 : s = StateApproved
  · subst h2; rfl
  by_cases h3 : s = StateInvested
  · subst h3; rfl
  by_cases h4 : s = StateDisbursed
  · subst h4; rfl
  have e1 : (s == StateProposed) = false := by simpa using h1
  have e2 : (s == StateApproved) = false := by simpa using h2
  have e3 : (s == StateInvested) = false := by simpa using h3
  have e4 : (s == StateDisbursed) = false := by simpa using h4
  simp [validTransitions, List.lookup, e1, e2, e3, e4, h1, h2, h3, h4]

theorem canTransitionTo_eq_none_iff (l : Loan) (target : LoanState) :
    l.CanTransitionTo target = none ↔
      (l.State = StateProposed ∧ target = StateApproved) ∨
      (l.State = StateApproved ∧ target = StateInvested) ∨
      (l.State = StateInvested ∧ target = StateDisbursed) := by
  unfold Loan.CanTransitionTo
  rw [lookup_validTransitions]
  simp only [StateProposed, StateApproved, StateInvested, StateDisbursed]
  split_ifs <;> simp [*]

/-- C1: `CanTransitionTo` returns no error exactly for the pairs
(proposed, approved), (approved, invested), (invested, disbursed); every other
pair of current state and target, with either of them any string at all,
returns an error. -/
theorem C1_canTransitionTo_table (l : Loan) (target : LoanState) :
    (l.CanTransitionTo target = none ↔
      (l.State = "proposed" ∧ target = "approved") ∨
      (l.State = "approved" ∧ target = "invested") ∨
      (l.State = "invested" ∧ target = "disbursed")) ∧
    ((l.CanTransitionTo target).isSome = true ↔
      ¬ ((l.State = "proposed" ∧ target = "approved") ∨
         (l.State = "approved" ∧ target = "invested") ∨
         (l.State = "invested" ∧ target = "disbursed"))) := by
  have h := canTransitionTo_eq_none_iff l target
  simp only [StateProposed, StateApproved, StateInvested, StateDisbursed] at h
  refine ⟨h, ?_⟩
  rw [← h]
  cases l.CanTransitionTo target <;> simp

/-! ## Theorems: `TransitionTo` -/

theorem transitionTo_of_none {l : Loan} {target : LoanState} (now : Time)
    (h : l.CanTransitionTo target = none) :
    l.TransitionTo target now = (none, { l with State := target, UpdatedAt := now }) := by
  simp [Loan.TransitionTo, h]

theorem transitionTo_of_some {l : Loan} {target : LoanState} (now : Time) {e : GoError}
    (h : l.CanTransitionTo target = some e) :
    l.TransitionTo target now = (some e, l) := by
  simp [Loan.TransitionTo, h]

/-- C6: `TransitionTo` returns exactly what `CanTransitionTo` returns on the loan
before the call; on success the loan afterwards has `State = target`, `UpdatedAt`
is the clock reading and every other field is as before; on an error the loan
is unchanged in every field. -/
theorem C6_transitionTo_frame (l : Loan) (target : LoanState) (now : Time) :
    (l.TransitionTo target now).1 = l.CanTransitionTo target ∧
    (l.CanTransitionTo target = none →
      (l.TransitionTo target now).2.State = target ∧
      (l.TransitionTo target now).2.UpdatedAt = now ∧
      (l.TransitionTo target now).2.ID = l.ID ∧
      (l.TransitionTo target now).2.BorrowerID = l.BorrowerID ∧
      (l.TransitionTo target now).2.PrincipalAmount = l.PrincipalAmount ∧
      (l.TransitionTo target now).2.Rate = l.Rate ∧
      (l.TransitionTo target now).2.ROI = l.ROI ∧
      (l.TransitionTo target now).2.AgreementLetterURL = l.AgreementLetterURL ∧
      (l.TransitionTo target now).2.CreatedAt = l.CreatedAt) ∧
    (l.CanTransitionTo target ≠ none → (l.TransitionTo target now).2 = l) := by
  cases h : l.CanTransitionTo target with
  | none => simp [transitionTo_of_none now h]
  | some e => simp [transitionTo_of_some now h]

theorem chainFrom_step {l : Loan} {target : LoanState} (h : l.CanTransitionTo target = none) :
    chainFrom l.State = l.State :: chainFrom target := by
  rcases (canTransitionTo_eq_none_iff l target).1 h with ⟨h1, h2⟩ | ⟨h1, h2⟩ | ⟨h1, h2⟩ <;>
    rw [h1, h2] <;> decide

theorem transitionHistory_isPrefix_chainFrom (calls : List (LoanState × Time)) :
    ∀ l : Loan, transitionHistory l calls <+: chainFrom l.State := by
  induction calls with
  | nil =>
    intro l
    simp only [transitionHistory, chainFrom]
    split_ifs <;> simp [*]
  | cons c rest ih =>
    intro l
    obtain ⟨target, now⟩ := c
    cases h : l.CanTransitionTo target with
    | none =>
      have ih' := ih { l with State := target, UpdatedAt := now }
      simp only [transitionHistory, transitionTo_of_none now h, chainFrom_step h]
      exact (List.prefix_cons_inj l.State).2 ih'
    | some e =>
      simp only [transitionHistory, transitionTo_of_some now h]
      exact ih l

theorem transitionHistory_getLast (calls : List (LoanState × Time)) :
    ∀ l : Loan, (transitionHistory l calls).getLast? = some (transitionAll l calls).State := by
  induction calls with
  | nil => intro l; simp [transitionHistory, transitionAll]
  | cons c rest ih =>
    intro l
    obtain ⟨target, now⟩ := c
    cases h : l.CanTransitionTo target with
    | none =>
      have ih' := ih { l with State := target, UpdatedAt := now }
      simp only [transitionHistory, transitionAll, transitionTo_of_none now h]
      cases hh : transitionHistory { l with State := target, UpdatedAt := now } rest with
      | nil => rw [hh] at ih'; simp at ih'
      | cons a as => rw [hh] at ih'; rw [List.getLast?_cons_cons]; exact ih'
    | some e =>
      simp only [transitionHistory, transitionAll, transitionTo_of_some now h]
      exact ih l

theorem chain_nodup :
    [StateProposed, StateApproved, StateInvested, StateDisbursed].Nodup := by decide

/-- C5: a loan made by `NewLoan` and put through any finite sequence of
`TransitionTo` calls with arbitrary targets passes through a sequence of states
that is an initial segment of proposed, approved, invested, disbursed. Hence its
state is always one of these four, no state is visited twice, and invested is
reached only after approved. The sequence ends in the loan's current state. -/
theorem C5_transition_sequences (id borrowerID : UUID) (t0 : Time) (principal rate roi : Float64)
    (calls : List (LoanState × Time)) :
    transitionHistory (NewLoan id t0 borrowerID principal rate roi) calls
      <+: ["proposed", "approved", "invested", "disbursed"] ∧
    (transitionHistory (NewLoan id t0 borrowerID principal rate roi) calls).getLast?
      = some (transitionAll (NewLoan id t0 borrowerID principal rate roi) calls).State ∧
    (transitionAll (NewLoan id t0 borrowerID principal rate roi) calls).State
      ∈ ["proposed", "approved", "invested", "disbursed"] ∧
    (transitionHistory (NewLoan id t0 borrowerID principal rate roi) calls).Nodup ∧
    ("invested" ∈ transitionHistory (NewLoan id t0 borrowerID principal rate roi) calls →
      transitionHistory (NewLoan id t0 borrowerID principal rate roi) calls
        = ["proposed", "approved", "invested"] ∨
      transitionHistory (NewLoan id t0 borrowerID principal rate roi) calls
        = ["proposed", "approved", "invested", "disbursed"]) := by
  have hp := transitionHistory_isPrefix_chainFrom calls (NewLoan id t0 borrowerID principal rate roi)
  have hl := transitionHistory_getLast calls (NewLoan id t0 borrowerID principal rate roi)
  have hc : chainFrom (NewLoan id t0 borrowerID principal rate roi).State
      = ["proposed", "approved", "invested", "disbursed"] := by
    simp [NewLoan, chainFrom, StateProposed, StateApproved, StateInvested, StateDisbursed]
  rw [hc] at hp
  refine ⟨hp, hl, ?_, ?_, ?_⟩
  · exact hp.subset (List.mem_of_mem_getLast? hl)
  · exact List.Nodup.sublist hp.sublist (by decide)
  · intro hmem
    obtain ⟨t, ht⟩ := hp
    generalize transitionHistory (NewLoan id t0 borrowerID principal rate roi) calls = hist at *
    match hist, ht, hmem with
    | [], _, hmem => simp at hmem
    | [a], ht, hmem =>
      simp at ht hmem
      rw [ht.1] at hmem; exact absurd hmem (by decide)
    | [a, b], ht, hmem =>
      simp at ht hmem
      rw [ht.1, ht.2.1] at hmem; exact absurd hmem (by decide)
    | [a, b, c], ht, _ =>
      simp at ht
      left; rw [ht.1, ht.2.1, ht.2.2.1]
    | [a, b, c, d], ht, _ =>
      simp at ht
      right; rw [ht.1, ht.2.1, ht.2.2.1, ht.2.2.2.1]
    | a :: b :: c :: d :: e :: r, ht, _ =>
      have := congrArg List.length ht
      simp at this

/-! ## Theorems: investment aggregation -/

set_option maxRecDepth 8000 in
/-- Counterexample to C3 as stated: the principal 10000, the current total 9999.5
and the amount 0.5 + 2⁻⁴¹ are `float64` values and the amount is positive. The
current total plus the amount exceeds the principal, by 2⁻⁴¹, but the `float64`
sum that the code compares with the principal is 10000, and
`ValidateInvestmentAmount` returns nil. -/
theorem C3_counterexample :
    Example.approvedLoan.PrincipalAmount = .fin 10000 ∧
    (Float64.fin 10000).IsValue ∧ (Float64.fin (19999 / 2)).IsValue ∧
    (Float64.fin (1 / 2 + 1 / 2 ^ 41)).IsValue ∧
    (0 : ℚ) < 1 / 2 + 1 / 2 ^ 41 ∧
    (19999 / 2 : ℚ) + (1 / 2 + 1 / 2 ^ 41) > 10000 ∧
    Float64.fin (19999 / 2) + Float64.fin (1 / 2 + 1 / 2 ^ 41) = Float64.fin 10000 ∧
    Example.approvedLoan.ValidateInvestmentAmount (.fin (1 / 2 + 1 / 2 ^ 41)) (.fin (19999 / 2))
      = none := by
  refine ⟨?_, ?_, ?_, ?_, by norm_num, by norm_num, ?_, ?_⟩ <;> with_unfolding_all rfl

set_option maxRecDepth 8000 in
/-- C3, amended: `ValidateInvestmentAmount` returns an error exactly when the
amount is not positive or the `float64` sum of the current total and the amount
exceeds the principal. With principal 10000 an amount of 10000 on a total of 0
is accepted, and an amount of 5001 on a total of 5000 is rejected. In exact
arithmetic one direction remains: an error means that the amount is not
positive or that the current total plus the amount exceeds the principal, so an
amount that fits is never rejected. -/
theorem C3_validateInvestmentAmount_iff :
    (∀ (l : Loan) (amount currentTotal : Float64),
      (l.ValidateInvestmentAmount amount currentTotal).isSome = true ↔
        (amount ≤ 0 ∨ currentTotal + amount > l.PrincipalAmount)) ∧
    (∀ l : Loan, ({ l with PrincipalAmount := 10000 } : Loan).ValidateInvestmentAmount 10000 0
      = none) ∧
    (∀ l : Loan,
      (({ l with PrincipalAmount := 10000 } : Loan).ValidateInvestmentAmount 5001 5000).isSome
        = true) ∧
    (∀ (l : Loan) (a t p : ℚ), l.PrincipalAmount = .fin p → (Float64.fin p).IsValue →
      (l.ValidateInvestmentAmount (.fin a) (.fin t)).isSome = true → a ≤ 0 ∨ t + a > p) := by
  have key : ∀ (l : Loan) (amount currentTotal : Float64),
      (l.ValidateInvestmentAmount amount currentTotal).isSome = true ↔
        (amount ≤ 0 ∨ currentTotal + amount > l.PrincipalAmount) := by
    intro l amount currentTotal
    unfold Loan.ValidateInvestmentAmount
    split_ifs <;> simp [*]
  refine ⟨key, ?_, ?_, ?_⟩
  · intro l
    have h1 : ¬ ((10000 : Float64) ≤ 0) := by with_unfolding_all decide
    have h2 : ¬ ((0 : Float64) + 10000 > 10000) := by with_unfolding_all decide
    simp only [Loan.ValidateInvestmentAmount, if_neg h1, if_neg h2]
  · intro l
    have h2 : (5000 : Float64) + 5001 > 10000 := by with_unfolding_all decide
    exact (key _ _ _).mpr (Or.inr h2)
  · intro l a t p hp hv h
    rcases (key l _ _).mp h with h | h
    · exact Or.inl (by simpa [Float64.zero_eq] using Float64.fin_le_fin.mp h)
    · right
      by_contra hle
      rw [hp, Float64.fin_add_fin] at h
      exact Float64.not_lt_of_le (Float64.ofRat_le_fin hv (not_lt.mp hle)) h

set_option maxRecDepth 8000 in
/-- Counterexample to C4 as stated. The `float64` nearest to 9999.99 lies below
10000 - 0.01, yet with principal 10000 it counts as fully invested: the code
compares with the `float64` difference of 10000 and the `float64` nearest to
0.01, which is that same value. With principal 10¹⁷ the `float64` difference
of the principal and 0.02 is the principal itself, and counts as fully
invested. -/
theorem C4_counterexample :
    Example.approvedLoan.PrincipalAmount = .fin 10000 ∧
    Float64.ofRat (999999 / 100) = .fin (5497552641321861 / 549755813888) ∧
    (5497552641321861 / 549755813888 : ℚ) < 10000 - 1 / 100 ∧
    Example.approvedLoan.IsFullyInvested (.fin (5497552641321861 / 549755813888)) = true ∧
    (100000000000000000 : Float64) - Float64.ofRat (2 / 100) = 100000000000000000 ∧
    ({ Example.approvedLoan with PrincipalAmount := 100000000000000000 } : Loan).IsFullyInvested
      (100000000000000000 - Float64.ofRat (2 / 100)) = true := by
  refine ⟨?_, ?_, by norm_num, ?_, ?_, ?_⟩ <;> with_unfolding_all rfl

set_option maxRecDepth 8000 in
/-- C4, amended: `IsFullyInvested total` holds exactly when `total` is at least the
`float64` difference of the principal and `epsilon`, the `float64` nearest to
0.01. It holds for every `float64` total that is at least the principal minus
0.01 in exact arithmetic, and for every total at or above the principal. For
every principal that is not a NaN it holds at the `float64` difference of the
principal and 0.005; with principal 10000 it fails at the `float64` difference
of the principal and 0.02. -/
theorem C4_isFullyInvested_iff :
    (∀ (l : Loan) (total : Float64),
      l.IsFullyInvested total = true ↔ total ≥ l.PrincipalAmount - epsilon) ∧
    epsilon = Float64.ofRat (1 / 100) ∧
    (∀ (l : Loan) (t p : ℚ), l.PrincipalAmount = .fin p → (Float64.fin t).IsValue →
      t ≥ p - 1 / 100 → l.IsFullyInvested (.fin t) = true) ∧
    (∀ l : Loan, l.PrincipalAmount ≠ .nan →
      l.IsFullyInvested (l.PrincipalAmount - Float64.ofRat (5 / 1000)) = true) ∧
    (∀ l : Loan, ({ l with PrincipalAmount := 10000 } : Loan).IsFullyInvested
      (10000 - Float64.ofRat (2 / 100)) = false) ∧
    (∀ (l : Loan) (total : Float64), l.PrincipalAmount.IsValue → total ≥ l.PrincipalAmount →
      l.IsFullyInvested total = true) := by
  have key : ∀ (l : Loan) (total : Float64),
      l.IsFullyInvested total = true ↔ total ≥ l.PrincipalAmount - epsilon := by
    intro l total
    simp [Loan.IsFullyInvested]
  have heps : (1 / 100 : ℚ) < 5764607523034235 / 576460752303423488 := by norm_num
  have h5 : Float64.ofRat (5 / 1000) = .fin (5764607523034235 / 1152921504606846976) := by
    with_unfolding_all rfl
  refine ⟨key, rfl, ?_, ?_, ?_, ?_⟩
  · intro l t p hp ht h
    rw [key, hp, epsilon_eq, Float64.fin_sub_fin]
    exact Float64.ofRat_le_fin ht (by linarith)
  · intro l hnan
    rw [key, epsilon_eq, h5]
    rcases hP : l.PrincipalAmount with _ | b | p
    · exact absurd hP hnan
    · cases b <;> decide
    · rw [Float64.fin_sub_fin, Float64.fin_sub_fin]
      exact Float64.ofRat_le_ofRat (by linarith)
  · intro l
    with_unfolding_all rfl
  · intro l total hv h
    rw [key]
    refine Float64.le_trans ?_ h
    rw [epsilon_eq]
    rcases hP : l.PrincipalAmount with _ | b | p
    · rw [hP] at h
      exact absurd h (by cases total <;> simp [Float64.le_iff, Float64.le])
    · cases b <;> decide
    · rw [hP] at hv
      rw [Float64.fin_sub_fin]
      exact Float64.ofRat_le_fin hv (by linarith)

/-! ## The recording collaborators, method by method -/

section traced
variable (uc : LoanUseCase σ)

@[simp] theorem traced_loanCreate (loan : Loan) : (traced uc).loanRepo.Create loan
    = logged (.LoanCreate loan) errNil (uc.loanRepo.Create loan) := rfl
@[simp] theorem traced_loanGetByID (id : UUID) : (traced uc).loanRepo.GetByID id
    = logged (.LoanGetByID id) resNil (uc.loanRepo.GetByID id) := rfl
@[simp] theorem traced_loanUpdate (loan : Loan) : (traced uc).loanRepo.Update loan
    = logged (.LoanUpdate loan) errNil (uc.loanRepo.Update loan) := rfl
@[simp] theorem traced_approvalCreate (a : LoanApproval) : (traced uc).approvalRepo.Create a
    = logged (.ApprovalCreate a) errNil (uc.approvalRepo.Create a) := rfl
@[simp] theorem traced_investmentCreate (i : Investment) : (traced uc).investmentRepo.Create i
    = logged (.InvestmentCreate i) errNil (uc.investmentRepo.Create i) := rfl
@[simp] theorem traced_investmentGetByLoanID (id : UUID) :
    (traced uc).investmentRepo.GetByLoanID id
    = logged (.InvestmentGetByLoanID id) resNil (uc.investmentRepo.GetByLoanID id) := rfl
@[simp] theorem traced_investmentGetTotalByLoanID (id : UUID) :
    (traced uc).investmentRepo.GetTotalByLoanID id
    = logged (.InvestmentGetTotalByLoanID id) resNil (uc.investmentRepo.GetTotalByLoanID id) :=
  rfl
@[simp] theorem traced_disbursementCreate (d : Disbursement) :
    (traced uc).disbursementRepo.Create d
    = logged (.DisbursementCreate d) errNil (uc.disbursementRepo.Create d) := rfl
@[simp] theorem traced_userGetByID (id : UUID) : (traced uc).userRepo.GetByID id
    = logged (.UserGetByID id) resNil (uc.userRepo.GetByID id) := rfl
@[simp] theorem traced_setIdempotencyKey (k v : String) (d : Duration) :
    (traced uc).redisClient.SetIdempotencyKey k v d
    = logged (.SetIdempotencyKey k v d) errNil (uc.redisClient.SetIdempotencyKey k v d) := rfl
@[simp] theorem traced_checkIdempotencyKey (k : String) :
    (traced uc).redisClient.CheckIdempotencyKey k
    = logged (.CheckIdempotencyKey k) (fun r => errNil r.2)
        (uc.redisClient.CheckIdempotencyKey k) := rfl
@[simp] theorem traced_acquireLock (k : String) (d : Duration) :
    (traced uc).redisClient.AcquireLock k d
    = logged (.AcquireLock k d) (fun r => errNil r.2) (uc.redisClient.AcquireLock k d) := rfl
@[simp] theorem traced_releaseLock (k : String) : (traced uc).redisClient.ReleaseLock k
    = logged (.ReleaseLock k) errNil (uc.redisClient.ReleaseLock k) := rfl
@[simp] theorem traced_setCache (k v : String) (d : Duration) :
    (traced uc).redisClient.SetCache k v d
    = logged (.SetCache k v d) errNil (uc.redisClient.SetCache k v d) := rfl
@[simp] theorem traced_fileStore (f : Reader) (n : String) : (traced uc).fileStorage.Store f n
    = logged (.FileStore f n) resNil (uc.fileStorage.Store f n) := rfl
@[simp] theorem traced_fileGetURL (path : String) : (traced uc).fileStorage.GetURL path
    = logged (.FileGetURL path) (fun _ => true) (uc.fileStorage.GetURL path) := rfl
@[simp] theorem traced_sendAgreementEmail (e u : String) :
    (traced uc).emailService.SendAgreementEmail e u
    = logged (.SendAgreementEmail e u) errNil (uc.emailService.SendAgreementEmail e u) := rfl
@[simp] theorem traced_now (st : σ × List Event) : (traced uc).runtime.Now st
    = ((uc.runtime.Now st.1).1, ((uc.runtime.Now st.1).2, st.2)) := rfl
@[simp] theorem traced_newUUID (st : σ × List Event) : (traced uc).runtime.NewUUID st
    = ((uc.runtime.NewUUID st.1).1, ((uc.runtime.NewUUID st.1).2, st.2)) := rfl

end traced

/-- What a recorded call returns once the result of the call itself is known. -/
theorem logged_eq {α : Type} (call : Call) (ok : α → Bool) (f : σ → α × σ) (s s1 : σ)
    (log : List Event) (r : α) (h : f s = (r, s1)) :
    logged call ok f (s, log) = (r, (s1, log ++ [{ call := call, ok := ok r }])) := by
  simp [logged, h]

/-! ## Theorems: the idempotency guard and the lock -/

/-- C9: when `AcquireLock` answers `(false, nil)`, `Invest` returns the
lock-contention error at once. Run on recording collaborators, the state is the
one `AcquireLock` left and the log has grown by that single call: no idempotency
check, no loan load, no total query, no insert, no marker commit and no
`ReleaseLock`. -/
theorem C9_invest_lock_not_acquired (uc : LoanUseCase σ) (req : InvestRequest) (s s1 : σ)
    (log : List Event)
    (h : uc.redisClient.AcquireLock (investLockKey req.LoanID) (30 * Second) s
      = ((false, none), s1)) :
    (traced uc).Invest req (s, log) =
      (some errLockNotAcquired,
        (s1, log ++ [{ call := .AcquireLock (investLockKey req.LoanID) (30 * Second),
                       ok := true }])) := by
  simp only [LoanUseCase.Invest, traced_acquireLock, logged_eq _ _ _ _ _ _ _ h]
  rfl

/-! ## The calls made while the lock is held -/

theorem ExtendsWithoutRelease.rfl_log (log : List Event) : ExtendsWithoutRelease log log :=
  ⟨[], by simp, by simp⟩

theorem ExtendsWithoutRelease.then_log {a b c : List Event} (h1 : ExtendsWithoutRelease a b)
    (h2 : ExtendsWithoutRelease b c) : ExtendsWithoutRelease a c := by
  obtain ⟨x, rfl, hx⟩ := h1
  obtain ⟨y, rfl, hy⟩ := h2
  refine ⟨x ++ y, by simp, ?_⟩
  intro e he
  rcases List.mem_append.1 he with h | h
  · exact hx e h
  · exact hy e h

theorem logged_eq_iff {α : Type} (call : Call) (ok : α → Bool) (f : σ → α × σ)
    (st st1 : σ × List Event) (r : α) :
    logged call ok f st = (r, st1) ↔
      f st.1 = (r, st1.1) ∧ st1.2 = st.2 ++ [{ call := call, ok := ok r }] := by
  obtain ⟨s1, l1⟩ := st1
  constructor
  · intro h
    simp only [logged, Prod.mk.injEq] at h
    obtain ⟨h1, h2, h3⟩ := h
    subst h1
    exact ⟨Prod.ext rfl h2, h3.symm⟩
  · rintro ⟨h1, h2⟩
    simp only at h1 h2
    simp [logged, h1, h2]

theorem ExtendsWithoutRelease.step {α : Type} {call : Call} {ok : α → Bool} {f : σ → α × σ}
    {t t1 : σ × List Event} {r : α} {log0 : List Event}
    (h : logged call ok f t = (r, t1)) (hc : call.isReleaseLock = false)
    (h0 : ExtendsWithoutRelease log0 t.2) : ExtendsWithoutRelease log0 t1.2 := by
  refine h0.then_log ⟨[{ call := call, ok := ok r }], ((logged_eq_iff _ _ _ _ _ _).1 h).2, ?_⟩
  simpa using hc

theorem ExtendsWithoutRelease.of_result {α : Type} {x : α × (σ × List Event)} {r : α}
    {st1 : σ × List Event} {log0 : List Event} (heq : x = (r, st1))
    (h : ExtendsWithoutRelease log0 x.2.2) : ExtendsWithoutRelease log0 st1.2 := by
  subst heq; exact h

theorem ExtendsWithoutRelease.call {α : Type} {call : Call} {ok : α → Bool} {f : σ → α × σ}
    {st : σ × List Event} {log0 : List Event} (h0 : ExtendsWithoutRelease log0 st.2)
    (hc : call.isReleaseLock = false) :
    ExtendsWithoutRelease log0 (logged call ok f st).2.2 :=
  h0.step (r := (logged call ok f st).1) rfl hc

theorem notifyInvestors_log (uc : LoanUseCase σ) (url : String) (invs : List Investment) :
    ∀ (st : σ × List Event) (log0 : List Event), ExtendsWithoutRelease log0 st.2 →
      ExtendsWithoutRelease log0 ((traced uc).notifyInvestors url invs st).2 := by
  induction invs with
  | nil => intro st log0 h0; exact h0
  | cons inv rest ih =>
    intro st log0 h0
    simp only [LoanUseCase.notifyInvestors, traced_userGetByID, traced_sendAgreementEmail]
    split
    · rename_i heq
      exact ih _ _ ((h0.step heq rfl).call (by rfl))
    · rename_i heq
      exact ih _ _ (h0.step heq rfl)

theorem investFullyFunded_log (uc : LoanUseCase σ) (req : InvestRequest) (loan : Loan)
    (st : σ × List Event) (log0 : List Event) (h0 : ExtendsWithoutRelease log0 st.2) :
    ExtendsWithoutRelease log0 ((traced uc).investFullyFunded req loan st).2.2 := by
  simp only [LoanUseCase.investFullyFunded, traced_loanUpdate, traced_fileGetURL,
    traced_investmentGetByLoanID, traced_now]
  split
  · exact h0
  · split
    · rename_i heq
      exact h0.step heq rfl
    · rename_i heq
      have h1 : ExtendsWithoutRelease log0 _ := h0.step heq rfl
      split
      · rename_i heq
        exact (h1.call (by rfl)).step heq rfl
      · rename_i heq
        have h2 : ExtendsWithoutRelease log0 _ :=
          (h1.call (by rfl)).step heq rfl
        split
        · rename_i heq
          exact notifyInvestors_log uc _ _ _ _ (h2.step heq rfl)
        · rename_i heq
          exact h2.step heq rfl

theorem investLocked_log (uc : LoanUseCase σ) (req : InvestRequest) (st : σ × List Event) :
    ExtendsWithoutRelease st.2 ((traced uc).investLocked req st).2.2 := by
  have h0 := ExtendsWithoutRelease.rfl_log st.2
  simp only [LoanUseCase.investLocked, traced_checkIdempotencyKey, traced_loanGetByID,
    traced_investmentGetTotalByLoanID, traced_newUUID, traced_now, traced_investmentCreate,
    traced_setIdempotencyKey]
  split
  · rename_i heq
    exact h0.step heq rfl
  · rename_i heq
    have h1 := h0.step heq rfl
    split
    · rename_i heq
      exact h1.step heq rfl
    · rename_i heq
      have h2 := h1.step heq rfl
      split
      · exact h2
      · split
        · rename_i heq
          exact h2.step heq rfl
        · rename_i heq
          have h3 := h2.step heq rfl
          split
          · exact h3
          · split
            · rename_i heq
              exact ExtendsWithoutRelease.step (t := (_, _)) heq rfl h3
            · rename_i heq
              have h4 := ExtendsWithoutRelease.step (t := (_, _)) heq rfl h3
              split
              · rename_i heq
                refine ExtendsWithoutRelease.of_result heq ?_
                split
                · exact investFullyFunded_log uc _ _ _ _ h4
                · exact h4
              · rename_i heq
                refine ExtendsWithoutRelease.call ?_ (by rfl)
                refine ExtendsWithoutRelease.of_result heq ?_
                split
                · exact investFullyFunded_log uc _ _ _ _ h4
                · exact h4

/-- C10: whenever `AcquireLock` answered `(true, nil)`, the calls `Invest` makes
are: that `AcquireLock`, then the calls of the locked part, none of which is a
`ReleaseLock`, then `ReleaseLock` on the same key `invest:{loanID}` as the last
call before returning. This holds whatever the collaborators answer, so on every
exit path of the locked part, and `Invest` returns what the locked part returned. -/
theorem C10_invest_releases_lock_once (uc : LoanUseCase σ) (req : InvestRequest) (s s1 : σ)
    (log : List Event)
    (h : uc.redisClient.AcquireLock (investLockKey req.LoanID) (30 * Second) s
      = ((true, none), s1)) :
    ∃ (body : List Event) (ok : Bool),
      ((traced uc).Invest req (s, log)).2.2 =
        log ++ [{ call := .AcquireLock (investLockKey req.LoanID) (30 * Second), ok := true }]
          ++ body ++ [{ call := .ReleaseLock (investLockKey req.LoanID), ok := ok }] ∧
      (∀ e ∈ body, e.call.isReleaseLock = false) ∧
      ((traced uc).Invest req (s, log)).1 =
        ((traced uc).investLocked req (s1, log ++
          [{ call := .AcquireLock (investLockKey req.LoanID) (30 * Second), ok := true }])).1 := by
  obtain ⟨body, hb, hnr⟩ := investLocked_log uc req (s1, log ++
    [{ call := .AcquireLock (investLockKey req.LoanID) (30 * Second), ok := true }])
  simp only at hb
  refine ⟨body, errNil (uc.redisClient.ReleaseLock (investLockKey req.LoanID)
    ((traced uc).investLocked req (s1, log ++
      [{ call := .AcquireLock (investLockKey req.LoanID) (30 * Second), ok := true }])).2.1).1,
    ?_, hnr, ?_⟩
  · simp only [LoanUseCase.Invest, traced_acquireLock, logged_eq _ _ _ _ _ _ _ h,
      traced_releaseLock]
    simp only [logged, errNil, Option.isNone_none]
    rw [hb]
  · simp only [LoanUseCase.Invest, traced_acquireLock, logged_eq _ _ _ _ _ _ _ h,
      traced_releaseLock]
    rfl

/-! ## Theorems: idempotent retry -/

/-- The call `ApproveLoan` on a key the idempotency check reports as used. -/
theorem approveLoan_duplicate (uc : LoanUseCase σ) (req : ApproveLoanRequest) (s s1 : σ)
    (log : List Event) (err : Option GoError)
    (h : uc.redisClient.CheckIdempotencyKey (approveKey req.LoanID req.IdempotencyKey) s
      = ((true, err), s1)) :
    (traced uc).ApproveLoan req (s, log) =
      (some errDuplicateRequest,
        (s1, log ++ [{ call := .CheckIdempotencyKey (approveKey req.LoanID req.IdempotencyKey),
                       ok := errNil err }])) := by
  simp only [LoanUseCase.ApproveLoan, traced_checkIdempotencyKey, logged_eq _ _ _ _ _ _ _ h]

/-- C7: two `ApproveLoan` calls with the same loan id and token, on a loan in
state proposed, when every collaborator call of the first succeeds and the
key-value store is faithful (after the first call wrote the marker, the check of
the same key answers true). The first call returns no error, the second returns
the duplicate-request error, and the calls made by the two together are exactly
the eight listed: among them one loan update and one approval insert, both made
by the first call. -/
theorem C7_approve_twice (uc : LoanUseCase σ) (req1 req2 : ApproveLoanRequest) (loan : Loan)
    (s s1 s2 s3 s4 s5 s6 s7 s8 s9 s10 : σ) (log : List Event) (e1 e2 : Option GoError)
    (path url : String) (t1 t2 : Time)
    (hid : req2.LoanID = req1.LoanID) (htoken : req2.IdempotencyKey = req1.IdempotencyKey)
    (hstate : loan.State = StateProposed)
    (hcheck : uc.redisClient.CheckIdempotencyKey (approveKey req1.LoanID req1.IdempotencyKey) s
      = ((false, e1), s1))
    (hload : uc.loanRepo.GetByID req1.LoanID s1 = (.ok loan, s2))
    (hstore : uc.fileStorage.Store req1.PictureProof req1.PictureProofFilename s2
      = (.ok path, s3))
    (hurl : uc.fileStorage.GetURL path s3 = (url, s4))
    (hnow1 : uc.runtime.Now s4 = (t1, s5))
    (hnow2 : uc.runtime.Now s5 = (t2, s6))
    (hupdate : uc.loanRepo.Update { loan with State := StateApproved, UpdatedAt := t2 } s6
      = (none, s7))
    (hcreate : uc.approvalRepo.Create
        { LoanID := req1.LoanID, EmployeeID := req1.EmployeeID, PictureProof := url,
          ApprovalDate := req1.ApprovalDate, CreatedAt := t1 } s7
      = (none, s8))
    (hcommit : uc.redisClient.SetIdempotencyKey (approveKey req1.LoanID req1.IdempotencyKey)
        "approved" (24 * Hour) s8
      = (none, s9))
    (hfaithful : uc.redisClient.CheckIdempotencyKey
        (approveKey req1.LoanID req1.IdempotencyKey) s9
      = ((true, e2), s10)) :
    ((traced uc).ApproveLoan req1 (s, log)).1 = none ∧
    ((traced uc).ApproveLoan req2 ((traced uc).ApproveLoan req1 (s, log)).2).1
      = some errDuplicateRequest ∧
    ((traced uc).ApproveLoan req2 ((traced uc).ApproveLoan req1 (s, log)).2).2
      = (s10, log ++
          [{ call := .CheckIdempotencyKey (approveKey req1.LoanID req1.IdempotencyKey),
             ok := errNil e1 },
           { call := .LoanGetByID req1.LoanID, ok := true },
           { call := .FileStore req1.PictureProof req1.PictureProofFilename, ok := true },
           { call := .FileGetURL path, ok := true },
           { call := .LoanUpdate { loan with State := StateApproved, UpdatedAt := t2 },
             ok := true },
           { call := .ApprovalCreate
               { LoanID := req1.LoanID, EmployeeID := req1.EmployeeID, PictureProof := url,
                 ApprovalDate := req1.ApprovalDate, CreatedAt := t1 },
             ok := true },
           { call := .SetIdempotencyKey (approveKey req1.LoanID req1.IdempotencyKey)
               "approved" (24 * Hour),
             ok := true },
           { call := .CheckIdempotencyKey (approveKey req1.LoanID req1.IdempotencyKey),
             ok := errNil e2 }]) ∧
    (((traced uc).ApproveLoan req2 ((traced uc).ApproveLoan req1 (s, log)).2).2.2.drop
      log.length).countP (fun e => e.call.isApprovalCreate) = 1 ∧
    (((traced uc).ApproveLoan req2 ((traced uc).ApproveLoan req1 (s, log)).2).2.2.drop
      log.length).countP (fun e => e.call.isLoanUpdate) = 1 := by
  have hcan : loan.CanTransitionTo StateApproved = none :=
    (canTransitionTo_eq_none_iff _ _).2 (Or.inl ⟨hstate, rfl⟩)
  have first : (traced uc).ApproveLoan req1 (s, log) = (none, (s9, log ++
      [{ call := .CheckIdempotencyKey (approveKey req1.LoanID req1.IdempotencyKey),
         ok := errNil e1 },
       { call := .LoanGetByID req1.LoanID, ok := true },
       { call := .FileStore req1.PictureProof req1.PictureProofFilename, ok := true },
       { call := .FileGetURL path, ok := true },
       { call := .LoanUpdate { loan with State := StateApproved, UpdatedAt := t2 },
         ok := true },
       { call := .ApprovalCreate
           { LoanID := req1.LoanID, EmployeeID := req1.EmployeeID, PictureProof := url,
             ApprovalDate := req1.ApprovalDate, CreatedAt := t1 },
         ok := true },
       { call := .SetIdempotencyKey (approveKey req1.LoanID req1.IdempotencyKey)
           "approved" (24 * Hour),
         ok := true }])) := by
    simp only [LoanUseCase.ApproveLoan, traced_checkIdempotencyKey, traced_loanGetByID,
      traced_fileStore, traced_fileGetURL, traced_now, traced_loanUpdate,
      traced_approvalCreate, traced_setIdempotencyKey, logged_eq _ _ _ _ _ _ _ hcheck,
      logged_eq _ _ _ _ _ _ _ hload, hcan, logged_eq _ _ _ _ _ _ _ hstore,
      logged_eq _ _ _ _ _ _ _ hurl, hnow1, hnow2, transitionTo_of_none _ hcan,
      logged_eq _ _ _ _ _ _ _ hupdate, logged_eq _ _ _ _ _ _ _ hcreate,
      logged_eq _ _ _ _ _ _ _ hcommit]
    simp [errNil, resNil]
  have hkey : approveKey req2.LoanID req2.IdempotencyKey
      = approveKey req1.LoanID req1.IdempotencyKey := by rw [hid, htoken]
  rw [first]
  have second := approveLoan_duplicate uc req2 s9 s10 (log ++
      [{ call := .CheckIdempotencyKey (approveKey req1.LoanID req1.IdempotencyKey),
         ok := errNil e1 },
       { call := .LoanGetByID req1.LoanID, ok := true },
       { call := .FileStore req1.PictureProof req1.PictureProofFilename, ok := true },
       { call := .FileGetURL path, ok := true },
       { call := .LoanUpdate { loan with State := StateApproved, UpdatedAt := t2 },
         ok := true },
       { call := .ApprovalCreate
           { LoanID := req1.LoanID, EmployeeID := req1.EmployeeID, PictureProof := url,
             ApprovalDate := req1.ApprovalDate, CreatedAt := t1 },
         ok := true },
       { call := .SetIdempotencyKey (approveKey req1.LoanID req1.IdempotencyKey)
           "approved" (24 * Hour),
         ok := true }]) e2 (by rw [hkey]; exact hfaithful)
  rw [second, hkey]
  refine ⟨rfl, rfl, ?_, ?_, ?_⟩
  · simp
  · simp [Call.isApprovalCreate, List.countP_cons]
  · simp [Call.isLoanUpdate, List.countP_cons]

/-- Witness for C7: the in-memory collaborators, holding one proposed loan and no
marker, satisfy every hypothesis; there the marker the first call writes is
found by the check of the second call. -/
theorem C7_approve_twice_witness :
    ((traced World.useCase).ApproveLoan Example.approveRequest (Example.fresh, [])).1 = none ∧
    ((traced World.useCase).ApproveLoan Example.approveRequest
        ((traced World.useCase).ApproveLoan Example.approveRequest (Example.fresh, [])).2).1
      = some errDuplicateRequest ∧
    (((traced World.useCase).ApproveLoan Example.approveRequest
        ((traced World.useCase).ApproveLoan Example.approveRequest (Example.fresh, [])).2).2.2.drop
      ([] : List Event).length).countP (fun e => e.call.isApprovalCreate) = 1 ∧
    (((traced World.useCase).ApproveLoan Example.approveRequest
        ((traced World.useCase).ApproveLoan Example.approveRequest (Example.fresh, [])).2).2.2.drop
      ([] : List Event).length).countP (fun e => e.call.isLoanUpdate) = 1 := by
  have h := C7_approve_twice World.useCase Example.approveRequest Example.approveRequest
    Example.proposedLoan Example.fresh _ _ _ _ _ _ _ _ _ _ [] _ _ _ _ _ _ rfl rfl rfl
    rfl rfl rfl rfl rfl rfl rfl rfl rfl rfl
  exact ⟨h.1, h.2.1, h.2.2.2⟩

/-- The call `DisburseLoan` on a key the idempotency check reports as used. -/
theorem disburseLoan_duplicate (uc : LoanUseCase σ) (req : DisburseLoanRequest) (s s1 : σ)
    (log : List Event) (err : Option GoError)
    (h : uc.redisClient.CheckIdempotencyKey (disburseKey req.LoanID req.IdempotencyKey) s
      = ((true, err), s1)) :
    (traced uc).DisburseLoan req (s, log) =
      (some errDuplicateRequest,
        (s1, log ++ [{ call := .CheckIdempotencyKey (disburseKey req.LoanID req.IdempotencyKey),
                       ok := errNil err }])) := by
  simp only [LoanUseCase.DisburseLoan, traced_checkIdempotencyKey, logged_eq _ _ _ _ _ _ _ h]

/-- C8: in `ApproveLoan`, `Invest` and `DisburseLoan`, when the idempotency
check answers that the key is already used (whatever error it returns with
it), the call returns the duplicate-request error. Run on recording
collaborators, `ApproveLoan` and `DisburseLoan` make that one call and leave the
state as the check left it; `Invest`, which took the lock before, makes exactly
one more call, the `ReleaseLock` of that lock. No loan is loaded or updated, no
document stored, no record created, no notification sent, no marker written. -/
theorem C8_duplicate_request_stops (uc : LoanUseCase σ) :
    (∀ (req : ApproveLoanRequest) (s s1 : σ) (log : List Event) (err : Option GoError),
      uc.redisClient.CheckIdempotencyKey (approveKey req.LoanID req.IdempotencyKey) s
        = ((true, err), s1) →
      (traced uc).ApproveLoan req (s, log) =
        (some errDuplicateRequest,
          (s1, log ++ [{ call := .CheckIdempotencyKey (approveKey req.LoanID req.IdempotencyKey),
                         ok := errNil err }]))) ∧
    (∀ (req : InvestRequest) (s s1 s2 s3 : σ) (log : List Event) (err rerr : Option GoError),
      uc.redisClient.AcquireLock (investLockKey req.LoanID) (30 * Second) s
        = ((true, none), s1) →
      uc.redisClient.CheckIdempotencyKey
          (investKey req.LoanID req.InvestorID req.IdempotencyKey) s1
        = ((true, err), s2) →
      uc.redisClient.ReleaseLock (investLockKey req.LoanID) s2 = (rerr, s3) →
      (traced uc).Invest req (s, log) =
        (some errDuplicateRequest,
          (s3, log ++
            [{ call := .AcquireLock (investLockKey req.LoanID) (30 * Second), ok := true },
             { call := .CheckIdempotencyKey
                 (investKey req.LoanID req.InvestorID req.IdempotencyKey),
               ok := errNil err },
             { call := .ReleaseLock (investLockKey req.LoanID), ok := errNil rerr }]))) ∧
    (∀ (req : DisburseLoanRequest) (s s1 : σ) (log : List Event) (err : Option GoError),
      uc.redisClient.CheckIdempotencyKey (disburseKey req.LoanID req.IdempotencyKey) s
        = ((true, err), s1) →
      (traced uc).DisburseLoan req (s, log) =
        (some errDuplicateRequest,
          (s1, log ++ [{ call := .CheckIdempotencyKey
                           (disburseKey req.LoanID req.IdempotencyKey),
                         ok := errNil err }]))) := by
  refine ⟨?_, ?_, ?_⟩
  · intro req s s1 log err h
    exact approveLoan_duplicate uc req s s1 log err h
  · intro req s s1 s2 s3 log err rerr h1 h2 h3
    simp only [LoanUseCase.Invest, LoanUseCase.investLocked, traced_acquireLock,
      traced_checkIdempotencyKey, traced_releaseLock, logged_eq _ _ _ _ _ _ _ h1,
      logged_eq _ _ _ _ _ _ _ h2, logged_eq _ _ _ _ _ _ _ h3]
    simp [errNil]
  · intro req s s1 log err h
    exact disburseLoan_duplicate uc req s s1 log err h

/-- Witness for C8: in the world where the marker of the request is already
written, `ApproveLoan` makes the check and nothing else. -/
theorem C8_duplicate_request_stops_witness :
    (traced World.useCase).ApproveLoan Example.approveRequest (Example.marked, []) =
      (some errDuplicateRequest,
        (Example.marked,
          [{ call := .CheckIdempotencyKey
               (approveKey Example.approveRequest.LoanID Example.approveRequest.IdempotencyKey),
             ok := true }])) :=
  (C8_duplicate_request_stops World.useCase).1 Example.approveRequest Example.marked
    Example.marked [] none rfl

/-- Witness for C9: in the world where the lock of the loan is held, `Invest`
makes the `AcquireLock` call and nothing else. -/
theorem C9_invest_lock_not_acquired_witness :
    (traced World.useCase).Invest (Example.investRequest 7 6000 "a") (Example.locked, []) =
      (some errLockNotAcquired,
        (Example.locked,
          [{ call := .AcquireLock (investLockKey (Example.investRequest 7 6000 "a").LoanID)
               (30 * Second),
             ok := true }])) :=
  C9_invest_lock_not_acquired World.useCase (Example.investRequest 7 6000 "a") Example.locked
    Example.locked [] rfl

/-- Witness for C10: in the world holding the approved loan the lock is free, so
`Invest` acquires it and its calls end with the one `ReleaseLock`. -/
theorem C10_invest_releases_lock_once_witness :
    ∃ (body : List Event) (ok : Bool),
      ((traced World.useCase).Invest (Example.investRequest 7 6000 "a")
          (Example.funding, [])).2.2 =
        [] ++ [{ call := .AcquireLock (investLockKey (Example.investRequest 7 6000 "a").LoanID)
                   (30 * Second), ok := true }]
          ++ body
          ++ [{ call := .ReleaseLock (investLockKey (Example.investRequest 7 6000 "a").LoanID),
                ok := ok }] ∧
      (∀ e ∈ body, e.call.isReleaseLock = false) ∧
      ((traced World.useCase).Invest (Example.investRequest 7 6000 "a")
          (Example.funding, [])).1 =
        ((traced World.useCase).investLocked (Example.investRequest 7 6000 "a")
          ((World.useCase.redisClient.AcquireLock
              (investLockKey (Example.investRequest 7 6000 "a").LoanID) (30 * Second)
              Example.funding).2,
            [] ++ [{ call := .AcquireLock
                       (investLockKey (Example.investRequest 7 6000 "a").LoanID) (30 * Second),
                     ok := true }])).1 :=
  C10_invest_releases_lock_once World.useCase (Example.investRequest 7 6000 "a")
    Example.funding _ [] rfl

/-! ## Theorems: the investment total on the in-memory collaborators -/

section world

theorem World.SameBooks.rfl_books (w : World) : w.SameBooks w := ⟨rfl, rfl⟩

theorem World.SameBooks.then_books {a b c : World} (h1 : a.SameBooks b) (h2 : b.SameBooks c) :
    a.SameBooks c := ⟨h2.1.trans h1.1, h2.2.trans h1.2⟩

theorem World.SameBooks.of_books {α : Type} {w w' : World} {x : α × World} {r : α}
    (heq : x = (r, w')) (h : w.SameBooks x.2) : w.SameBooks w' := by
  subst heq; exact h

theorem sameBooks_tick (w : World) : w.SameBooks w.tick := ⟨rfl, rfl⟩

theorem sameBooks_SetNX (key value : String) (w : World) : w.SameBooks (w.SetNX key value).2 := by
  unfold World.SetNX; split_ifs <;> exact ⟨rfl, rfl⟩

theorem sameBooks_Exists (key : String) (w : World) : w.SameBooks (w.Exists key).2 := by
  unfold World.Exists; split_ifs <;> exact ⟨rfl, rfl⟩

theorem sameBooks_Del (key : String) (w : World) : w.SameBooks (w.Del key).2 := by
  unfold World.Del; split_ifs <;> exact ⟨rfl, rfl⟩

theorem sameBooks_acquireLock (key : String) (d : Duration) (w : World) :
    w.SameBooks (World.useCase.redisClient.AcquireLock key d w).2 := sameBooks_SetNX _ _ w

theorem sameBooks_releaseLock (key : String) (w : World) :
    w.SameBooks (World.useCase.redisClient.ReleaseLock key w).2 := sameBooks_Del _ w

theorem sameBooks_checkIdempotencyKey (key : String) (w : World) :
    w.SameBooks (World.useCase.redisClient.CheckIdempotencyKey key w).2 := sameBooks_Exists _ w

theorem sameBooks_setIdempotencyKey (key value : String) (d : Duration) (w : World) :
    w.SameBooks (World.useCase.redisClient.SetIdempotencyKey key value d w).2 :=
  sameBooks_SetNX _ _ w

theorem sameBooks_loanGetByID (id : UUID) (w : World) :
    w.SameBooks (World.useCase.loanRepo.GetByID id w).2 := by
  show w.SameBooks (w.loanGetByID id).2
  unfold World.loanGetByID; split_ifs
  · exact ⟨rfl, rfl⟩
  · split <;> exact ⟨rfl, rfl⟩

theorem sameBooks_getTotal (id : UUID) (w : World) :
    w.SameBooks (World.useCase.investmentRepo.GetTotalByLoanID id w).2 := by
  show w.SameBooks (w.investmentGetTotalByLoanID id).2
  unfold World.investmentGetTotalByLoanID; split_ifs <;> exact ⟨rfl, rfl⟩

theorem sameBooks_investmentGetByLoanID (id : UUID) (w : World) :
    w.SameBooks (World.useCase.investmentRepo.GetByLoanID id w).2 := by
  show w.SameBooks (w.investmentGetByLoanID id).2
  unfold World.investmentGetByLoanID; split_ifs <;> exact ⟨rfl, rfl⟩

theorem sameBooks_userGetByID (id : UUID) (w : World) :
    w.SameBooks (World.useCase.userRepo.GetByID id w).2 := by
  show w.SameBooks (w.userGetByID id).2
  unfold World.userGetByID; split_ifs
  · exact ⟨rfl, rfl⟩
  · split <;> exact ⟨rfl, rfl⟩

theorem sameBooks_sendAgreementEmail (e url : String) (w : World) :
    w.SameBooks (World.useCase.emailService.SendAgreementEmail e url w).2 := by
  show w.SameBooks (w.sendAgreementEmail e url).2
  unfold World.sendAgreementEmail; split_ifs <;> exact ⟨rfl, rfl⟩

theorem sameBooks_fileGetURL (path : String) (w : World) :
    w.SameBooks (World.useCase.fileStorage.GetURL path w).2 := ⟨rfl, rfl⟩

theorem sameBooks_now (w : World) : w.SameBooks (World.useCase.runtime.Now w).2 := ⟨rfl, rfl⟩

theorem sameBooks_newUUID (w : World) : w.SameBooks (World.useCase.runtime.NewUUID w).2 :=
  ⟨rfl, rfl⟩

theorem sameBooks_notifyInvestors (url : String) (invs : List Investment) :
    ∀ w : World, w.SameBooks (World.useCase.notifyInvestors url invs w) := by
  induction invs with
  | nil => intro w; exact World.SameBooks.rfl_books w
  | cons inv rest ih =>
    intro w
    simp only [LoanUseCase.notifyInvestors]
    split
    · rename_i heq
      exact ((World.SameBooks.of_books heq (sameBooks_userGetByID _ w)).then_books
        (sameBooks_sendAgreementEmail _ _ _)).then_books (ih _)
    · rename_i heq
      exact (World.SameBooks.of_books heq (sameBooks_userGetByID _ w)).then_books (ih _)

theorem World.WithinPrincipal.same {P : Float64} {id : UUID} {w w' : World}
    (h : w.WithinPrincipal P id) (hs : w.SameBooks w') : w'.WithinPrincipal P id := by
  unfold World.WithinPrincipal World.total at *
  rw [hs.1, hs.2]; exact h

/-- What `GetByID` returns is a row of the loan table with the id asked for. -/
theorem loanGetByID_ok {id : UUID} {w w' : World} {loan : Loan}
    (h : World.useCase.loanRepo.GetByID id w = (.ok loan, w')) : loan ∈ w.loans ∧ loan.ID = id := by
  change w.loanGetByID id = _ at h
  unfold World.loanGetByID at h
  split_ifs at h
  · simp at h
  · split at h
    · rename_i l hf
      simp only [Prod.mk.injEq, Except.ok.injEq] at h
      obtain ⟨rfl, -⟩ := h
      exact ⟨List.mem_of_find?_eq_some hf, by simpa using List.find?_some hf⟩
    · simp at h

/-- What `GetTotalByLoanID` returns is the sum over the rows of the loan, and
the rows are left as they are. -/
theorem getTotal_ok {id : UUID} {w w' : World} {t : Float64}
    (h : World.useCase.investmentRepo.GetTotalByLoanID id w = (.ok t, w')) :
    t = w.total id := by
  change w.investmentGetTotalByLoanID id = _ at h
  unfold World.investmentGetTotalByLoanID at h
  split_ifs at h
  · simp at h
  · simp only [Prod.mk.injEq, Except.ok.injEq] at h
    exact h.1.symm

theorem investmentCreate_none {inv : Investment} {w w' : World}
    (h : World.useCase.investmentRepo.Create inv w = (none, w')) :
    w'.loans = w.loans ∧ w'.investments = w.investments ++ [inv] := by
  change w.investmentCreate inv = _ at h
  unfold World.investmentCreate at h
  split_ifs at h
  · simp at h
  · simp only [Prod.mk.injEq, true_and] at h
    subst h; exact ⟨rfl, rfl⟩

theorem investmentCreate_some {inv : Investment} {w w' : World} {e : GoError}
    (h : World.useCase.investmentRepo.Create inv w = (some e, w')) : w.SameBooks w' := by
  change w.investmentCreate inv = _ at h
  unfold World.investmentCreate at h
  split_ifs at h
  · simp only [Prod.mk.injEq] at h
    obtain ⟨-, rfl⟩ := h; exact ⟨rfl, rfl⟩
  · simp at h

theorem validate_none {loan : Loan} {amount total : Float64}
    (h : loan.ValidateInvestmentAmount amount total = none) :
    ¬ amount ≤ 0 ∧ ¬ total + amount > loan.PrincipalAmount := by
  unfold Loan.ValidateInvestmentAmount at h
  split_ifs at h with h1 h2
  exact ⟨h1, h2⟩

theorem World.WithinPrincipal.loanUpdate {P : Float64} {id : UUID} {w : World} (loan : Loan)
    (h : w.WithinPrincipal P id) (hl : loan.ID = id → loan.PrincipalAmount = P) :
    (World.useCase.loanRepo.Update loan w).2.WithinPrincipal P id := by
  show (w.loanUpdate loan).2.WithinPrincipal P id
  unfold World.loanUpdate
  split_ifs
  · exact h.same ⟨rfl, rfl⟩
  · refine ⟨?_, h.2⟩
    intro l hl1 hl2
    simp only [World.tick, List.mem_map] at hl1
    obtain ⟨row, hrow, rfl⟩ := hl1
    split_ifs at hl2 ⊢ with hc
    · have : row.ID = id := hl2
      exact hl (hc ▸ this)
    · exact h.1 row hrow hl2

theorem World.WithinPrincipal.of_world {α : Type} {P : Float64} {id : UUID} {w' : World}
    {x : α × World} {r : α} (heq : x = (r, w')) (h : x.2.WithinPrincipal P id) :
    w'.WithinPrincipal P id := by
  subst heq; exact h

theorem transitionTo_keeps {loan loan' : Loan} {target : LoanState} {t : Time}
    (h : loan.TransitionTo target t = (none, loan')) :
    loan'.ID = loan.ID ∧ loan'.PrincipalAmount = loan.PrincipalAmount := by
  unfold Loan.TransitionTo at h
  split at h
  · simp at h
  · simp only [Prod.mk.injEq, true_and] at h
    subst h; exact ⟨rfl, rfl⟩

theorem investFullyFunded_within {P : Float64} {id : UUID} (req : InvestRequest) (loan : Loan)
    (w : World) (h : w.WithinPrincipal P id) (hl : loan.ID = id → loan.PrincipalAmount = P) :
    (World.useCase.investFullyFunded req loan w).2.WithinPrincipal P id := by
  simp only [LoanUseCase.investFullyFunded]
  split
  · exact h
  · rename_i loan' heqT
    have hk := transitionTo_keeps heqT
    have hl' : loan'.ID = id → loan'.PrincipalAmount = P := fun e =>
      hk.2.trans (hl (hk.1.symm.trans e))
    have h1 := (h.same (sameBooks_now w)).loanUpdate loan' hl'
    split
    · rename_i heq
      exact World.WithinPrincipal.of_world heq h1
    · rename_i heq
      have h2 := World.WithinPrincipal.of_world heq h1
      split
      · rename_i heq
        exact World.WithinPrincipal.of_world heq (World.WithinPrincipal.loanUpdate _
          (h2.same (sameBooks_fileGetURL (agreementPath req.LoanID) _)) hl')
      · rename_i heq
        have h4 := World.WithinPrincipal.of_world heq (World.WithinPrincipal.loanUpdate _
          (h2.same (sameBooks_fileGetURL (agreementPath req.LoanID) _)) hl')
        split
        · rename_i heq
          exact (h4.same (World.SameBooks.of_books heq (sameBooks_investmentGetByLoanID _ _))).same
            (sameBooks_notifyInvestors _ _ _)
        · rename_i heq
          exact h4.same (World.SameBooks.of_books heq (sameBooks_investmentGetByLoanID _ _))

/-- The total of a loan after one more row: the amount of a row of the loan is
added, as a `float64`, to the total so far. -/
theorem total_append (w w' : World) (inv : Investment) (id : UUID)
    (h : w'.investments = w.investments ++ [inv]) :
    w'.total id = if inv.LoanID = id then w.total id + inv.Amount else w.total id := by
  unfold World.total
  rw [h, List.filter_append, List.map_append, List.foldl_append]
  by_cases hc : inv.LoanID = id <;> simp [List.filter_cons, hc]

theorem investLocked_within {P : Float64} {id : UUID} (req : InvestRequest) (w : World)
    (h : w.WithinPrincipal P id) :
    (World.useCase.investLocked req w).2.WithinPrincipal P id := by
  simp only [LoanUseCase.investLocked]
  split
  · rename_i heq
    exact h.same (World.SameBooks.of_books heq (sameBooks_checkIdempotencyKey _ _))
  · rename_i heq
    have h1 := h.same (World.SameBooks.of_books heq (sameBooks_checkIdempotencyKey _ _))
    split
    · rename_i heq
      exact h1.same (World.SameBooks.of_books heq (sameBooks_loanGetByID _ _))
    · rename_i loan w2 heq
      have hs2 := World.SameBooks.of_books heq (sameBooks_loanGetByID _ _)
      have h2 := h1.same hs2
      have hloan := loanGetByID_ok heq
      have hl : loan.ID = id → loan.PrincipalAmount = P := fun e => h1.1 loan hloan.1 e
      split
      · exact h2
      · split
        · rename_i heq
          exact h2.same (World.SameBooks.of_books heq (sameBooks_getTotal _ _))
        · rename_i t w3 heq
          have hs3 := World.SameBooks.of_books heq (sameBooks_getTotal _ _)
          have h3 := h2.same hs3
          have ht := getTotal_ok heq
          split
          · exact h3
          · rename_i hv
            have hv' := validate_none hv
            have hs4 : w3.SameBooks (World.useCase.runtime.Now (World.useCase.runtime.NewUUID w3).2).2 :=
              ⟨rfl, rfl⟩
            split
            · rename_i heq
              exact (h3.same hs4).same (investmentCreate_some heq)
            · rename_i w5 heq
              have hc := investmentCreate_none heq
              have h5 : w5.WithinPrincipal P id := by
                refine ⟨fun l hl1 hl2 => h3.1 l (by rw [hc.1] at hl1; exact hl1) hl2, ?_⟩
                rw [total_append _ w5 _ id hc.2]
                simp only
                have e3 : w3.total id = w2.total id := by
                  unfold World.total; rw [hs3.2]
                split_ifs with hid
                · have hP := hl (hloan.2.trans hid)
                  change ¬ w3.total id + req.Amount > P
                  rw [e3, ← hid, ← ht, ← hP]
                  exact hv'.2
                · exact h3.2
              split
              · rename_i heq
                refine World.WithinPrincipal.of_world heq ?_
                split
                · exact investFullyFunded_within req loan w5 h5 hl
                · exact h5
              · rename_i w6 heq
                change World.WithinPrincipal P id
                  (World.useCase.redisClient.SetIdempotencyKey
                    (investKey req.LoanID req.InvestorID req.IdempotencyKey) "invested"
                    (24 * Hour) w6).2
                refine World.WithinPrincipal.same ?_ (sameBooks_setIdempotencyKey _ _ _ _)
                refine World.WithinPrincipal.of_world heq ?_
                split
                · exact investFullyFunded_within req loan w5 h5 hl
                · exact h5

theorem invest_within {P : Float64} {id : UUID} (req : InvestRequest) (w : World)
    (h : w.WithinPrincipal P id) : (World.useCase.Invest req w).2.WithinPrincipal P id := by
  simp only [LoanUseCase.Invest]
  split
  · rename_i heq
    exact h.same (World.SameBooks.of_books heq (sameBooks_acquireLock _ _ _))
  · rename_i heq
    exact h.same (World.SameBooks.of_books heq (sameBooks_acquireLock _ _ _))
  · rename_i heq
    exact (investLocked_within req _
      (h.same (World.SameBooks.of_books heq (sameBooks_acquireLock _ _ _)))).same
        (sameBooks_releaseLock _ _)

theorem runInvests_within {P : Float64} {id : UUID} (reqs : List InvestRequest) :
    ∀ w : World, w.WithinPrincipal P id → (w.runInvests reqs).WithinPrincipal P id := by
  induction reqs with
  | nil => intro w h; exact h
  | cons req rest ih => intro w h; exact ih _ (invest_within req w h)

end world

set_option maxRecDepth 8000 in
/-- Counterexample to C2 as stated: the approved loan of 10000 with no investment
row, and two `Invest` calls one after the other, of 9999.5 by investor 7 and of
0.5 + 2⁻⁴¹ by investor 8. Both amounts are `float64` values. Before either call
the total of the store is the exact sum of the rows (0, then 9999.5). Both calls
return nil and both rows are stored: the amounts of the stored rows sum to
10000 + 2⁻⁴¹, more than the principal. -/
theorem C2_counterexample :
    Example.approvedLoan.PrincipalAmount = .fin 10000 ∧
    (0 : Float64) < Example.approvedLoan.PrincipalAmount ∧
    Example.funding.loans = [Example.approvedLoan] ∧ Example.funding.investments = [] ∧
    (Float64.fin (19999 / 2)).IsValue ∧ (Float64.fin (1 / 2 + 1 / 2 ^ 41)).IsValue ∧
    Example.funding.total (UUID.ofNat 1) = .fin (Example.funding.exactTotal (UUID.ofNat 1)) ∧
    (World.useCase.Invest (Example.investRequest 7 (.fin (19999 / 2)) "a") Example.funding).1
      = none ∧
    (Example.funding.runInvests [Example.investRequest 7 (.fin (19999 / 2)) "a"]).total
        (UUID.ofNat 1)
      = .fin ((Example.funding.runInvests
          [Example.investRequest 7 (.fin (19999 / 2)) "a"]).exactTotal (UUID.ofNat 1)) ∧
    (World.useCase.Invest (Example.investRequest 8 (.fin (1 / 2 + 1 / 2 ^ 41)) "b")
      (Example.funding.runInvests [Example.investRequest 7 (.fin (19999 / 2)) "a"])).1 = none ∧
    ((Example.funding.runInvests
        [Example.investRequest 7 (.fin (19999 / 2)) "a",
          Example.investRequest 8 (.fin (1 / 2 + 1 / 2 ^ 41)) "b"]).investments.map
        fun i => (i.LoanID, i.Amount))
      = [(UUID.ofNat 1, .fin (19999 / 2)), (UUID.ofNat 1, .fin (1 / 2 + 1 / 2 ^ 41))] ∧
    (Example.funding.runInvests
        [Example.investRequest 7 (.fin (19999 / 2)) "a",
          Example.investRequest 8 (.fin (1 / 2 + 1 / 2 ^ 41)) "b"]).exactTotal (UUID.ofNat 1)
      = 10000 + 1 / 2 ^ 41 ∧
    (10000 : ℚ) < 10000 + 1 / 2 ^ 41 := by
  refine ⟨?_, ?_, ?_, ?_, ?_, ?_, ?_, ?_, ?_, ?_, ?_, ?_, by norm_num⟩ <;>
    with_unfolding_all rfl

/-- C2, amended: take a loan with positive principal such that the loan table
holds no other row under its id and no investment row belongs to it. After any
number of `Invest` calls made one after another on the in-memory collaborators,
with arbitrary requests and with any of the collaborator calls failing, the
`float64` total of the investment rows of the loan, added up in the order of
insertion as `GetTotalByLoanID` returns it, does not exceed its principal. -/
theorem C2_investments_within_principal (w : World) (loan : Loan) (reqs : List InvestRequest)
    (n : Nat) (hpos : 0 < loan.PrincipalAmount)
    (hkey : ∀ l ∈ w.loans, l.ID = loan.ID → l = loan)
    (hnone : ∀ i ∈ w.investments, i.LoanID ≠ loan.ID) :
    ¬ (w.runInvests (reqs.take n)).total loan.ID > loan.PrincipalAmount := by
  have h0 : w.WithinPrincipal loan.PrincipalAmount loan.ID := by
    refine ⟨fun l hl hid => by rw [hkey l hl hid], ?_⟩
    have : w.investments.filter (fun i => i.LoanID = loan.ID) = [] := by
      rw [List.filter_eq_nil_iff]
      intro i hi
      simpa using hnone i hi
    unfold World.total
    rw [this]
    exact Float64.lt_asymm hpos
  exact (runInvests_within (reqs.take n) w h0).2

set_option maxRecDepth 8000 in
/-- Witness for C2: the approved loan of 10000 and requests of 6000, 4000 and 1. -/
theorem C2_investments_within_principal_witness :
    ¬ (Example.funding.runInvests
        ([Example.investRequest 7 6000 "a", Example.investRequest 8 4000 "b",
          Example.investRequest 9 1 "c"].take 3)).total Example.approvedLoan.ID
      > Example.approvedLoan.PrincipalAmount :=
  C2_investments_within_principal Example.funding Example.approvedLoan _ 3
    (by with_unfolding_all decide)
    (by intro l hl _; simpa [Example.funding] using hl)
    (by intro i hi; simp [Example.funding, World.empty] at hi)


/-! ## Theorems: single calls, for any collaborators -/

/-- C19: `CreateLoan` builds the loan with `NewLoan` from a fresh id, the clock
and the fields of the request, and passes it to the store's `Create`, its only
collaborator call. When `Create` succeeds it returns that same loan: state
proposed, borrower, principal, rate and ROI as requested, no agreement
reference, `CreatedAt` equal to `UpdatedAt`. When `Create` fails it returns the
wrapped error and no loan. -/
theorem C19_createLoan (uc : LoanUseCase σ) (req : CreateLoanRequest) (s s1 s2 : σ)
    (log : List Event) (id : UUID) (now : Time)
    (hid : uc.runtime.NewUUID s = (id, s1)) (hnow : uc.runtime.Now s1 = (now, s2)) :
    (∀ s3 : σ,
      uc.loanRepo.Create
          (NewLoan id now req.BorrowerID req.PrincipalAmount req.Rate req.ROI) s2
        = (none, s3) →
      ∃ loan : Loan,
        (traced uc).CreateLoan req (s, log)
          = (.ok loan, (s3, log ++ [{ call := .LoanCreate loan, ok := true }])) ∧
        loan.State = StateProposed ∧ loan.BorrowerID = req.BorrowerID ∧
        loan.PrincipalAmount = req.PrincipalAmount ∧ loan.Rate = req.Rate ∧
        loan.ROI = req.ROI ∧ loan.AgreementLetterURL = none ∧
        loan.CreatedAt = loan.UpdatedAt ∧ loan.ID = id) ∧
    (∀ (err : GoError) (s3 : σ),
      uc.loanRepo.Create
          (NewLoan id now req.BorrowerID req.PrincipalAmount req.Rate req.ROI) s2
        = (some err, s3) →
      (traced uc).CreateLoan req (s, log)
        = (.error (.wrap "failed to create loan" err),
            (s3, log ++
              [{ call := .LoanCreate
                   (NewLoan id now req.BorrowerID req.PrincipalAmount req.Rate req.ROI),
                 ok := false }]))) := by
  refine ⟨?_, ?_⟩
  · intro s3 h
    refine ⟨NewLoan id now req.BorrowerID req.PrincipalAmount req.Rate req.ROI, ?_, rfl, rfl,
      rfl, rfl, rfl, rfl, rfl, rfl⟩
    simp only [LoanUseCase.CreateLoan, traced_newUUID, traced_now, hid, hnow,
      traced_loanCreate, logged_eq _ _ _ _ _ _ _ h]
    rfl
  · intro err s3 h
    simp only [LoanUseCase.CreateLoan, traced_newUUID, traced_now, hid, hnow,
      traced_loanCreate, logged_eq _ _ _ _ _ _ _ h]
    rfl

/-- Witness for C19: creating a loan of 10000 in the empty world. -/
theorem C19_createLoan_witness :
    ∃ loan : Loan,
      (traced World.useCase).CreateLoan Example.createRequest (World.empty, [])
        = (.ok loan,
            ((World.useCase.loanRepo.Create
                (NewLoan (UUID.ofNat 0) 0 Example.createRequest.BorrowerID
                  Example.createRequest.PrincipalAmount Example.createRequest.Rate
                  Example.createRequest.ROI)
                (World.useCase.runtime.Now (World.useCase.runtime.NewUUID World.empty).2).2).2,
              [] ++ [{ call := .LoanCreate loan, ok := true }])) ∧
      loan.State = StateProposed ∧ loan.BorrowerID = Example.createRequest.BorrowerID ∧
      loan.PrincipalAmount = Example.createRequest.PrincipalAmount ∧
      loan.Rate = Example.createRequest.Rate ∧ loan.ROI = Example.createRequest.ROI ∧
      loan.AgreementLetterURL = none ∧ loan.CreatedAt = loan.UpdatedAt ∧
      loan.ID = UUID.ofNat 0 :=
  (C19_createLoan World.useCase Example.createRequest World.empty _ _ [] (UUID.ofNat 0) 0
    rfl rfl).1 _ rfl

/-- An error of `CanTransitionTo` is a state-transition error naming the loan's
state and the target. -/
theorem canTransitionTo_some_form {l : Loan} {target : LoanState} {e : GoError}
    (h : l.CanTransitionTo target = some e) :
    ∃ cause : String, e = .transition { From := l.State, To := target, Cause := cause } := by
  unfold Loan.CanTransitionTo at h
  split at h
  · exact ⟨_, (Option.some.inj h).symm⟩
  · split_ifs at h
    exact ⟨_, (Option.some.inj h).symm⟩

/-- C14: `DisburseLoan` with a token the check reports as unused, on a loan the
store returns in a state other than invested, returns the state-transition
error of `CanTransitionTo`, with `From` the loan's state and `To` disbursed.
Its only collaborator calls are the idempotency check and the loan load: no
document is stored, no loan update issued, no disbursement record created and
no marker written. -/
theorem C14_disburse_not_invested (uc : LoanUseCase σ) (req : DisburseLoanRequest)
    (s s1 s2 : σ) (log : List Event) (e1 : Option GoError) (loan : Loan)
    (hcheck : uc.redisClient.CheckIdempotencyKey (disburseKey req.LoanID req.IdempotencyKey) s
      = ((false, e1), s1))
    (hload : uc.loanRepo.GetByID req.LoanID s1 = (.ok loan, s2))
    (hstate : loan.State ≠ StateInvested) :
    ∃ cause : String,
      (traced uc).DisburseLoan req (s, log) =
        (some (.transition { From := loan.State, To := StateDisbursed, Cause := cause }),
          (s2, log ++
            [{ call := .CheckIdempotencyKey (disburseKey req.LoanID req.IdempotencyKey),
               ok := errNil e1 },
             { call := .LoanGetByID req.LoanID, ok := true }])) := by
  have hne : loan.CanTransitionTo StateDisbursed ≠ none := by
    intro h
    rcases (canTransitionTo_eq_none_iff _ _).1 h with ⟨-, h2⟩ | ⟨-, h2⟩ | ⟨h1, -⟩
    · exact absurd h2 (by decide)
    · exact absurd h2 (by decide)
    · exact hstate h1
  obtain ⟨err, herr⟩ := Option.ne_none_iff_exists'.1 hne
  obtain ⟨cause, rfl⟩ := canTransitionTo_some_form herr
  have hcause := herr
  refine ⟨cause, ?_⟩
  simp only [LoanUseCase.DisburseLoan, traced_checkIdempotencyKey, traced_loanGetByID,
    logged_eq _ _ _ _ _ _ _ hcheck, logged_eq _ _ _ _ _ _ _ hload, hcause]
  simp [resNil]

/-- For any collaborators: `Invest`, once it holds the lock and the
idempotency check reports the key unused, on a loan the store returns in a state
other than approved, returns an error. Its collaborator calls are the lock
acquisition, the check, the loan load and the lock release: no total query, no
investment insert, no loan update and no marker. -/
theorem invest_not_approved (uc : LoanUseCase σ) (req : InvestRequest) (s s1 s2 s3 s4 : σ)
    (log : List Event) (e1 rerr : Option GoError) (loan : Loan)
    (hlock : uc.redisClient.AcquireLock (investLockKey req.LoanID) (30 * Second) s
      = ((true, none), s1))
    (hcheck : uc.redisClient.CheckIdempotencyKey
        (investKey req.LoanID req.InvestorID req.IdempotencyKey) s1
      = ((false, e1), s2))
    (hload : uc.loanRepo.GetByID req.LoanID s2 = (.ok loan, s3))
    (hstate : loan.State ≠ StateApproved)
    (hrelease : uc.redisClient.ReleaseLock (investLockKey req.LoanID) s3 = (rerr, s4)) :
    (traced uc).Invest req (s, log) =
      (some (.new "loan must be in approved state to accept investments"),
        (s4, log ++
          [{ call := .AcquireLock (investLockKey req.LoanID) (30 * Second), ok := true },
           { call := .CheckIdempotencyKey
               (investKey req.LoanID req.InvestorID req.IdempotencyKey),
             ok := errNil e1 },
           { call := .LoanGetByID req.LoanID, ok := true },
           { call := .ReleaseLock (investLockKey req.LoanID), ok := errNil rerr }])) := by
  simp only [LoanUseCase.Invest, LoanUseCase.investLocked, traced_acquireLock,
    traced_checkIdempotencyKey, traced_loanGetByID, traced_releaseLock,
    logged_eq _ _ _ _ _ _ _ hlock, logged_eq _ _ _ _ _ _ _ hcheck,
    logged_eq _ _ _ _ _ _ _ hload, ne_eq, hstate, not_false_eq_true, if_true,
    logged_eq _ _ _ _ _ _ _ hrelease]
  simp [errNil, resNil]

/-- C12, amended: `Invest` on a loan the store returns in state approved, once it
holds the lock and the key is unused, with an amount that is not positive or
whose `float64` sum with the total returned by `GetTotalByLoanID` exceeds the
principal, returns the error of `ValidateInvestmentAmount`. Its collaborator
calls are the lock acquisition, the check, the loan load, the total query and
the lock release: no investment row is inserted, no loan update is issued and no
marker written. -/
theorem C12_invest_validation_fails (uc : LoanUseCase σ) (req : InvestRequest)
    (s s1 s2 s3 s4 s5 : σ) (log : List Event) (e1 rerr : Option GoError) (loan : Loan)
    (total : Float64)
    (hlock : uc.redisClient.AcquireLock (investLockKey req.LoanID) (30 * Second) s
      = ((true, none), s1))
    (hcheck : uc.redisClient.CheckIdempotencyKey
        (investKey req.LoanID req.InvestorID req.IdempotencyKey) s1
      = ((false, e1), s2))
    (hload : uc.loanRepo.GetByID req.LoanID s2 = (.ok loan, s3))
    (hstate : loan.State = StateApproved)
    (htotal : uc.investmentRepo.GetTotalByLoanID req.LoanID s3 = (.ok total, s4))
    (hbad : req.Amount ≤ 0 ∨ total + req.Amount > loan.PrincipalAmount)
    (hrelease : uc.redisClient.ReleaseLock (investLockKey req.LoanID) s4 = (rerr, s5)) :
    ∃ err : GoError,
      (err = .new "investment amount must be positive" ∨
        err = .exceedsPrincipal (total + req.Amount) loan.PrincipalAmount) ∧
      loan.ValidateInvestmentAmount req.Amount total = some err ∧
      (traced uc).Invest req (s, log) =
        (some err,
          (s5, log ++
            [{ call := .AcquireLock (investLockKey req.LoanID) (30 * Second), ok := true },
             { call := .CheckIdempotencyKey
                 (investKey req.LoanID req.InvestorID req.IdempotencyKey),
               ok := errNil e1 },
             { call := .LoanGetByID req.LoanID, ok := true },
             { call := .InvestmentGetTotalByLoanID req.LoanID, ok := true },
             { call := .ReleaseLock (investLockKey req.LoanID), ok := errNil rerr }])) := by
  have hv : ∃ err : GoError,
      (err = .new "investment amount must be positive" ∨
        err = .exceedsPrincipal (total + req.Amount) loan.PrincipalAmount) ∧
      loan.ValidateInvestmentAmount req.Amount total = some err := by
    unfold Loan.ValidateInvestmentAmount
    split_ifs with h1 h2
    · exact ⟨_, Or.inl rfl, rfl⟩
    · exact ⟨_, Or.inr rfl, rfl⟩
    · rcases hbad with h | h
      · exact absurd h h1
      · exact absurd h h2
  obtain ⟨err, hform, hval⟩ := hv
  refine ⟨err, hform, hval, ?_⟩
  simp only [LoanUseCase.Invest, LoanUseCase.investLocked, traced_acquireLock,
    traced_checkIdempotencyKey, traced_loanGetByID, traced_releaseLock,
    traced_investmentGetTotalByLoanID,
    logged_eq _ _ _ _ _ _ _ hlock, logged_eq _ _ _ _ _ _ _ hcheck,
    logged_eq _ _ _ _ _ _ _ hload, ne_eq, hstate, not_true_eq_false, if_false,
    logged_eq _ _ _ _ _ _ _ htotal, hval, logged_eq _ _ _ _ _ _ _ hrelease]
  simp [errNil, resNil]

/-- C18: `ApproveLoan` with a key the check reports as unused, on a loan the
store returns in state proposed, when the proof store, the loan update and the
approval insert succeed: it returns no error, and its collaborator calls are
exactly the check, the load, the proof store, the URL lookup, one `Update` whose
loan is in state approved, one approval insert and the marker commit. The
approval record carries the request's loan id, employee id and approval date
and, as proof reference, the URL the document store gives for the stored path. -/
theorem C18_approveLoan_succeeds (uc : LoanUseCase σ) (req : ApproveLoanRequest) (loan : Loan)
    (s s1 s2 s3 s4 s5 s6 s7 s8 s9 : σ) (log : List Event) (e1 e2 : Option GoError)
    (path url : String) (t1 t2 : Time)
    (hstate : loan.State = StateProposed)
    (hcheck : uc.redisClient.CheckIdempotencyKey (approveKey req.LoanID req.IdempotencyKey) s
      = ((false, e1), s1))
    (hload : uc.loanRepo.GetByID req.LoanID s1 = (.ok loan, s2))
    (hstore : uc.fileStorage.Store req.PictureProof req.PictureProofFilename s2
      = (.ok path, s3))
    (hurl : uc.fileStorage.GetURL path s3 = (url, s4))
    (hnow1 : uc.runtime.Now s4 = (t1, s5))
    (hnow2 : uc.runtime.Now s5 = (t2, s6))
    (hupdate : uc.loanRepo.Update { loan with State := StateApproved, UpdatedAt := t2 } s6
      = (none, s7))
    (hcreate : uc.approvalRepo.Create
        { LoanID := req.LoanID, EmployeeID := req.EmployeeID, PictureProof := url,
          ApprovalDate := req.ApprovalDate, CreatedAt := t1 } s7
      = (none, s8))
    (hcommit : uc.redisClient.SetIdempotencyKey (approveKey req.LoanID req.IdempotencyKey)
        "approved" (24 * Hour) s8
      = (e2, s9)) :
    ∃ (updated : Loan) (approval : LoanApproval),
      (traced uc).ApproveLoan req (s, log) =
        (none, (s9, log ++
          [{ call := .CheckIdempotencyKey (approveKey req.LoanID req.IdempotencyKey),
             ok := errNil e1 },
           { call := .LoanGetByID req.LoanID, ok := true },
           { call := .FileStore req.PictureProof req.PictureProofFilename, ok := true },
           { call := .FileGetURL path, ok := true },
           { call := .LoanUpdate updated, ok := true },
           { call := .ApprovalCreate approval, ok := true },
           { call := .SetIdempotencyKey (approveKey req.LoanID req.IdempotencyKey)
               "approved" (24 * Hour),
             ok := errNil e2 }])) ∧
      updated = { loan with State := StateApproved, UpdatedAt := t2 } ∧
      updated.State = StateApproved ∧
      approval.LoanID = req.LoanID ∧ approval.EmployeeID = req.EmployeeID ∧
      approval.ApprovalDate = req.ApprovalDate ∧ approval.PictureProof = url ∧
      approval.CreatedAt = t1 := by
  have hcan : loan.CanTransitionTo StateApproved = none :=
    (canTransitionTo_eq_none_iff _ _).2 (Or.inl ⟨hstate, rfl⟩)
  refine ⟨{ loan with State := StateApproved, UpdatedAt := t2 },
    { LoanID := req.LoanID, EmployeeID := req.EmployeeID, PictureProof := url,
      ApprovalDate := req.ApprovalDate, CreatedAt := t1 }, ?_, rfl, rfl, rfl, rfl, rfl, rfl, rfl⟩
  simp only [LoanUseCase.ApproveLoan, traced_checkIdempotencyKey, traced_loanGetByID,
    traced_fileStore, traced_fileGetURL, traced_now, traced_loanUpdate,
    traced_approvalCreate, traced_setIdempotencyKey, logged_eq _ _ _ _ _ _ _ hcheck,
    logged_eq _ _ _ _ _ _ _ hload, hcan, logged_eq _ _ _ _ _ _ _ hstore,
    logged_eq _ _ _ _ _ _ _ hurl, hnow1, hnow2, transitionTo_of_none _ hcan,
    logged_eq _ _ _ _ _ _ _ hupdate, logged_eq _ _ _ _ _ _ _ hcreate,
    logged_eq _ _ _ _ _ _ _ hcommit]
  simp [errNil, resNil]

/-- Witness for C18: approving the proposed loan in a world without faults. -/
theorem C18_approveLoan_succeeds_witness :
    ((traced World.useCase).ApproveLoan Example.approveRequest (Example.fresh, [])).1 = none ∧
    ((traced World.useCase).ApproveLoan Example.approveRequest (Example.fresh, [])).2.1.approvals
      = [{ LoanID := UUID.ofNat 1, EmployeeID := UUID.ofNat 3,
           PictureProof := "http://localhost:8080/files/0_proof.jpg",
           ApprovalDate := 5, CreatedAt := 0 }] := by
  obtain ⟨updated, approval, h, -⟩ := C18_approveLoan_succeeds World.useCase
    Example.approveRequest Example.proposedLoan Example.fresh _ _ _ _ _ _ _ _ _ [] _ _ _ _ _ _
    rfl rfl rfl rfl rfl rfl rfl rfl rfl rfl
  rw [h]
  exact ⟨rfl, rfl⟩

/-- Witness for C14: disbursing the loan while it is still approved. -/
theorem C14_disburse_not_invested_witness :
    ∃ cause : String,
      (traced World.useCase).DisburseLoan Example.disburseRequest (Example.funding, []) =
        (some (.transition
            { From := Example.approvedLoan.State, To := StateDisbursed, Cause := cause }),
          (Example.funding, [] ++
            [{ call := .CheckIdempotencyKey
                 (disburseKey Example.disburseRequest.LoanID
                   Example.disburseRequest.IdempotencyKey),
               ok := errNil none },
             { call := .LoanGetByID Example.disburseRequest.LoanID, ok := true }])) :=
  C14_disburse_not_invested World.useCase Example.disburseRequest Example.funding
    Example.funding Example.funding [] none Example.approvedLoan rfl rfl (by decide)

set_option maxRecDepth 8000 in
/-- Witness for C12: principal 10000, nothing invested yet, a request of 10001. -/
theorem C12_invest_validation_fails_witness :
    ∃ err : GoError,
      (err = .new "investment amount must be positive" ∨
        err = .exceedsPrincipal
          (Example.funding.total (UUID.ofNat 1) + (Example.investRequest 7 10001 "a").Amount)
          Example.approvedLoan.PrincipalAmount) ∧
      Example.approvedLoan.ValidateInvestmentAmount (Example.investRequest 7 10001 "a").Amount
          (Example.funding.total (UUID.ofNat 1)) = some err ∧
      (traced World.useCase).Invest (Example.investRequest 7 10001 "a") (Example.funding, []) =
        (some err,
          (Example.funding, [] ++
            [{ call := .AcquireLock (investLockKey (Example.investRequest 7 10001 "a").LoanID)
                 (30 * Second), ok := true },
             { call := .CheckIdempotencyKey
                 (investKey (Example.investRequest 7 10001 "a").LoanID
                   (Example.investRequest 7 10001 "a").InvestorID
                   (Example.investRequest 7 10001 "a").IdempotencyKey),
               ok := errNil none },
             { call := .LoanGetByID (Example.investRequest 7 10001 "a").LoanID, ok := true },
             { call := .InvestmentGetTotalByLoanID (Example.investRequest 7 10001 "a").LoanID,
               ok := true },
             { call := .ReleaseLock (investLockKey (Example.investRequest 7 10001 "a").LoanID),
               ok := errNil none }])) :=
  C12_invest_validation_fails World.useCase (Example.investRequest 7 10001 "a")
    Example.funding _ _ _ _ Example.funding [] none none Example.approvedLoan
    (Example.funding.total (UUID.ofNat 1)) rfl rfl rfl rfl rfl
    (Or.inr (by with_unfolding_all decide))
    rfl

set_option maxRecDepth 8000 in
/-- Counterexample to C12 as stated: the approved loan of 10000 with one
investment row of 9999.5, and a request of investor 8 for 0.5 + 2⁻⁴¹, a `float64`
value. The persisted total plus the amount exceeds the principal, by 2⁻⁴¹, but
`Invest` returns nil: the investment row is created, the loan is stored as
invested and the idempotency marker is written. -/
theorem C12_counterexample :
    (Example.almostFunded.loans.map fun l => (l.State, l.PrincipalAmount))
      = [(StateApproved, .fin 10000)] ∧
    (Example.almostFunded.investments.map fun i => (i.LoanID, i.Amount))
      = [(UUID.ofNat 1, .fin (19999 / 2))] ∧
    Example.almostFunded.total (UUID.ofNat 1) = .fin (19999 / 2) ∧
    Example.sliver.LoanID = UUID.ofNat 1 ∧
    Example.sliver.Amount = .fin (1 / 2 + 1 / 2 ^ 41) ∧
    (Float64.fin (1 / 2 + 1 / 2 ^ 41)).IsValue ∧
    (19999 / 2 : ℚ) + (1 / 2 + 1 / 2 ^ 41) > 10000 ∧
    (World.useCase.Invest Example.sliver Example.almostFunded).1 = none ∧
    ((World.useCase.Invest Example.sliver Example.almostFunded).2.investments.map
        fun i => (i.LoanID, i.Amount))
      = [(UUID.ofNat 1, .fin (19999 / 2)), (UUID.ofNat 1, .fin (1 / 2 + 1 / 2 ^ 41))] ∧
    (World.useCase.Invest Example.sliver Example.almostFunded).2.loans.map Loan.State
      = [StateInvested] ∧
    (World.useCase.Invest Example.sliver Example.almostFunded).2.hasKey
      ("idempotency:" ++ investKey Example.sliver.LoanID Example.sliver.InvestorID
        Example.sliver.IdempotencyKey) = true := by
  refine ⟨?_, ?_, ?_, ?_, ?_, ?_, by norm_num, ?_, ?_, ?_, ?_⟩ <;> with_unfolding_all rfl

/-! ## Theorems: what the use cases do to the in-memory tables -/

section tables

theorem World.SameTables.rfl_tables (w : World) : w.SameTables w := ⟨rfl, rfl, rfl, rfl, rfl⟩

theorem World.SameExceptLoans.then_rest {a b c : World} (h1 : a.SameExceptLoans b)
    (h2 : b.SameExceptLoans c) : a.SameExceptLoans c :=
  ⟨h2.1.trans h1.1, h2.2.1.trans h1.2.1, h2.2.2.1.trans h1.2.2.1, h2.2.2.2.trans h1.2.2.2⟩

theorem World.SameTables.then_tables {a b c : World} (h1 : a.SameTables b)
    (h2 : b.SameTables c) : a.SameTables c :=
  ⟨h2.1.trans h1.1, h1.2.then_rest h2.2⟩

theorem World.SameTables.of_tables {α : Type} {w w' : World} {x : α × World} {r : α}
    (heq : x = (r, w')) (h : w.SameTables x.2) : w.SameTables w' := by
  subst heq; exact h

theorem sameTables_SetNX (key value : String) (w : World) :
    w.SameTables (w.SetNX key value).2 := by
  unfold World.SetNX; split_ifs <;> exact ⟨rfl, rfl, rfl, rfl, rfl⟩

theorem sameTables_Exists (key : String) (w : World) : w.SameTables (w.Exists key).2 := by
  unfold World.Exists; split_ifs <;> exact ⟨rfl, rfl, rfl, rfl, rfl⟩

theorem sameTables_Del (key : String) (w : World) : w.SameTables (w.Del key).2 := by
  unfold World.Del; split_ifs <;> exact ⟨rfl, rfl, rfl, rfl, rfl⟩

theorem sameTables_acquireLock (key : String) (d : Duration) (w : World) :
    w.SameTables (World.useCase.redisClient.AcquireLock key d w).2 := sameTables_SetNX _ _ w

theorem sameTables_releaseLock (key : String) (w : World) :
    w.SameTables (World.useCase.redisClient.ReleaseLock key w).2 := sameTables_Del _ w

theorem sameTables_checkIdempotencyKey (key : String) (w : World) :
    w.SameTables (World.useCase.redisClient.CheckIdempotencyKey key w).2 :=
  sameTables_Exists _ w

theorem sameTables_setIdempotencyKey (key value : String) (d : Duration) (w : World) :
    w.SameTables (World.useCase.redisClient.SetIdempotencyKey key value d w).2 :=
  sameTables_SetNX _ _ w

theorem sameTables_loanGetByID (id : UUID) (w : World) :
    w.SameTables (World.useCase.loanRepo.GetByID id w).2 := by
  show w.SameTables (w.loanGetByID id).2
  unfold World.loanGetByID; split_ifs
  · exact ⟨rfl, rfl, rfl, rfl, rfl⟩
  · split <;> exact ⟨rfl, rfl, rfl, rfl, rfl⟩

theorem sameTables_getTotal (id : UUID) (w : World) :
    w.SameTables (World.useCase.investmentRepo.GetTotalByLoanID id w).2 := by
  show w.SameTables (w.investmentGetTotalByLoanID id).2
  unfold World.investmentGetTotalByLoanID; split_ifs <;> exact ⟨rfl, rfl, rfl, rfl, rfl⟩

theorem sameTables_investmentGetByLoanID (id : UUID) (w : World) :
    w.SameTables (World.useCase.investmentRepo.GetByLoanID id w).2 := by
  show w.SameTables (w.investmentGetByLoanID id).2
  unfold World.investmentGetByLoanID; split_ifs <;> exact ⟨rfl, rfl, rfl, rfl, rfl⟩

theorem sameTables_userGetByID (id : UUID) (w : World) :
    w.SameTables (World.useCase.userRepo.GetByID id w).2 := by
  show w.SameTables (w.userGetByID id).2
  unfold World.userGetByID; split_ifs
  · exact ⟨rfl, rfl, rfl, rfl, rfl⟩
  · split <;> exact ⟨rfl, rfl, rfl, rfl, rfl⟩

theorem sameTables_sendAgreementEmail (e url : String) (w : World) :
    w.SameTables (World.useCase.emailService.SendAgreementEmail e url w).2 := by
  show w.SameTables (w.sendAgreementEmail e url).2
  unfold World.sendAgreementEmail; split_ifs <;> exact ⟨rfl, rfl, rfl, rfl, rfl⟩

theorem sameTables_fileStore (f : Reader) (n : String) (w : World) :
    w.SameTables (World.useCase.fileStorage.Store f n w).2 := by
  show w.SameTables (w.fileStore f n).2
  unfold World.fileStore; split_ifs <;> exact ⟨rfl, rfl, rfl, rfl, rfl⟩

theorem sameTables_fileGetURL (path : String) (w : World) :
    w.SameTables (World.useCase.fileStorage.GetURL path w).2 := ⟨rfl, rfl, rfl, rfl, rfl⟩

theorem sameTables_now (w : World) : w.SameTables (World.useCase.runtime.Now w).2 :=
  ⟨rfl, rfl, rfl, rfl, rfl⟩

theorem sameTables_newUUID (w : World) : w.SameTables (World.useCase.runtime.NewUUID w).2 :=
  ⟨rfl, rfl, rfl, rfl, rfl⟩

theorem sameTables_notifyInvestors (url : String) (invs : List Investment) :
    ∀ w : World, w.SameTables (World.useCase.notifyInvestors url invs w) := by
  induction invs with
  | nil => intro w; exact World.SameTables.rfl_tables w
  | cons inv rest ih =>
    intro w
    simp only [LoanUseCase.notifyInvestors]
    split
    · rename_i heq
      exact ((World.SameTables.of_tables heq (sameTables_userGetByID _ w)).then_tables
        (sameTables_sendAgreementEmail _ _ _)).then_tables (ih _)
    · rename_i heq
      exact (World.SameTables.of_tables heq (sameTables_userGetByID _ w)).then_tables (ih _)

/-- What a successful `GetByID` returns is the first row with the id asked for. -/
theorem loanGetByID_find {id : UUID} {w w' : World} {loan : Loan}
    (h : World.useCase.loanRepo.GetByID id w = (.ok loan, w')) :
    w.loans.find? (fun l => l.ID = id) = some loan := by
  change w.loanGetByID id = _ at h
  unfold World.loanGetByID at h
  split_ifs at h
  · simp at h
  · split at h
    · rename_i l hf
      simp only [Prod.mk.injEq, Except.ok.injEq] at h
      rw [hf, h.1]
    · simp at h

/-- A loan update that returns an error leaves the tables as they are; one that
returns nil rewrites the rows of the loan and nothing else. -/
theorem loanUpdate_effect {loan : Loan} {w w' : World} {r : Option GoError}
    (h : World.useCase.loanRepo.Update loan w = (r, w')) :
    (r ≠ none ∧ w.SameTables w') ∨
    (r = none ∧ w'.loans = updateRows w.loans loan ∧ w.SameExceptLoans w') := by
  change w.loanUpdate loan = _ at h
  unfold World.loanUpdate at h
  split_ifs at h
  · simp only [Prod.mk.injEq] at h
    obtain ⟨rfl, rfl⟩ := h
    exact Or.inl ⟨by simp, rfl, rfl, rfl, rfl, rfl⟩
  · simp only [Prod.mk.injEq] at h
    obtain ⟨rfl, rfl⟩ := h
    exact Or.inr ⟨rfl, rfl, rfl, rfl, rfl, rfl⟩

theorem approvalCreate_effect {a : LoanApproval} {w w' : World} {r : Option GoError}
    (h : World.useCase.approvalRepo.Create a w = (r, w')) :
    (r ≠ none ∧ w.SameTables w') ∨
    (r = none ∧ w'.loans = w.loans ∧ w'.approvals = w.approvals ++ [a] ∧
      w'.investments = w.investments ∧ w'.disbursements = w.disbursements ∧ w'.baseURL = w.baseURL) := by
  change w.approvalCreate a = _ at h
  unfold World.approvalCreate at h
  split_ifs at h
  · simp only [Prod.mk.injEq] at h
    obtain ⟨rfl, rfl⟩ := h
    exact Or.inl ⟨by simp, rfl, rfl, rfl, rfl, rfl⟩
  · simp only [Prod.mk.injEq] at h
    obtain ⟨rfl, rfl⟩ := h
    exact Or.inr ⟨rfl, rfl, rfl, rfl, rfl, rfl⟩

theorem disbursementCreate_effect {d : Disbursement} {w w' : World} {r : Option GoError}
    (h : World.useCase.disbursementRepo.Create d w = (r, w')) :
    (r ≠ none ∧ w.SameTables w') ∨
    (r = none ∧ w'.loans = w.loans ∧ w'.approvals = w.approvals ∧
      w'.investments = w.investments ∧ w'.disbursements = w.disbursements ++ [d] ∧ w'.baseURL = w.baseURL) := by
  change w.disbursementCreate d = _ at h
  unfold World.disbursementCreate at h
  split_ifs at h
  · simp only [Prod.mk.injEq] at h
    obtain ⟨rfl, rfl⟩ := h
    exact Or.inl ⟨by simp, rfl, rfl, rfl, rfl, rfl⟩
  · simp only [Prod.mk.injEq] at h
    obtain ⟨rfl, rfl⟩ := h
    exact Or.inr ⟨rfl, rfl, rfl, rfl, rfl, rfl⟩

theorem investmentCreate_effect {i : Investment} {w w' : World} {r : Option GoError}
    (h : World.useCase.investmentRepo.Create i w = (r, w')) :
    (r ≠ none ∧ w.SameTables w') ∨
    (r = none ∧ w'.loans = w.loans ∧ w'.approvals = w.approvals ∧
      w'.investments = w.investments ++ [i] ∧ w'.disbursements = w.disbursements ∧ w'.baseURL = w.baseURL) := by
  change w.investmentCreate i = _ at h
  unfold World.investmentCreate at h
  split_ifs at h
  · simp only [Prod.mk.injEq] at h
    obtain ⟨rfl, rfl⟩ := h
    exact Or.inl ⟨by simp, rfl, rfl, rfl, rfl, rfl⟩
  · simp only [Prod.mk.injEq] at h
    obtain ⟨rfl, rfl⟩ := h
    exact Or.inr ⟨rfl, rfl, rfl, rfl, rfl, rfl⟩

/-- The target approved is allowed only from proposed. -/
theorem state_of_can_approve {l : Loan} (h : l.CanTransitionTo StateApproved = none) :
    l.State = StateProposed := by
  rcases (canTransitionTo_eq_none_iff _ _).1 h with ⟨h1, -⟩ | ⟨-, h2⟩ | ⟨-, h2⟩
  · exact h1
  · exact absurd h2 (by decide)
  · exact absurd h2 (by decide)

/-- The target disbursed is allowed only from invested. -/
theorem state_of_can_disburse {l : Loan} (h : l.CanTransitionTo StateDisbursed = none) :
    l.State = StateInvested := by
  rcases (canTransitionTo_eq_none_iff _ _).1 h with ⟨-, h2⟩ | ⟨-, h2⟩ | ⟨h1, -⟩
  · exact absurd h2 (by decide)
  · exact absurd h2 (by decide)
  · exact h1


theorem approveLoan_outcome (req : ApproveLoanRequest) (w : World) :
    ApproveOutcome req w (World.useCase.ApproveLoan req w) := by
  simp only [LoanUseCase.ApproveLoan]
  split
  · rename_i heq
    exact .early _ _ .duplicate
      (World.SameTables.of_tables heq (sameTables_checkIdempotencyKey _ _))
  · rename_i w1 heq
    have h1 := World.SameTables.of_tables heq (sameTables_checkIdempotencyKey _ _)
    split
    · rename_i heq
      exact .early _ _ (.notFound _)
        (h1.then_tables (World.SameTables.of_tables heq (sameTables_loanGetByID _ _)))
    · rename_i loan w2 heq
      have h2 := h1.then_tables (World.SameTables.of_tables heq (sameTables_loanGetByID _ _))
      have hfind : w.loans.find? (fun l => l.ID = req.LoanID) = some loan := by
        rw [← h1.1]; exact loanGetByID_find heq
      split
      · rename_i err hcan
        obtain ⟨cause, rfl⟩ := canTransitionTo_some_form hcan
        exact .early _ _ (.transition _) h2
      · rename_i hcan
        have hstate := state_of_can_approve hcan
        split
        · rename_i heq
          exact .early _ _ (.store _)
            (h2.then_tables (World.SameTables.of_tables heq (sameTables_fileStore _ _ _)))
        · rename_i path w3 heq
          have h3 := h2.then_tables
            (World.SameTables.of_tables heq (sameTables_fileStore _ _ _))
          have h4 : w.SameTables (World.useCase.runtime.Now (World.useCase.runtime.Now
              (World.useCase.fileStorage.GetURL path w3).2).2).2 :=
            h3.then_tables ((sameTables_fileGetURL _ _).then_tables
              ((sameTables_now _).then_tables (sameTables_now _)))
          rw [transitionTo_of_none _ hcan]
          simp only []
          split
          · rename_i heq
            rcases loanUpdate_effect heq with ⟨-, hs⟩ | ⟨hr, -⟩
            · exact .early _ _ (.update _) (h4.then_tables hs)
            · simp at hr
          · rename_i w5 heq
            rcases loanUpdate_effect heq with ⟨hr, -⟩ | ⟨-, hl5, hr5⟩
            · simp at hr
            · rw [h4.1] at hl5
              have hrest5 := h4.2.then_rest hr5
              split
              · rename_i heq
                rcases approvalCreate_effect heq with ⟨-, hs⟩ | ⟨hr, -⟩
                · exact .updated loan _ _ _ hfind hstate (hs.1.trans hl5)
                    (hrest5.then_rest hs.2)
                · simp at hr
              · rename_i w6 heq
                rcases approvalCreate_effect heq with ⟨hr, -⟩ | ⟨-, hl6, ha6, hi6, hd6, hu6⟩
                · simp at hr
                · have h7 := sameTables_setIdempotencyKey
                    (approveKey req.LoanID req.IdempotencyKey) "approved" (24 * Hour) w6
                  exact .completed loan _ _ _ hfind hstate
                    (h7.1.trans (hl6.trans hl5)) rfl
                    (h7.2.1.trans (ha6.trans (by rw [hrest5.1])))
                    (h7.2.2.1.trans (hi6.trans hrest5.2.1))
                    (h7.2.2.2.1.trans (hd6.trans hrest5.2.2.1))
                    (h7.2.2.2.2.trans (hu6.trans hrest5.2.2.2))

theorem disburseLoan_outcome (req : DisburseLoanRequest) (w : World) :
    DisburseOutcome req w (World.useCase.DisburseLoan req w) := by
  simp only [LoanUseCase.DisburseLoan]
  split
  · rename_i heq
    exact .early _ _ (World.SameTables.of_tables heq (sameTables_checkIdempotencyKey _ _))
  · rename_i w1 heq
    have h1 := World.SameTables.of_tables heq (sameTables_checkIdempotencyKey _ _)
    split
    · rename_i heq
      exact .early _ _
        (h1.then_tables (World.SameTables.of_tables heq (sameTables_loanGetByID _ _)))
    · rename_i loan w2 heq
      have h2 := h1.then_tables (World.SameTables.of_tables heq (sameTables_loanGetByID _ _))
      have hfind : w.loans.find? (fun l => l.ID = req.LoanID) = some loan := by
        rw [← h1.1]; exact loanGetByID_find heq
      split
      · exact .early _ _ h2
      · rename_i hcan
        have hstate := state_of_can_disburse hcan
        split
        · rename_i heq
          exact .early _ _
            (h2.then_tables (World.SameTables.of_tables heq (sameTables_fileStore _ _ _)))
        · rename_i path w3 heq
          have h3 := h2.then_tables
            (World.SameTables.of_tables heq (sameTables_fileStore _ _ _))
          have h4 : w.SameTables (World.useCase.runtime.Now (World.useCase.runtime.Now
              (World.useCase.fileStorage.GetURL path w3).2).2).2 :=
            h3.then_tables ((sameTables_fileGetURL _ _).then_tables
              ((sameTables_now _).then_tables (sameTables_now _)))
          rw [transitionTo_of_none _ hcan]
          simp only []
          split
          · rename_i heq
            rcases loanUpdate_effect heq with ⟨-, hs⟩ | ⟨hr, -⟩
            · exact .early _ _ (h4.then_tables hs)
            · simp at hr
          · rename_i w5 heq
            rcases loanUpdate_effect heq with ⟨hr, -⟩ | ⟨-, hl5, hr5⟩
            · simp at hr
            · rw [h4.1] at hl5
              have hrest5 := h4.2.then_rest hr5
              split
              · rename_i heq
                rcases disbursementCreate_effect heq with ⟨-, hs⟩ | ⟨hr, -⟩
                · exact .updated loan _ _ _ hfind hstate (hs.1.trans hl5)
                    (hrest5.then_rest hs.2)
                · simp at hr
              · rename_i w6 heq
                rcases disbursementCreate_effect heq with
                  ⟨hr, -⟩ | ⟨-, hl6, ha6, hi6, hd6, hu6⟩
                · simp at hr
                · have h7 := sameTables_setIdempotencyKey
                    (disburseKey req.LoanID req.IdempotencyKey) "disbursed" (24 * Hour) w6
                  exact .completed loan _ _ _ hfind hstate
                    (h7.1.trans (hl6.trans hl5)) rfl
                    (h7.2.1.trans (ha6.trans hrest5.1))
                    (h7.2.2.1.trans (hi6.trans hrest5.2.1))
                    (h7.2.2.2.1.trans (hd6.trans (by rw [hrest5.2.2.1])))
                    (h7.2.2.2.2.trans (hu6.trans hrest5.2.2.2))

/-- The state approved allows the target invested. -/
theorem can_invest_of_approved {l : Loan} (h : l.State = StateApproved) :
    l.CanTransitionTo StateInvested = none :=
  (canTransitionTo_eq_none_iff _ _).2 (Or.inr (Or.inl ⟨h, rfl⟩))

/-- How the block of `Invest` that runs on full funding ends, for an approved
loan: the first update fails and nothing changed, or the second update fails
and the loan rows are invested, or both succeed and the loan rows are invested
with the agreement reference. -/
theorem investFullyFunded_tables (req : InvestRequest) (loan : Loan) (w : World)
    (hstate : loan.State = StateApproved) :
    (∃ c, (World.useCase.investFullyFunded req loan w).1
        = some (.wrap "failed to update loan state" c) ∧
      w.SameTables (World.useCase.investFullyFunded req loan w).2) ∨
    (∃ t c, (World.useCase.investFullyFunded req loan w).1
        = some (.wrap "failed to update agreement letter URL" c) ∧
      (World.useCase.investFullyFunded req loan w).2.loans
        = updateRows w.loans { loan with State := StateInvested, UpdatedAt := t } ∧
      w.SameExceptLoans (World.useCase.investFullyFunded req loan w).2) ∨
    (∃ t, (World.useCase.investFullyFunded req loan w).1 = none ∧
      (World.useCase.investFullyFunded req loan w).2.loans
        = updateRows (updateRows w.loans { loan with State := StateInvested, UpdatedAt := t })
            { loan with
              State := StateInvested
              UpdatedAt := t
              AgreementLetterURL := some (w.baseURL ++ "/" ++ agreementPath req.LoanID) } ∧
      w.SameExceptLoans (World.useCase.investFullyFunded req loan w).2) := by
  have hcan := can_invest_of_approved hstate
  simp only [LoanUseCase.investFullyFunded]
  rw [transitionTo_of_none _ hcan]
  simp only []
  have h0 : w.SameTables (World.useCase.runtime.Now w).2 := sameTables_now w
  split
  · rename_i heq
    rcases loanUpdate_effect heq with ⟨-, hs⟩ | ⟨hr, -⟩
    · exact Or.inl ⟨_, rfl, h0.then_tables hs⟩
    · simp at hr
  · rename_i w1 heq
    rcases loanUpdate_effect heq with ⟨hr, -⟩ | ⟨-, hl1, hr1⟩
    · simp at hr
    · rw [h0.1] at hl1
      have hrest1 := h0.2.then_rest hr1
      have hurl : (World.useCase.fileStorage.GetURL (agreementPath req.LoanID) w1).1
          = w.baseURL ++ "/" ++ agreementPath req.LoanID := by
        show w1.baseURL ++ "/" ++ agreementPath req.LoanID = _
        rw [hrest1.2.2.2]
      have hg : w1.SameTables (World.useCase.fileStorage.GetURL (agreementPath req.LoanID) w1).2 :=
        sameTables_fileGetURL _ _
      split
      · rename_i heq
        rcases loanUpdate_effect heq with ⟨-, hs⟩ | ⟨hr, -⟩
        · exact Or.inr (Or.inl ⟨_, _, rfl, (hs.1.trans hg.1).trans hl1,
            hrest1.then_rest (hg.2.then_rest hs.2)⟩)
        · simp at hr
      · rename_i w2 heq
        rcases loanUpdate_effect heq with ⟨hr, -⟩ | ⟨-, hl2, hr2⟩
        · simp at hr
        · have hl2' : w2.loans
              = updateRows (updateRows w.loans
                  { loan with State := StateInvested, UpdatedAt := (World.useCase.runtime.Now w).1 })
                { loan with
                  State := StateInvested
                  UpdatedAt := (World.useCase.runtime.Now w).1
                  AgreementLetterURL :=
                    some (w.baseURL ++ "/" ++ agreementPath req.LoanID) } := by
            rw [hl2, hg.1, hl1, ← hurl]
          have hrest2 := hrest1.then_rest (hg.2.then_rest hr2)
          refine Or.inr (Or.inr ⟨(World.useCase.runtime.Now w).1, ?_⟩)
          split
          · rename_i invs w3 heq
            have h3 := World.SameTables.of_tables heq (sameTables_investmentGetByLoanID _ _)
            have h4 := fun url => h3.then_tables (sameTables_notifyInvestors url invs w3)
            exact ⟨rfl, (h4 _).1.trans hl2', hrest2.then_rest (h4 _).2⟩
          · rename_i w3 heq
            have h3 := World.SameTables.of_tables heq (sameTables_investmentGetByLoanID _ _)
            exact ⟨rfl, h3.1.trans hl2', hrest2.then_rest h3.2⟩

theorem total_of_investments {w w' : World} (h : w'.investments = w.investments)
    (id : UUID) : w'.total id = w.total id := by
  unfold World.total; rw [h]

theorem investLocked_outcome (req : InvestRequest) (w : World) :
    InvestOutcome req w (World.useCase.investLocked req w) := by
  simp only [LoanUseCase.investLocked]
  split
  · rename_i heq
    exact .early _ _ (World.SameTables.of_tables heq (sameTables_checkIdempotencyKey _ _))
  · rename_i w1 heq
    have h1 := World.SameTables.of_tables heq (sameTables_checkIdempotencyKey _ _)
    split
    · rename_i heq
      exact .early _ _
        (h1.then_tables (World.SameTables.of_tables heq (sameTables_loanGetByID _ _)))
    · rename_i loan w2 heq
      have h2 := h1.then_tables (World.SameTables.of_tables heq (sameTables_loanGetByID _ _))
      have hfind : w.loans.find? (fun l => l.ID = req.LoanID) = some loan := by
        rw [← h1.1]; exact loanGetByID_find heq
      split
      · exact .early _ _ h2
      · rename_i hst
        have hstate : loan.State = StateApproved := not_not.1 hst
        split
        · rename_i heq
          exact .early _ _
            (h2.then_tables (World.SameTables.of_tables heq (sameTables_getTotal _ _)))
        · rename_i total w3 heq
          have h3 := h2.then_tables (World.SameTables.of_tables heq (sameTables_getTotal _ _))
          have htotal : total = w.total req.LoanID :=
            (getTotal_ok heq).trans (total_of_investments h2.2.2.1 _)
          subst htotal
          split
          · exact .early _ _ h3
          · rename_i hv
            have hv' := validate_none hv
            have h4 : w.SameTables
                (World.useCase.runtime.Now (World.useCase.runtime.NewUUID w3).2).2 :=
              h3.then_tables ((sameTables_newUUID _).then_tables (sameTables_now _))
            split
            · rename_i heq
              rcases investmentCreate_effect heq with ⟨-, hs⟩ | ⟨hr, -⟩
              · exact .early _ _ (h4.then_tables hs)
              · simp at hr
            · rename_i w5 heq
              rcases investmentCreate_effect heq with ⟨hr, -⟩ | ⟨-, hl5, ha5, hi5, hd5, hu5⟩
              · simp at hr
              · rw [h4.1] at hl5
                rw [h4.2.1] at ha5
                rw [h4.2.2.1] at hi5
                rw [h4.2.2.2.1] at hd5
                rw [h4.2.2.2.2] at hu5
                have hadd : ∀ w' : World, w5.SameExceptLoans w' →
                    InvestAdded req w loan _ w' := fun w' h =>
                  ⟨hfind, hstate, hv'.1, hv'.2, rfl, rfl, rfl, h.2.1.trans hi5,
                    h.1.trans ha5, h.2.2.1.trans hd5, h.2.2.2.trans hu5⟩
                have hset : ∀ x : World, x.SameTables
                    (World.useCase.redisClient.SetIdempotencyKey
                      (investKey req.LoanID req.InvestorID req.IdempotencyKey) "invested"
                      (24 * Hour) x).2 := fun x => sameTables_setIdempotencyKey _ _ _ x
                by_cases hfull : loan.IsFullyInvested (w.total req.LoanID + req.Amount) = true
                · rw [if_pos hfull]
                  have hurl5 : w5.baseURL = w.baseURL := hu5
                  rcases hr : World.useCase.investFullyFunded req loan w5 with ⟨r, w6⟩
                  have hf := investFullyFunded_tables req loan w5 hstate
                  rw [hr] at hf
                  rcases hf with ⟨c, hres, hs⟩ | ⟨t, c, hres, hl6, hs⟩ | ⟨t, hres, hl6, hs⟩
                  · simp only at hres hs
                    subst hres
                    exact .stuck loan _ c w6 (hadd w6 hs.2) hfull (hs.1.trans hl5)
                  · simp only at hres hl6 hs
                    subst hres
                    exact .halfway loan _ t c w6 (hadd w6 hs) hfull (by rw [hl6, hl5])
                  · simp only at hres hl6 hs
                    subst hres
                    simp only []
                    exact .funded loan _ t _ (hadd _ (hs.then_rest (hset w6).2)) hfull
                      (by rw [(hset w6).1, hl6, hl5, hurl5])
                · rw [if_neg hfull]
                  simp only []
                  exact .partly loan _ _ (hadd _ (hset w5).2) (by simpa using hfull)
                    ((hset w5).1.trans hl5)

theorem InvestOutcome.widen {req : InvestRequest} {w w1 w2 w3 : World}
    {r : Option GoError} (h1 : w.SameTables w1) (h : InvestOutcome req w1 (r, w2))
    (h3 : w2.SameTables w3) : InvestOutcome req w (r, w3) := by
  have ht : w1.total req.LoanID = w.total req.LoanID := total_of_investments h1.2.2.1 _
  have hadd : ∀ {loan inv}, InvestAdded req w1 loan inv w2 → InvestAdded req w loan inv w3 :=
    fun {loan inv} a =>
      ⟨by rw [← h1.1]; exact a.hfind, a.hstate, a.hpos, by rw [← ht]; exact a.hfit, a.hloan,
        a.hinvestor, a.hamount, by rw [h3.2.2.1, a.hinv, h1.2.2.1],
        by rw [h3.2.1, a.happ, h1.2.1], by rw [h3.2.2.2.1, a.hdis, h1.2.2.2.1],
        by rw [h3.2.2.2.2, a.hurl, h1.2.2.2.2]⟩
  cases h with
  | early err _ hsame => exact .early _ _ ((h1.then_tables hsame).then_tables h3)
  | partly loan inv _ a hopen hloans =>
    exact .partly loan inv _ (hadd a) (by rw [← ht]; exact hopen)
      (by rw [h3.1, hloans, h1.1])
  | stuck loan inv c _ a hfull hloans =>
    exact .stuck loan inv c _ (hadd a) (by rw [← ht]; exact hfull)
      (by rw [h3.1, hloans, h1.1])
  | halfway loan inv t c _ a hfull hloans =>
    exact .halfway loan inv t c _ (hadd a) (by rw [← ht]; exact hfull)
      (by rw [h3.1, hloans, h1.1])
  | funded loan inv t _ a hfull hloans =>
    exact .funded loan inv t _ (hadd a) (by rw [← ht]; exact hfull)
      (by rw [h3.1, hloans, h1.1, h1.2.2.2.2])

theorem invest_outcome (req : InvestRequest) (w : World) :
    InvestOutcome req w (World.useCase.Invest req w) := by
  simp only [LoanUseCase.Invest]
  split
  · rename_i heq
    exact .early _ _ (World.SameTables.of_tables heq (sameTables_acquireLock _ _ _))
  · rename_i heq
    exact .early _ _ (World.SameTables.of_tables heq (sameTables_acquireLock _ _ _))
  · rename_i w1 heq
    exact InvestOutcome.widen (World.SameTables.of_tables heq (sameTables_acquireLock _ _ _))
      (investLocked_outcome req w1) (sameTables_releaseLock _ _)

end tables

/-! ## Theorems: failures and repeated calls on the in-memory collaborators -/

/-- The error of a failed approval insert is not one of the early errors. -/
theorem not_early_of_insert_failure (c : GoError) :
    ¬ ApproveFailsEarly (.wrap "failed to create approval" c) := by
  intro h
  generalize he : GoError.wrap "failed to create approval" c = e at h
  cases h with
  | duplicate => simp [errDuplicateRequest] at he
  | notFound cause => simp at he
  | transition t => simp at he
  | store cause => simp at he
  | update cause => simp at he

/-- C15: when `ApproveLoan`, run on the in-memory collaborators with any of
their calls failing, returns one of the errors that arise before the loan
update is persisted (duplicate token, loan not found, transition not allowed,
proof store failure, loan update failure), the loan table is exactly what it
was before the call, and so is the approval table. -/
theorem C15_approve_failure_leaves_loans (req : ApproveLoanRequest) (w : World)
    (err : GoError) (hres : (World.useCase.ApproveLoan req w).1 = some err)
    (hearly : ApproveFailsEarly err) :
    (World.useCase.ApproveLoan req w).2.loans = w.loans ∧
    (World.useCase.ApproveLoan req w).2.approvals = w.approvals := by
  have h := approveLoan_outcome req w
  generalize World.useCase.ApproveLoan req w = r at h hres
  cases h with
  | early e w' hfail hsame => exact ⟨hsame.1, hsame.2.1⟩
  | updated loan t cause w' hfind hstate hloans hrest =>
    simp only [Option.some.injEq] at hres
    subst hres
    exact absurd hearly (not_early_of_insert_failure cause)
  | completed loan t a w' hfind hstate hloans hid happ hinv hdis hurl =>
    simp at hres

/-- Witness for C15: the loan update itself fails. -/
theorem C15_approve_failure_leaves_loans_witness :
    (World.useCase.ApproveLoan Example.approveRequest Example.updateFails).2.loans
      = Example.updateFails.loans ∧
    (World.useCase.ApproveLoan Example.approveRequest Example.updateFails).2.approvals
      = Example.updateFails.approvals :=
  C15_approve_failure_leaves_loans Example.approveRequest Example.updateFails
    (.wrap "failed to update loan" errInjected) rfl (.update _)

/-- Counterexample to C16 as stated: when the loan update succeeds and the
approval insert fails, `ApproveLoan` returns an error, the stored loan is
approved and there is no approval record for it; a retry with the same token
is rejected by the state machine and creates none either. -/
theorem C16_counterexample :
    (World.useCase.ApproveLoan Example.approveRequest Example.insertFails).1
      = some (.wrap "failed to create approval" errInjected) ∧
    (World.useCase.ApproveLoan Example.approveRequest Example.insertFails).2.loans.map Loan.State
      = [StateApproved] ∧
    (World.useCase.ApproveLoan Example.approveRequest Example.insertFails).2.approvalsOf
        Example.approveRequest.LoanID = [] ∧
    ((World.useCase.ApproveLoan Example.approveRequest Example.insertFails).2.step
        (.approve Example.approveRequest)).approvalsOf Example.approveRequest.LoanID = [] :=
  ⟨rfl, rfl, rfl, rfl⟩

section runs

theorem find?_id {rows : List Loan} {id : UUID} {loan : Loan}
    (h : rows.find? (fun l => l.ID = id) = some loan) : loan ∈ rows ∧ loan.ID = id :=
  ⟨List.mem_of_find?_eq_some h, by simpa using List.find?_some h⟩

/-- After an update with `L`, a row of loan `id` is an old row of loan `id` or
carries the state of `L`, which then has id `id`. -/
theorem rowsIn_updateRows {rows : List Loan} {L : Loan} {id : UUID} {P : LoanState → Prop}
    (h : rowsIn rows id P) (hL : L.ID = id → P L.State) : rowsIn (updateRows rows L) id P := by
  intro l hl hid
  simp only [updateRows, List.mem_map] at hl
  obtain ⟨row, hrow, rfl⟩ := hl
  split_ifs at hid ⊢ with hc
  · exact hL (hc ▸ hid)
  · exact h row hrow hid

/-- After an update with `L`, every row with the id of `L` carries the state of `L`. -/
theorem rows_updateRows_self {rows : List Loan} {L : Loan} :
    ∀ l ∈ updateRows rows L, l.ID = L.ID → l.State = L.State := by
  intro l hl hid
  simp only [updateRows, List.mem_map] at hl
  obtain ⟨row, hrow, rfl⟩ := hl
  split_ifs at hid ⊢ with hc
  · rfl
  · exact absurd hid hc

theorem approvalsOf_append (w w' : World) (a : LoanApproval) (id : UUID)
    (h : w'.approvals = w.approvals ++ [a]) :
    w'.approvalsOf id = w.approvalsOf id ++ (if a.LoanID = id then [a] else []) := by
  unfold World.approvalsOf
  rw [h, List.filter_append]
  by_cases hc : a.LoanID = id <;> simp [List.filter_cons, hc]

theorem approvalsOf_same {w w' : World} (h : w'.approvals = w.approvals) (id : UUID) :
    w'.approvalsOf id = w.approvalsOf id := by
  unfold World.approvalsOf; rw [h]

theorem step_approve_approvalInv (req : ApproveLoanRequest) (w : World) (id : UUID)
    (hinv : w.ApprovalInv id) : (w.step (.approve req)).ApprovalInv id := by
  have h := approveLoan_outcome req w
  show World.ApprovalInv (World.useCase.ApproveLoan req w).2 id
  generalize World.useCase.ApproveLoan req w = r at h
  cases h with
  | early e w' hfail hsame =>
    unfold World.ApprovalInv
    rw [approvalsOf_same hsame.2.1, hsame.1]
    exact hinv
  | updated loan t cause w' hfind hstate hloans hrest =>
    unfold World.ApprovalInv
    rw [approvalsOf_same hrest.1, hloans]
    exact ⟨hinv.1, fun hne => rowsIn_updateRows (hinv.2 hne)
      (fun _ => (by decide : StateApproved ≠ StateProposed))⟩
  | completed loan t a w' hfind hstate hloans hid happ _ _ _ =>
    have hf := find?_id hfind
    unfold World.ApprovalInv
    rw [approvalsOf_append w w' a id happ, hloans]
    by_cases hc : a.LoanID = id
    · have hempty : w.approvalsOf id = [] := by
        by_contra hne
        exact hinv.2 hne loan hf.1 (hf.2.trans (hid.symm.trans hc)) hstate
      rw [if_pos hc, hempty]
      refine ⟨by simp, fun _ l hl hlid => ?_⟩
      have hs := rows_updateRows_self l hl (hlid.trans ((hf.2.trans (hid.symm.trans hc)).symm))
      show l.State ≠ StateProposed
      rw [hs]
      exact (by decide : StateApproved ≠ StateProposed)
    · rw [if_neg hc, List.append_nil]
      exact ⟨hinv.1, fun hne => rowsIn_updateRows (hinv.2 hne)
        (fun _ => (by decide : StateApproved ≠ StateProposed))⟩

/-- An update with a loan derived from a stored row `found`: a property of the
states of the rows of loan `id` survives when the new state has it whenever the
state of `found` had it. -/
theorem rowsIn_update_found {rows : List Loan} {found L : Loan} {id : UUID}
    {P : LoanState → Prop} (h : rowsIn rows id P) (hmem : found ∈ rows)
    (hid : L.ID = found.ID) (hP : P found.State → P L.State) :
    rowsIn (updateRows rows L) id P :=
  rowsIn_updateRows h fun e => hP (h found hmem (hid.symm.trans e))

theorem step_invest_approvalInv (req : InvestRequest) (w : World) (id : UUID)
    (hinv : w.ApprovalInv id) : (w.step (.invest req)).ApprovalInv id := by
  have h := invest_outcome req w
  show World.ApprovalInv (World.useCase.Invest req w).2 id
  generalize World.useCase.Invest req w = r at h
  have hne : StateInvested ≠ StateProposed := by decide
  cases h with
  | early e w' hsame =>
    unfold World.ApprovalInv
    rw [approvalsOf_same hsame.2.1, hsame.1]
    exact hinv
  | partly loan inv w' hadd hopen hloans =>
    unfold World.ApprovalInv
    rw [approvalsOf_same hadd.happ, hloans]
    exact hinv
  | stuck loan inv c w' hadd hfull hloans =>
    unfold World.ApprovalInv
    rw [approvalsOf_same hadd.happ, hloans]
    exact hinv
  | halfway loan inv t c w' hadd hfull hloans =>
    unfold World.ApprovalInv
    rw [approvalsOf_same hadd.happ, hloans]
    exact ⟨hinv.1, fun h0 => rowsIn_updateRows (hinv.2 h0) (fun _ => hne)⟩
  | funded loan inv t w' hadd hfull hloans =>
    unfold World.ApprovalInv
    rw [approvalsOf_same hadd.happ, hloans]
    exact ⟨hinv.1, fun h0 =>
      rowsIn_updateRows (rowsIn_updateRows (hinv.2 h0) (fun _ => hne)) (fun _ => hne)⟩

theorem step_disburse_approvalInv (req : DisburseLoanRequest) (w : World) (id : UUID)
    (hinv : w.ApprovalInv id) : (w.step (.disburse req)).ApprovalInv id := by
  have h := disburseLoan_outcome req w
  show World.ApprovalInv (World.useCase.DisburseLoan req w).2 id
  generalize World.useCase.DisburseLoan req w = r at h
  have hne : StateDisbursed ≠ StateProposed := by decide
  cases h with
  | early e w' hsame =>
    unfold World.ApprovalInv
    rw [approvalsOf_same hsame.2.1, hsame.1]
    exact hinv
  | updated loan t cause w' hfind hstate hloans hrest =>
    unfold World.ApprovalInv
    rw [approvalsOf_same hrest.1, hloans]
    exact ⟨hinv.1, fun h0 => rowsIn_updateRows (hinv.2 h0) (fun _ => hne)⟩
  | completed loan t d w' hfind hstate hloans hid happ _ _ _ =>
    unfold World.ApprovalInv
    rw [approvalsOf_same happ, hloans]
    exact ⟨hinv.1, fun h0 => rowsIn_updateRows (hinv.2 h0) (fun _ => hne)⟩

theorem run_approvalInv (reqs : List Request) (id : UUID) :
    ∀ w : World, w.ApprovalInv id → (w.run reqs).ApprovalInv id := by
  induction reqs with
  | nil => intro w h; exact h
  | cons r rest ih =>
    intro w h
    cases r with
    | approve req => exact ih _ (step_approve_approvalInv req w id h)
    | invest req => exact ih _ (step_invest_approvalInv req w id h)
    | disburse req => exact ih _ (step_disburse_approvalInv req w id h)

/-- What `ApproveLoan` needs to have done when the approval table changed. -/
theorem approve_creates_only_with_transition (w : World) (req : ApproveLoanRequest)
    (h : (World.useCase.ApproveLoan req w).2.approvals ≠ w.approvals) :
    ∃ (loan : Loan) (t : Time) (a : LoanApproval),
      w.loans.find? (fun l => l.ID = req.LoanID) = some loan ∧
      loan.State = StateProposed ∧
      (World.useCase.ApproveLoan req w).2.loans
        = updateRows w.loans { loan with State := StateApproved, UpdatedAt := t } ∧
      (World.useCase.ApproveLoan req w).2.approvals = w.approvals ++ [a] ∧
      a.LoanID = req.LoanID ∧ (World.useCase.ApproveLoan req w).1 = none := by
  have ho := approveLoan_outcome req w
  generalize World.useCase.ApproveLoan req w = r at ho h
  cases ho with
  | early e w' hfail hsame => exact absurd hsame.2.1 h
  | updated loan t cause w' hfind hstate hloans hrest => exact absurd hrest.1 h
  | completed loan t a w' hfind hstate hloans hid happ _ _ _ =>
    exact ⟨loan, t, a, hfind, hstate, hloans, happ, hid, rfl⟩

theorem disbursementsOf_append (w w' : World) (d : Disbursement) (id : UUID)
    (h : w'.disbursements = w.disbursements ++ [d]) :
    w'.disbursementsOf id = w.disbursementsOf id ++ (if d.LoanID = id then [d] else []) := by
  unfold World.disbursementsOf
  rw [h, List.filter_append]
  by_cases hc : d.LoanID = id <;> simp [List.filter_cons, hc]

theorem disbursementsOf_same {w w' : World} (h : w'.disbursements = w.disbursements)
    (id : UUID) : w'.disbursementsOf id = w.disbursementsOf id := by
  unfold World.disbursementsOf; rw [h]

theorem step_approve_disbursementInv (req : ApproveLoanRequest) (w : World) (id : UUID)
    (hinv : w.DisbursementInv id) : (w.step (.approve req)).DisbursementInv id := by
  have h := approveLoan_outcome req w
  show World.DisbursementInv (World.useCase.ApproveLoan req w).2 id
  generalize World.useCase.ApproveLoan req w = r at h
  have hne : StateProposed ≠ StateDisbursed := by decide
  cases h with
  | early e w' hfail hsame =>
    unfold World.DisbursementInv
    rw [disbursementsOf_same hsame.2.2.2.1, hsame.1]
    exact hinv
  | updated loan t cause w' hfind hstate hloans hrest =>
    unfold World.DisbursementInv
    rw [disbursementsOf_same hrest.2.2.1, hloans]
    exact ⟨hinv.1, fun h0 => rowsIn_update_found (hinv.2 h0) (find?_id hfind).1 rfl
      (fun e => absurd (hstate.symm.trans e) hne)⟩
  | completed loan t a w' hfind hstate hloans hid happ _ hdis _ =>
    unfold World.DisbursementInv
    rw [disbursementsOf_same hdis, hloans]
    exact ⟨hinv.1, fun h0 => rowsIn_update_found (hinv.2 h0) (find?_id hfind).1 rfl
      (fun e => absurd (hstate.symm.trans e) hne)⟩

theorem step_invest_disbursementInv (req : InvestRequest) (w : World) (id : UUID)
    (hinv : w.DisbursementInv id) : (w.step (.invest req)).DisbursementInv id := by
  have h := invest_outcome req w
  show World.DisbursementInv (World.useCase.Invest req w).2 id
  generalize World.useCase.Invest req w = r at h
  have hne : StateApproved ≠ StateDisbursed := by decide
  cases h with
  | early e w' hsame =>
    unfold World.DisbursementInv
    rw [disbursementsOf_same hsame.2.2.2.1, hsame.1]
    exact hinv
  | partly loan inv w' hadd hopen hloans =>
    unfold World.DisbursementInv
    rw [disbursementsOf_same hadd.hdis, hloans]
    exact hinv
  | stuck loan inv c w' hadd hfull hloans =>
    unfold World.DisbursementInv
    rw [disbursementsOf_same hadd.hdis, hloans]
    exact hinv
  | halfway loan inv t c w' hadd hfull hloans =>
    unfold World.DisbursementInv
    rw [disbursementsOf_same hadd.hdis, hloans]
    exact ⟨hinv.1, fun h0 => rowsIn_update_found (hinv.2 h0) (find?_id hadd.hfind).1 rfl
      (fun e => absurd (hadd.hstate.symm.trans e) hne)⟩
  | funded loan inv t w' hadd hfull hloans =>
    unfold World.DisbursementInv
    rw [disbursementsOf_same hadd.hdis, hloans]
    refine ⟨hinv.1, fun h0 => rowsIn_updateRows (rowsIn_update_found (hinv.2 h0)
      (find?_id hadd.hfind).1 rfl (fun e => absurd (hadd.hstate.symm.trans e) hne)) ?_⟩
    intro e
    exact absurd (hadd.hstate.symm.trans (hinv.2 h0 loan (find?_id hadd.hfind).1 e)) hne

theorem step_disburse_disbursementInv (req : DisburseLoanRequest) (w : World) (id : UUID)
    (hinv : w.DisbursementInv id) : (w.step (.disburse req)).DisbursementInv id := by
  have h := disburseLoan_outcome req w
  show World.DisbursementInv (World.useCase.DisburseLoan req w).2 id
  generalize World.useCase.DisburseLoan req w = r at h
  have hne : StateInvested ≠ StateDisbursed := by decide
  cases h with
  | early e w' hsame =>
    unfold World.DisbursementInv
    rw [disbursementsOf_same hsame.2.2.2.1, hsame.1]
    exact hinv
  | updated loan t cause w' hfind hstate hloans hrest =>
    unfold World.DisbursementInv
    rw [disbursementsOf_same hrest.2.2.1, hloans]
    exact ⟨hinv.1, fun h0 => rowsIn_updateRows (hinv.2 h0) (fun _ => rfl)⟩
  | completed loan t d w' hfind hstate hloans hid happ _ hdis _ =>
    have hf := find?_id hfind
    unfold World.DisbursementInv
    rw [disbursementsOf_append w w' d id hdis, hloans]
    by_cases hc : d.LoanID = id
    · have hempty : w.disbursementsOf id = [] := by
        by_contra h0
        exact hne (hstate.symm.trans (hinv.2 h0 loan hf.1 (hf.2.trans (hid.symm.trans hc))))
      rw [if_pos hc, hempty]
      refine ⟨by simp, fun _ l hl hlid => ?_⟩
      exact rows_updateRows_self l hl (hlid.trans ((hf.2.trans (hid.symm.trans hc)).symm))
    · rw [if_neg hc, List.append_nil]
      exact ⟨hinv.1, fun h0 => rowsIn_updateRows (hinv.2 h0) (fun _ => rfl)⟩

theorem run_disbursementInv (reqs : List Request) (id : UUID) :
    ∀ w : World, w.DisbursementInv id → (w.run reqs).DisbursementInv id := by
  induction reqs with
  | nil => intro w h; exact h
  | cons r rest ih =>
    intro w h
    cases r with
    | approve req => exact ih _ (step_approve_disbursementInv req w id h)
    | invest req => exact ih _ (step_invest_disbursementInv req w id h)
    | disburse req => exact ih _ (step_disburse_disbursementInv req w id h)

/-- What `DisburseLoan` found when the disbursement table changed. -/
theorem disburse_creates_only_from_invested (w : World) (req : DisburseLoanRequest)
    (h : (World.useCase.DisburseLoan req w).2.disbursements ≠ w.disbursements) :
    ∃ (loan : Loan) (d : Disbursement),
      w.loans.find? (fun l => l.ID = req.LoanID) = some loan ∧
      loan.State = StateInvested ∧
      (World.useCase.DisburseLoan req w).2.disbursements = w.disbursements ++ [d] ∧
      d.LoanID = req.LoanID ∧ (World.useCase.DisburseLoan req w).1 = none := by
  have ho := disburseLoan_outcome req w
  generalize World.useCase.DisburseLoan req w = r at ho h
  cases ho with
  | early e w' hsame => exact absurd hsame.2.2.2.1 h
  | updated loan t cause w' hfind hstate hloans hrest => exact absurd hrest.2.2.1 h
  | completed loan t d w' hfind hstate hloans hid happ _ hdis _ =>
    exact ⟨loan, d, hfind, hstate, hdis, hid, rfl⟩

theorem investmentsOf_same {w w' : World} (h : w'.investments = w.investments) (id : UUID) :
    w'.investmentsOf id = w.investmentsOf id := by
  unfold World.investmentsOf; rw [h]

theorem investmentsOf_append_other (w w' : World) (i : Investment) (id : UUID)
    (h : w'.investments = w.investments ++ [i]) (hne : i.LoanID ≠ id) :
    w'.investmentsOf id = w.investmentsOf id := by
  unfold World.investmentsOf
  rw [h, List.filter_append]
  simp [List.filter_cons, hne]

theorem not_closed_state_of_proposed {s : LoanState} (h : s = StateProposed) :
    ¬ (s = StateInvested ∨ s = StateDisbursed) := by
  subst h; decide

theorem not_closed_state_of_approved {s : LoanState} (h : s = StateApproved) :
    ¬ (s = StateInvested ∨ s = StateDisbursed) := by
  subst h; decide

theorem step_closed (r : Request) (w : World) (id : UUID) (hc : w.Closed id) :
    (w.step r).Closed id ∧ (w.step r).investmentsOf id = w.investmentsOf id := by
  cases r with
  | approve req =>
    have h := approveLoan_outcome req w
    show World.Closed (World.useCase.ApproveLoan req w).2 id ∧
      World.investmentsOf (World.useCase.ApproveLoan req w).2 id = _
    generalize World.useCase.ApproveLoan req w = r at h
    cases h with
    | early e w' hfail hsame =>
      unfold World.Closed
      rw [investmentsOf_same hsame.2.2.1, hsame.1]
      exact ⟨hc, rfl⟩
    | updated loan t cause w' hfind hstate hloans hrest =>
      unfold World.Closed
      rw [investmentsOf_same hrest.2.1, hloans]
      exact ⟨rowsIn_update_found hc (find?_id hfind).1 rfl
        (fun e => absurd e (not_closed_state_of_proposed hstate)), rfl⟩
    | completed loan t a w' hfind hstate hloans hid happ hinv _ _ =>
      unfold World.Closed
      rw [investmentsOf_same hinv, hloans]
      exact ⟨rowsIn_update_found hc (find?_id hfind).1 rfl
        (fun e => absurd e (not_closed_state_of_proposed hstate)), rfl⟩
  | invest req =>
    have h := invest_outcome req w
    show World.Closed (World.useCase.Invest req w).2 id ∧
      World.investmentsOf (World.useCase.Invest req w).2 id = _
    generalize World.useCase.Invest req w = r at h
    have hother : ∀ {loan inv w'}, InvestAdded req w loan inv w' → inv.LoanID ≠ id := by
      intro loan inv w' a e
      have hf := find?_id a.hfind
      exact not_closed_state_of_approved a.hstate
        (hc loan hf.1 (hf.2.trans (a.hloan.symm.trans e)))
    have hupd : ∀ {loan inv w'} (t : Time), InvestAdded req w loan inv w' →
        rowsIn (updateRows w.loans { loan with State := StateInvested, UpdatedAt := t }) id
          fun s => s = StateInvested ∨ s = StateDisbursed := by
      intro loan inv w' t a
      exact rowsIn_update_found hc (find?_id a.hfind).1 rfl (fun _ => Or.inl rfl)
    cases h with
    | early e w' hsame =>
      unfold World.Closed
      rw [investmentsOf_same hsame.2.2.1, hsame.1]
      exact ⟨hc, rfl⟩
    | partly loan inv w' hadd hopen hloans =>
      unfold World.Closed
      rw [investmentsOf_append_other w w' inv id hadd.hinv (hother hadd), hloans]
      exact ⟨hc, rfl⟩
    | stuck loan inv c w' hadd hfull hloans =>
      unfold World.Closed
      rw [investmentsOf_append_other w w' inv id hadd.hinv (hother hadd), hloans]
      exact ⟨hc, rfl⟩
    | halfway loan inv t c w' hadd hfull hloans =>
      unfold World.Closed
      rw [investmentsOf_append_other w w' inv id hadd.hinv (hother hadd), hloans]
      exact ⟨hupd t hadd, rfl⟩
    | funded loan inv t w' hadd hfull hloans =>
      unfold World.Closed
      rw [investmentsOf_append_other w w' inv id hadd.hinv (hother hadd), hloans]
      exact ⟨rowsIn_updateRows (hupd t hadd) (fun _ => Or.inl rfl), rfl⟩
  | disburse req =>
    have h := disburseLoan_outcome req w
    show World.Closed (World.useCase.DisburseLoan req w).2 id ∧
      World.investmentsOf (World.useCase.DisburseLoan req w).2 id = _
    generalize World.useCase.DisburseLoan req w = r at h
    cases h with
    | early e w' hsame =>
      unfold World.Closed
      rw [investmentsOf_same hsame.2.2.1, hsame.1]
      exact ⟨hc, rfl⟩
    | updated loan t cause w' hfind hstate hloans hrest =>
      unfold World.Closed
      rw [investmentsOf_same hrest.2.1, hloans]
      exact ⟨rowsIn_updateRows hc (fun _ => Or.inr rfl), rfl⟩
    | completed loan t d w' hfind hstate hloans hid happ hinv _ _ =>
      unfold World.Closed
      rw [investmentsOf_same hinv, hloans]
      exact ⟨rowsIn_updateRows hc (fun _ => Or.inr rfl), rfl⟩

theorem run_closed (reqs : List Request) (id : UUID) :
    ∀ w : World, w.Closed id →
      (w.run reqs).Closed id ∧ (w.run reqs).investmentsOf id = w.investmentsOf id := by
  induction reqs with
  | nil => intro w h; exact ⟨h, rfl⟩
  | cons r rest ih =>
    intro w h
    have h1 := step_closed r w id h
    have h2 := ih _ h1.1
    exact ⟨h2.1, h2.2.trans h1.2⟩

end runs

/-! ## Theorems: a fully funding investment -/

/-- The calls of `Invest` up to the second loan update all succeed and the new
total counts as fully invested: `Invest` returns nil, whatever the notification
steps, the marker commit and the lock release do. -/
theorem invest_funded_returns_nil (uc : LoanUseCase σ) (req : InvestRequest)
    (s s1 s2 s3 s4 s5 s6 s7 s8 s9 s10 s11 : σ) (e1 : Option GoError) (loan : Loan) (total : Float64)
    (id : UUID) (t1 t2 : Time) (url : String)
    (hlock : uc.redisClient.AcquireLock (investLockKey req.LoanID) (30 * Second) s
      = ((true, none), s1))
    (hcheck : uc.redisClient.CheckIdempotencyKey
        (investKey req.LoanID req.InvestorID req.IdempotencyKey) s1
      = ((false, e1), s2))
    (hload : uc.loanRepo.GetByID req.LoanID s2 = (.ok loan, s3))
    (hstate : loan.State = StateApproved)
    (htotal : uc.investmentRepo.GetTotalByLoanID req.LoanID s3 = (.ok total, s4))
    (hvalid : loan.ValidateInvestmentAmount req.Amount total = none)
    (hid : uc.runtime.NewUUID s4 = (id, s5))
    (hnow1 : uc.runtime.Now s5 = (t1, s6))
    (hcreate : uc.investmentRepo.Create
        { ID := id, LoanID := req.LoanID, InvestorID := req.InvestorID, Amount := req.Amount,
          CreatedAt := t1 } s6
      = (none, s7))
    (hfull : loan.IsFullyInvested (total + req.Amount) = true)
    (hnow2 : uc.runtime.Now s7 = (t2, s8))
    (hupdate1 : uc.loanRepo.Update { loan with State := StateInvested, UpdatedAt := t2 } s8
      = (none, s9))
    (hurl : uc.fileStorage.GetURL (agreementPath req.LoanID) s9 = (url, s10))
    (hupdate2 : uc.loanRepo.Update
        { loan with State := StateInvested, UpdatedAt := t2, AgreementLetterURL := some url } s10
      = (none, s11)) :
    (uc.Invest req s).1 = none := by
  have hcan := can_invest_of_approved hstate
  simp only [LoanUseCase.Invest, LoanUseCase.investLocked, LoanUseCase.investFullyFunded,
    hlock, hcheck, hload, hstate, htotal, hvalid, hid, hnow1, hcreate, hfull, hnow2,
    transitionTo_of_none _ hcan, hupdate1, hurl, hupdate2, ne_eq, not_true_eq_false, if_false,
    if_true]
  rcases uc.investmentRepo.GetByLoanID req.LoanID s11 with ⟨r, s12⟩
  cases r <;> rfl

section quiet

theorem tick_quiet {w : World} (hq : w.faults = []) : w.tick = w := by
  cases w
  simp only [World.tick] at *
  simp [hq]

theorem faulty_quiet {w : World} (hq : w.faults = []) : w.faulty = false := by
  simp [World.faulty, hq]

theorem idempotency_ne_lock (a b : String) : "idempotency:" ++ a ≠ "lock:" ++ b := by
  intro h
  have h1 := congrArg String.data h
  simp only [String.data_append] at h1
  have h2 := congrArg List.head? h1
  simp at h2

theorem quiet_acquireLock {w : World} (hq : w.faults = []) (key : String) (d : Duration)
    (hfree : w.hasKey ("lock:" ++ key) = false) :
    World.useCase.redisClient.AcquireLock key d w
      = ((true, none), { w with redis := w.redis ++ [("lock:" ++ key, "1")] }) := by
  show World.SetNX _ _ w = _
  simp [World.SetNX, faulty_quiet hq, hfree, tick_quiet hq]

theorem quiet_checkIdempotencyKey {w : World} (hq : w.faults = []) (key : String)
    (hunused : w.hasKey ("idempotency:" ++ key) = false) :
    World.useCase.redisClient.CheckIdempotencyKey key w = ((false, none), w) := by
  show Client.CheckIdempotencyKey key w = _
  simp [Client.CheckIdempotencyKey, World.Exists, faulty_quiet hq, hunused, tick_quiet hq]

theorem hasKey_after_lock (w : World) (a b : String) :
    World.hasKey { w with redis := w.redis ++ [("lock:" ++ a, "1")] } ("idempotency:" ++ b)
      = w.hasKey ("idempotency:" ++ b) := by
  simp [World.hasKey, idempotency_ne_lock]

theorem quiet_loanGetByID {w : World} (hq : w.faults = []) {id : UUID} {loan : Loan}
    (hfind : w.loans.find? (fun l => l.ID = id) = some loan) :
    World.useCase.loanRepo.GetByID id w = (.ok loan, w) := by
  show World.loanGetByID id w = _
  simp [World.loanGetByID, faulty_quiet hq, hfind, tick_quiet hq]

theorem quiet_getTotal {w : World} (hq : w.faults = []) (id : UUID) :
    World.useCase.investmentRepo.GetTotalByLoanID id w = (.ok (w.total id), w) := by
  show World.investmentGetTotalByLoanID id w = _
  simp [World.investmentGetTotalByLoanID, faulty_quiet hq, tick_quiet hq]

theorem quiet_investmentCreate {w : World} (hq : w.faults = []) (i : Investment) :
    World.useCase.investmentRepo.Create i w
      = (none, { w with investments := w.investments ++ [i] }) := by
  show World.investmentCreate i w = _
  simp [World.investmentCreate, faulty_quiet hq, tick_quiet hq]

theorem quiet_loanUpdate {w : World} (hq : w.faults = []) (loan : Loan) :
    World.useCase.loanRepo.Update loan w = (none, { w with loans := updateRows w.loans loan }) := by
  show World.loanUpdate loan w = _
  simp [World.loanUpdate, faulty_quiet hq, tick_quiet hq, updateRows]

theorem find?_map_id (f : Loan → Loan) (hf : ∀ row, (f row).ID = row.ID) (id : UUID) :
    ∀ rows : List Loan,
      (rows.map f).find? (fun l => l.ID = id) = (rows.find? fun l => l.ID = id).map f := by
  intro rows
  induction rows with
  | nil => rfl
  | cons row rest ih =>
    by_cases h : row.ID = id
    · simp [List.find?, hf, h]
    · simp [List.find?, hf, h, ih]

theorem find?_updateRows (rows : List Loan) (loan : Loan) (id : UUID) :
    (updateRows rows loan).find? (fun l => l.ID = id)
      = (rows.find? fun l => l.ID = id).map
          fun row => if row.ID = loan.ID then row.updateFrom loan else row := by
  apply find?_map_id
  intro row
  split_ifs <;> rfl

/-- A call of `Invest` that returns nil on a loan found approved, with a total
that counts as fully invested, leaves the first row of the loan in state
invested with the agreement reference set. -/
theorem invest_nil_persists (req : InvestRequest) (w : World) (loan : Loan)
    (hfind : w.loans.find? (fun l => l.ID = req.LoanID) = some loan)
    (hfull : loan.IsFullyInvested (w.total req.LoanID + req.Amount) = true)
    (hnil : (World.useCase.Invest req w).1 = none) :
    ∃ t, (World.useCase.Invest req w).2.loans.find? (fun l => l.ID = req.LoanID)
      = some { loan with
          State := StateInvested
          UpdatedAt := t
          AgreementLetterURL := some (w.baseURL ++ "/" ++ agreementPath req.LoanID) } := by
  have hid : loan.ID = req.LoanID := (find?_id hfind).2
  have h := invest_outcome req w
  generalize World.useCase.Invest req w = r at h hnil
  cases h with
  | early err w' hsame => simp at hnil
  | stuck loan' inv cause w' hadd hfull' hloans => simp at hnil
  | halfway loan' inv t cause w' hadd hfull' hloans => simp at hnil
  | partly loan' inv w' hadd hopen hloans =>
    have e : loan' = loan := Option.some.inj (hadd.hfind.symm.trans hfind)
    subst e
    rw [hfull] at hopen
    cases hopen
  | funded loan' inv t w' hadd hfull' hloans =>
    have e : loan' = loan := Option.some.inj (hadd.hfind.symm.trans hfind)
    subst e
    refine ⟨t, ?_⟩
    show w'.loans.find? _ = _
    rw [hloans, find?_updateRows, find?_updateRows, hfind]
    simp [Loan.updateFrom]

end quiet

/-- A total that reaches the principal within 0.01 in exact arithmetic counts as
fully invested once it is added up in `float64` arithmetic: rounding is
monotone, and the `float64` nearest to 0.01 is above 0.01. -/
theorem isFullyInvested_of_exact {loan : Loan} {t a p : ℚ} (hp : loan.PrincipalAmount = .fin p)
    (h : t + a ≥ p - 1 / 100) : loan.IsFullyInvested (.fin t + .fin a) = true := by
  have heps : (1 / 100 : ℚ) < 5764607523034235 / 576460752303423488 := by norm_num
  simp only [Loan.IsFullyInvested, decide_eq_true_eq, ge_iff_le]
  rw [hp, epsilon_eq, Float64.fin_sub_fin, Float64.fin_add_fin]
  exact Float64.ofRat_le_ofRat (by linarith)

/-- C11: on the in-memory collaborators with no call failing, the investment lock
free and the token unused, an `Invest` call on a loan stored in state approved
whose amount passes `ValidateInvestmentAmount` and brings the total to within
0.01 of the principal, be it in the `float64` arithmetic of the code or in exact
arithmetic, returns nil, and afterwards the stored loan is the loaded one in
state invested with the document-store URL of `agreements/{loanID}.pdf` as its
agreement reference. -/
theorem C11_invest_fully_funds (req : InvestRequest) (w : World) (loan : Loan)
    (hquiet : w.faults = [])
    (hfree : w.hasKey ("lock:" ++ investLockKey req.LoanID) = false)
    (hunused : w.hasKey
      ("idempotency:" ++ investKey req.LoanID req.InvestorID req.IdempotencyKey) = false)
    (hfind : w.loans.find? (fun l => l.ID = req.LoanID) = some loan)
    (hstate : loan.State = StateApproved)
    (hvalid : loan.ValidateInvestmentAmount req.Amount (w.total req.LoanID) = none)
    (hfull : w.total req.LoanID + req.Amount ≥ loan.PrincipalAmount - epsilon ∨
      ∃ t a p : ℚ, w.total req.LoanID = .fin t ∧ req.Amount = .fin a ∧
        loan.PrincipalAmount = .fin p ∧ t + a ≥ p - 1 / 100) :
    (World.useCase.Invest req w).1 = none ∧
    ∃ t, (World.useCase.Invest req w).2.loans.find? (fun l => l.ID = req.LoanID)
      = some { loan with
          State := StateInvested
          UpdatedAt := t
          AgreementLetterURL := some (w.baseURL ++ "/" ++ agreementPath req.LoanID) } := by
  have hfull' : loan.IsFullyInvested (w.total req.LoanID + req.Amount) = true := by
    rcases hfull with h | ⟨t, a, p, ht, ha, hp, h⟩
    · simpa [Loan.IsFullyInvested] using h
    · rw [ht, ha]; exact isFullyInvested_of_exact hp h
  have hnil : (World.useCase.Invest req w).1 = none :=
    invest_funded_returns_nil World.useCase req w _ _ _ _ _ _ _ _ _ _ _ _ loan
      (w.total req.LoanID) _ _ _ _
      (quiet_acquireLock hquiet _ _ hfree)
      (quiet_checkIdempotencyKey (by exact hquiet) _
        (by rw [hasKey_after_lock]; exact hunused))
      (quiet_loanGetByID (by exact hquiet) (by exact hfind)) hstate
      (quiet_getTotal (by exact hquiet) _) hvalid rfl rfl
      (quiet_investmentCreate (by exact hquiet) _) hfull' rfl
      (quiet_loanUpdate (by exact hquiet) _) rfl
      (quiet_loanUpdate (by exact hquiet) _)
  exact ⟨hnil, invest_nil_persists req w loan hfind hfull' hnil⟩

set_option maxRecDepth 8000 in
/-- The scenario of C11: principal 10000, investor 7 has invested 6000 and the
loan is still approved; investor 8 then invests 4000, the call returns nil and
the stored loan is invested with its agreement reference set. -/
theorem C11_invest_fully_funds_witness :
    Example.partlyFunded.loans = [Example.approvedLoan] ∧
    Example.partlyFunded.total (UUID.ofNat 1) = 6000 ∧
    (World.useCase.Invest (Example.investRequest 8 4000 "token-b") Example.partlyFunded).1 = none ∧
    ∃ t, (World.useCase.Invest (Example.investRequest 8 4000 "token-b")
        Example.partlyFunded).2.loans.find? (fun l => l.ID = UUID.ofNat 1)
      = some { Example.approvedLoan with
          State := StateInvested
          UpdatedAt := t
          AgreementLetterURL := some ("http://localhost:8080/files" ++ "/" ++
            agreementPath (UUID.ofNat 1)) } := by
  have htotal : Example.partlyFunded.total (UUID.ofNat 1) = 6000 := by with_unfolding_all rfl
  have h := C11_invest_fully_funds (Example.investRequest 8 4000 "token-b") Example.partlyFunded
    Example.approvedLoan (by with_unfolding_all rfl) (by with_unfolding_all rfl)
    (by with_unfolding_all rfl) (by with_unfolding_all rfl) rfl
    (by with_unfolding_all rfl)
    (Or.inr ⟨6000, 4000, 10000, by with_unfolding_all rfl, by with_unfolding_all rfl,
      by with_unfolding_all rfl, by norm_num⟩)
  have hurl : Example.partlyFunded.baseURL = "http://localhost:8080/files" := by
    with_unfolding_all rfl
  rw [hurl] at h
  exact ⟨by with_unfolding_all rfl, htotal, h⟩

/-! ## Theorems: investing requires an approved loan -/

/-- For any collaborators: when the loan that `GetByID` returns to `Invest`, if it
returns one, is in a state other than approved, `Invest` returns an error, and
none of the calls it makes is an investment insert, a loan update or a marker
write. The state in which `GetByID` is called is the one left by the lock
acquisition and the idempotency check. -/
theorem invest_unapproved_log (uc : LoanUseCase σ) (req : InvestRequest) (s : σ)
    (log : List Event)
    (hstate : ∀ loan, (uc.loanRepo.GetByID req.LoanID
        (uc.redisClient.CheckIdempotencyKey
          (investKey req.LoanID req.InvestorID req.IdempotencyKey)
          (uc.redisClient.AcquireLock (investLockKey req.LoanID) (30 * Second) s).2).2).1
        = .ok loan → loan.State ≠ StateApproved) :
    ∃ err body s', (traced uc).Invest req (s, log) = (some err, (s', log ++ body)) ∧
      ∀ e ∈ body, (∀ i, e.call ≠ .InvestmentCreate i) ∧ (∀ l, e.call ≠ .LoanUpdate l) ∧
        (∀ k v d, e.call ≠ .SetIdempotencyKey k v d) := by
  rcases h1 : uc.redisClient.AcquireLock (investLockKey req.LoanID) (30 * Second) s
    with ⟨⟨b, e⟩, s1⟩
  rw [h1] at hstate
  cases e with
  | some err =>
    simp only [LoanUseCase.Invest, traced_acquireLock, logged_eq _ _ _ _ _ _ _ h1]
    exact ⟨_, _, _, rfl, by simp⟩
  | none =>
  cases b with
  | false =>
    simp only [LoanUseCase.Invest, traced_acquireLock, logged_eq _ _ _ _ _ _ _ h1]
    exact ⟨_, _, _, rfl, by simp⟩
  | true =>
  rcases h2 : uc.redisClient.CheckIdempotencyKey
    (investKey req.LoanID req.InvestorID req.IdempotencyKey) s1 with ⟨⟨b2, e2⟩, s2⟩
  rw [h2] at hstate
  rcases h4 : uc.redisClient.ReleaseLock (investLockKey req.LoanID) s2 with ⟨e4, s4⟩
  cases b2 with
  | true =>
    simp only [LoanUseCase.Invest, LoanUseCase.investLocked, traced_acquireLock,
      traced_checkIdempotencyKey, traced_releaseLock, logged_eq _ _ _ _ _ _ _ h1,
      logged_eq _ _ _ _ _ _ _ h2, logged_eq _ _ _ _ _ _ _ h4, List.append_assoc,
      List.cons_append, List.nil_append]
    exact ⟨_, _, _, rfl, by simp⟩
  | false =>
  rcases h3 : uc.loanRepo.GetByID req.LoanID s2 with ⟨r, s3⟩
  rw [h3] at hstate
  rcases h5 : uc.redisClient.ReleaseLock (investLockKey req.LoanID) s3 with ⟨e5, s5⟩
  cases r with
  | error err =>
    simp only [LoanUseCase.Invest, LoanUseCase.investLocked, traced_acquireLock,
      traced_checkIdempotencyKey, traced_loanGetByID, traced_releaseLock,
      logged_eq _ _ _ _ _ _ _ h1, logged_eq _ _ _ _ _ _ _ h2, logged_eq _ _ _ _ _ _ _ h3,
      logged_eq _ _ _ _ _ _ _ h5, List.append_assoc, List.cons_append, List.nil_append]
    exact ⟨_, _, _, rfl, by simp⟩
  | ok loan =>
    have hne : loan.State ≠ StateApproved := hstate loan rfl
    simp only [LoanUseCase.Invest, LoanUseCase.investLocked, traced_acquireLock,
      traced_checkIdempotencyKey, traced_loanGetByID, traced_releaseLock,
      logged_eq _ _ _ _ _ _ _ h1, logged_eq _ _ _ _ _ _ _ h2, logged_eq _ _ _ _ _ _ _ h3,
      ne_eq, hne, not_false_eq_true, if_true, logged_eq _ _ _ _ _ _ _ h5, List.append_assoc,
      List.cons_append, List.nil_append]
    exact ⟨_, _, _, rfl, by simp⟩

/-- C13: on the in-memory collaborators, whatever fails, an `Invest` call for a
loan none of whose stored rows is in state approved returns an error; none of
its collaborator calls is an investment insert, a loan update or a marker write;
the loan, approval, investment and disbursement tables are left as they were.
So once every stored row of a loan is invested or disbursed, no sequence of
`ApproveLoan`, `Invest` and `DisburseLoan` calls adds an investment row for it. -/
theorem C13_invest_requires_approved (req : InvestRequest) (w : World) (log : List Event)
    (hstate : rowsIn w.loans req.LoanID fun s => s ≠ StateApproved) :
    (∃ err body w', (traced World.useCase).Invest req (w, log) = (some err, (w', log ++ body)) ∧
      ∀ e ∈ body, (∀ i, e.call ≠ .InvestmentCreate i) ∧ (∀ l, e.call ≠ .LoanUpdate l) ∧
        (∀ k v d, e.call ≠ .SetIdempotencyKey k v d)) ∧
    (World.useCase.Invest req w).1 ≠ none ∧
    w.SameTables (World.useCase.Invest req w).2 ∧
    (w.Closed req.LoanID → ∀ reqs : List Request,
      (w.run reqs).Closed req.LoanID ∧
        (w.run reqs).investmentsOf req.LoanID = w.investmentsOf req.LoanID) := by
  refine ⟨invest_unapproved_log World.useCase req w log ?_, ?_⟩
  · intro loan hload
    have hfind := loanGetByID_find (Prod.ext hload rfl : _ = (Except.ok loan, _))
    have h1 := sameTables_acquireLock (investLockKey req.LoanID) (30 * Second) w
    have h2 := sameTables_checkIdempotencyKey
      (investKey req.LoanID req.InvestorID req.IdempotencyKey)
      (World.useCase.redisClient.AcquireLock (investLockKey req.LoanID) (30 * Second) w).2
    rw [h2.1, h1.1] at hfind
    exact hstate loan (find?_id hfind).1 (find?_id hfind).2
  · suffices key : (World.useCase.Invest req w).1 ≠ none ∧
        w.SameTables (World.useCase.Invest req w).2 from
      ⟨key.1, key.2, fun h reqs => run_closed reqs _ w h⟩
    have h := invest_outcome req w
    have hno : ∀ loan inv w', InvestAdded req w loan inv w' → False := fun loan inv w' hadd =>
      hstate loan (find?_id hadd.hfind).1 (find?_id hadd.hfind).2 hadd.hstate
    generalize World.useCase.Invest req w = r at h
    cases h with
    | early err w' hsame => exact And.intro (by simp) hsame
    | partly loan inv w' hadd => exact (hno _ _ _ hadd).elim
    | stuck loan inv cause w' hadd => exact (hno _ _ _ hadd).elim
    | halfway loan inv t cause w' hadd => exact (hno _ _ _ hadd).elim
    | funded loan inv t w' hadd => exact (hno _ _ _ hadd).elim

/-- The claim C13 on the world holding the invested loan: a further `Invest` is
rejected, and the loan has no investment row after any calls. -/
theorem C13_invest_requires_approved_witness :
    (∃ err body w', (traced World.useCase).Invest (Example.investRequest 9 100 "token-c")
        (Example.funded, []) = (some err, (w', [] ++ body)) ∧
      ∀ e ∈ body, (∀ i, e.call ≠ .InvestmentCreate i) ∧ (∀ l, e.call ≠ .LoanUpdate l) ∧
        (∀ k v d, e.call ≠ .SetIdempotencyKey k v d)) ∧
    (World.useCase.Invest (Example.investRequest 9 100 "token-c") Example.funded).1 ≠ none ∧
    Example.funded.SameTables
      (World.useCase.Invest (Example.investRequest 9 100 "token-c") Example.funded).2 ∧
    (Example.funded.Closed (UUID.ofNat 1) → ∀ reqs : List Request,
      (Example.funded.run reqs).Closed (UUID.ofNat 1) ∧
        (Example.funded.run reqs).investmentsOf (UUID.ofNat 1)
          = Example.funded.investmentsOf (UUID.ofNat 1)) :=
  C13_invest_requires_approved (Example.investRequest 9 100 "token-c") Example.funded []
    (by
      intro l hl _
      have e : l = Example.investedLoan := by simpa [Example.funded, World.empty] using hl
      rw [e]
      decide)

/-- C16, amended: on the in-memory collaborators, with any call failing, starting
from a world in which the loan has no approval record, after any sequence of
`ApproveLoan`, `Invest` and `DisburseLoan` calls the loan has at most one
approval record, and when it has one no stored row of the loan is in state
proposed. A call of `ApproveLoan` changes the approval table only by appending
one record for the requested loan, and only when that same call found the loan
proposed, stored it as approved and returned nil. -/
theorem C16_approval_only_with_transition (id : UUID) (w : World)
    (hstart : w.approvalsOf id = []) (reqs : List Request) :
    ((w.run reqs).approvalsOf id).length ≤ 1 ∧
    ((w.run reqs).approvalsOf id ≠ [] → rowsIn (w.run reqs).loans id fun s => s ≠ StateProposed) ∧
    (∀ (req : ApproveLoanRequest) (w0 : World),
      (World.useCase.ApproveLoan req w0).2.approvals ≠ w0.approvals →
      ∃ (loan : Loan) (t : Time) (a : LoanApproval),
        w0.loans.find? (fun l => l.ID = req.LoanID) = some loan ∧
        loan.State = StateProposed ∧
        (World.useCase.ApproveLoan req w0).2.loans
          = updateRows w0.loans { loan with State := StateApproved, UpdatedAt := t } ∧
        (World.useCase.ApproveLoan req w0).2.approvals = w0.approvals ++ [a] ∧
        a.LoanID = req.LoanID ∧ (World.useCase.ApproveLoan req w0).1 = none) := by
  have h0 : w.ApprovalInv id := by
    unfold World.ApprovalInv
    rw [hstart]
    exact ⟨Nat.zero_le _, fun h => absurd rfl h⟩
  have h := run_approvalInv reqs id w h0
  exact ⟨h.1, h.2, fun req w0 hne => approve_creates_only_with_transition w0 req hne⟩

/-- The amended C16 on the proposed loan approved twice with different tokens:
the first call creates the one approval record, the second creates none. -/
theorem C16_approval_only_with_transition_witness :
    ((Example.fresh.run
        [.approve Example.approveRequest,
         .approve { Example.approveRequest with IdempotencyKey := "token-2" }]).approvalsOf
      (UUID.ofNat 1)).length = 1 ∧
    (((Example.fresh.run
        [.approve Example.approveRequest,
         .approve { Example.approveRequest with IdempotencyKey := "token-2" }]).approvalsOf
      (UUID.ofNat 1)).length ≤ 1 ∧
    ((Example.fresh.run
        [.approve Example.approveRequest,
         .approve { Example.approveRequest with IdempotencyKey := "token-2" }]).approvalsOf
      (UUID.ofNat 1) ≠ [] →
      rowsIn (Example.fresh.run
        [.approve Example.approveRequest,
         .approve { Example.approveRequest with IdempotencyKey := "token-2" }]).loans
        (UUID.ofNat 1) fun s => s ≠ StateProposed)) :=
  ⟨rfl,
    (C16_approval_only_with_transition (UUID.ofNat 1) Example.fresh rfl
      [.approve Example.approveRequest,
       .approve { Example.approveRequest with IdempotencyKey := "token-2" }]).1,
    (C16_approval_only_with_transition (UUID.ofNat 1) Example.fresh rfl
      [.approve Example.approveRequest,
       .approve { Example.approveRequest with IdempotencyKey := "token-2" }]).2.1⟩

/-- C17: on the in-memory collaborators, with any call failing and whatever the
tokens and employees, starting from a world in which the loan has no
disbursement record, after any sequence of `ApproveLoan`, `Invest` and
`DisburseLoan` calls the loan has at most one disbursement record. A call of
`DisburseLoan` changes the disbursement table only by appending one record for
the requested loan, and only when that call found the loan in state invested. -/
theorem C17_one_disbursement (id : UUID) (w : World)
    (hstart : w.disbursementsOf id = []) (reqs : List Request) :
    ((w.run reqs).disbursementsOf id).length ≤ 1 ∧
    (∀ (req : DisburseLoanRequest) (w0 : World),
      (World.useCase.DisburseLoan req w0).2.disbursements ≠ w0.disbursements →
      ∃ (loan : Loan) (d : Disbursement),
        w0.loans.find? (fun l => l.ID = req.LoanID) = some loan ∧
        loan.State = StateInvested ∧
        (World.useCase.DisburseLoan req w0).2.disbursements = w0.disbursements ++ [d] ∧
        d.LoanID = req.LoanID ∧ (World.useCase.DisburseLoan req w0).1 = none) := by
  have h0 : w.DisbursementInv id := by
    unfold World.DisbursementInv
    rw [hstart]
    exact ⟨Nat.zero_le _, fun h => absurd rfl h⟩
  have h := run_disbursementInv reqs id w h0
  exact ⟨h.1, fun req w0 hne => disburse_creates_only_from_invested w0 req hne⟩

/-- The claim C17 on the invested loan disbursed three times, with a new token
and another employee on the later calls: one disbursement record. -/
theorem C17_one_disbursement_witness :
    ((Example.funded.run
        [.disburse Example.disburseRequest,
         .disburse { Example.disburseRequest with IdempotencyKey := "token-3" },
         .disburse { Example.disburseRequest with
           IdempotencyKey := "token-4", EmployeeID := UUID.ofNat 5 }]).disbursementsOf
      (UUID.ofNat 1)).length = 1 ∧
    ((Example.funded.run
        [.disburse Example.disburseRequest,
         .disburse { Example.disburseRequest with IdempotencyKey := "token-3" },
         .disburse { Example.disburseRequest with
           IdempotencyKey := "token-4", EmployeeID := UUID.ofNat 5 }]).disbursementsOf
      (UUID.ofNat 1)).length ≤ 1 :=
  ⟨rfl,
    (C17_one_disbursement (UUID.ofNat 1) Example.funded rfl
      [.disburse Example.disburseRequest,
       .disburse { Example.disburseRequest with IdempotencyKey := "token-3" },
       .disburse { Example.disburseRequest with
         IdempotencyKey := "token-4", EmployeeID := UUID.ofNat 5 }]).1⟩

/-! ## Theorems: the notifications of a fully funding investment -/

set_option maxRecDepth 8000 in
/-- Counterexample to C20 as stated: investor 7 funds the loan of 10000 in one
call and the lookup of the investor of the only investment row fails. `Invest`
returns nil, the stored loan is invested, the row exists, and `SendAgreementEmail`
is not called at all. -/
theorem C20_counterexample :
    ((traced World.useCase).Invest (Example.investRequest 7 10000 "token-a")
      (Example.lookupFails, [])).1 = none ∧
    ((traced World.useCase).Invest (Example.investRequest 7 10000 "token-a")
      (Example.lookupFails, [])).2.1.loans.map Loan.State = [StateInvested] ∧
    (((traced World.useCase).Invest (Example.investRequest 7 10000 "token-a")
      (Example.lookupFails, [])).2.1.investmentsOf (UUID.ofNat 1)).map Investment.InvestorID
        = [UUID.ofNat 7] ∧
    (((traced World.useCase).Invest (Example.investRequest 7 10000 "token-a")
      (Example.lookupFails, [])).2.2.filter fun e => e.call.isSendAgreementEmail) = [] ∧
    (((traced World.useCase).Invest (Example.investRequest 7 10000 "token-a")
      (Example.lookupFails, [])).2.2.filter fun e => e.call = .UserGetByID (UUID.ofNat 7))
        = [{ call := .UserGetByID (UUID.ofNat 7), ok := false }] := by
  refine ⟨?_, ?_, ?_, ?_, ?_⟩ <;> with_unfolding_all rfl

/-- The log of the notification loop: one attempt per row, in the order of the
rows, whatever the lookups and the sends return. Each lookup outcome is a
result of `GetByID` for the investor of its row. -/
theorem notifyInvestors_attempts (uc : LoanUseCase σ) (url : String) :
    ∀ (invs : List Investment) (s : σ) (log : List Event),
      ∃ outcomes : List (Except GoError User × Bool),
        List.Forall₂ (fun inv o => ∃ s0, (uc.userRepo.GetByID inv.InvestorID s0).1 = o.1)
          invs outcomes ∧
        ((traced uc).notifyInvestors url invs (s, log)).2 = log ++ attempts url invs outcomes := by
  intro invs
  induction invs with
  | nil => intro s log; exact ⟨[], .nil, by simp [LoanUseCase.notifyInvestors, attempts]⟩
  | cons inv rest ih =>
    intro s log
    rcases h1 : uc.userRepo.GetByID inv.InvestorID s with ⟨r, s1⟩
    cases r with
    | error err =>
      obtain ⟨os, hF, hlog⟩ := ih s1 (log ++ [{ call := .UserGetByID inv.InvestorID, ok := false }])
      refine ⟨(.error err, false) :: os, .cons ⟨s, by rw [h1]⟩ hF, ?_⟩
      simp only [LoanUseCase.notifyInvestors, traced_userGetByID, logged_eq _ _ _ _ _ _ _ h1]
      simpa [attempts, rowAttempt, resNil] using hlog
    | ok user =>
      rcases h2 : uc.emailService.SendAgreementEmail user.Email url s1 with ⟨e, s2⟩
      obtain ⟨os, hF, hlog⟩ := ih s2
        (log ++ [{ call := .UserGetByID inv.InvestorID, ok := true }] ++
          [{ call := .SendAgreementEmail user.Email url, ok := errNil e }])
      refine ⟨(.ok user, errNil e) :: os, .cons ⟨s, by rw [h1]⟩ hF, ?_⟩
      simp only [LoanUseCase.notifyInvestors, traced_userGetByID, traced_sendAgreementEmail,
        logged_eq _ _ _ _ _ _ _ h1, logged_eq _ _ _ _ _ _ _ h2]
      simpa [attempts, rowAttempt, resNil] using hlog

/-- C20, amended: when the calls of `Invest` up to the second loan update all
succeed, the new total counts as fully invested and `GetByLoanID` returns the
investment rows `invs`, then `Invest` returns nil and, between the rows query and
the marker write, its calls are one notification attempt per row, in the order
of the rows: the investor of the row is looked up once, and `SendAgreementEmail`
is called once, to the email address the lookup returned and with the agreement
URL, exactly when that lookup succeeded. A lookup or a send that fails changes
neither the attempts for the other rows nor the result of `Invest`. -/
theorem C20_notification_attempts (uc : LoanUseCase σ) (req : InvestRequest)
    (s s1 s2 s3 s4 s5 s6 s7 s8 s9 s10 s11 s12 : σ) (log : List Event) (e1 : Option GoError)
    (loan : Loan) (total : Float64) (id : UUID) (t1 t2 : Time) (url : String) (invs : List Investment)
    (hlock : uc.redisClient.AcquireLock (investLockKey req.LoanID) (30 * Second) s
      = ((true, none), s1))
    (hcheck : uc.redisClient.CheckIdempotencyKey
        (investKey req.LoanID req.InvestorID req.IdempotencyKey) s1
      = ((false, e1), s2))
    (hload : uc.loanRepo.GetByID req.LoanID s2 = (.ok loan, s3))
    (hstate : loan.State = StateApproved)
    (htotal : uc.investmentRepo.GetTotalByLoanID req.LoanID s3 = (.ok total, s4))
    (hvalid : loan.ValidateInvestmentAmount req.Amount total = none)
    (hid : uc.runtime.NewUUID s4 = (id, s5))
    (hnow1 : uc.runtime.Now s5 = (t1, s6))
    (hcreate : uc.investmentRepo.Create
        { ID := id, LoanID := req.LoanID, InvestorID := req.InvestorID, Amount := req.Amount,
          CreatedAt := t1 } s6
      = (none, s7))
    (hfull : loan.IsFullyInvested (total + req.Amount) = true)
    (hnow2 : uc.runtime.Now s7 = (t2, s8))
    (hupdate1 : uc.loanRepo.Update { loan with State := StateInvested, UpdatedAt := t2 } s8
      = (none, s9))
    (hurl : uc.fileStorage.GetURL (agreementPath req.LoanID) s9 = (url, s10))
    (hupdate2 : uc.loanRepo.Update
        { loan with State := StateInvested, UpdatedAt := t2, AgreementLetterURL := some url } s10
      = (none, s11))
    (hrows : uc.investmentRepo.GetByLoanID req.LoanID s11 = (.ok invs, s12)) :
    ∃ (outcomes : List (Except GoError User × Bool)) (markerOk releaseOk : Bool) (s13 : σ),
      List.Forall₂ (fun inv o => ∃ s0, (uc.userRepo.GetByID inv.InvestorID s0).1 = o.1)
        invs outcomes ∧
      (traced uc).Invest req (s, log) =
        (none, (s13, log ++
          [{ call := .AcquireLock (investLockKey req.LoanID) (30 * Second), ok := true },
           { call := .CheckIdempotencyKey
               (investKey req.LoanID req.InvestorID req.IdempotencyKey),
             ok := errNil e1 },
           { call := .LoanGetByID req.LoanID, ok := true },
           { call := .InvestmentGetTotalByLoanID req.LoanID, ok := true },
           { call := .InvestmentCreate
               { ID := id, LoanID := req.LoanID, InvestorID := req.InvestorID,
                 Amount := req.Amount, CreatedAt := t1 },
             ok := true },
           { call := .LoanUpdate { loan with State := StateInvested, UpdatedAt := t2 },
             ok := true },
           { call := .FileGetURL (agreementPath req.LoanID), ok := true },
           { call := .LoanUpdate
               { loan with
                 State := StateInvested, UpdatedAt := t2, AgreementLetterURL := some url },
             ok := true },
           { call := .InvestmentGetByLoanID req.LoanID, ok := true }] ++
          attempts url invs outcomes ++
          [{ call := .SetIdempotencyKey
               (investKey req.LoanID req.InvestorID req.IdempotencyKey) "invested" (24 * Hour),
             ok := markerOk },
           { call := .ReleaseLock (investLockKey req.LoanID), ok := releaseOk }])) := by
  have hcan := can_invest_of_approved hstate
  simp only [LoanUseCase.Invest, LoanUseCase.investLocked, LoanUseCase.investFullyFunded,
    traced_acquireLock, traced_checkIdempotencyKey, traced_loanGetByID,
    traced_investmentGetTotalByLoanID, traced_newUUID, traced_now, traced_investmentCreate,
    traced_loanUpdate, traced_fileGetURL, traced_investmentGetByLoanID,
    traced_setIdempotencyKey, traced_releaseLock,
    logged_eq _ _ _ _ _ _ _ hlock, logged_eq _ _ _ _ _ _ _ hcheck,
    logged_eq _ _ _ _ _ _ _ hload, hstate, logged_eq _ _ _ _ _ _ _ htotal, hvalid, hid,
    hnow1, logged_eq _ _ _ _ _ _ _ hcreate, hfull, hnow2, transitionTo_of_none _ hcan,
    logged_eq _ _ _ _ _ _ _ hupdate1, logged_eq _ _ _ _ _ _ _ hurl,
    logged_eq _ _ _ _ _ _ _ hupdate2, logged_eq _ _ _ _ _ _ _ hrows, ne_eq,
    not_true_eq_false, if_false, if_true]
  have key : ∀ {L : List Event} {N : σ × List Event},
      (traced uc).notifyInvestors url invs (s12, L) = N →
      ∃ outcomes : List (Except GoError User × Bool),
        List.Forall₂ (fun inv o => ∃ s0, (uc.userRepo.GetByID inv.InvestorID s0).1 = o.1)
          invs outcomes ∧ N.2 = L ++ attempts url invs outcomes := by
    intro L N hN
    subst hN
    exact notifyInvestors_attempts uc url invs s12 L
  generalize hN : (traced uc).notifyInvestors url invs _ = N
  obtain ⟨outcomes, hF, hlog⟩ := key hN
  obtain ⟨sN, logN⟩ := N
  simp only at hlog
  subst hlog
  refine ⟨outcomes,
    errNil (uc.redisClient.SetIdempotencyKey
      (investKey req.LoanID req.InvestorID req.IdempotencyKey) "invested" (24 * Hour) sN).1,
    errNil (uc.redisClient.ReleaseLock (investLockKey req.LoanID)
      (uc.redisClient.SetIdempotencyKey
        (investKey req.LoanID req.InvestorID req.IdempotencyKey) "invested" (24 * Hour) sN).2).1,
    (uc.redisClient.ReleaseLock (investLockKey req.LoanID)
      (uc.redisClient.SetIdempotencyKey
        (investKey req.LoanID req.InvestorID req.IdempotencyKey) "invested" (24 * Hour) sN).2).2,
    hF, ?_⟩
  simp only [logged, errNil, resNil, Option.isNone_none, List.append_assoc, List.cons_append,
    List.nil_append]

set_option maxRecDepth 8000 in
/-- The amended C20 on the scenario of the spec: investor 7 has invested 6000,
investor 8 invests 4000 and only investor 8 is a known user. Both rows get their
attempt; the failed lookup of investor 7 comes first and does not stop the
attempt for investor 8. -/
theorem C20_notification_attempts_witness :
    ∃ (outcomes : List (Except GoError User × Bool)) (markerOk releaseOk : Bool) (w : World),
      List.Forall₂
        (fun inv o => ∃ w0, (World.useCase.userRepo.GetByID inv.InvestorID w0).1 = o.1)
        [Example.row7, Example.row8] outcomes ∧
      (traced World.useCase).Invest (Example.investRequest 8 4000 "token-b")
          (Example.oneKnown, []) =
        (none, (w, [] ++
          [{ call := .AcquireLock (investLockKey (UUID.ofNat 1)) (30 * Second), ok := true },
           { call := .CheckIdempotencyKey (investKey (UUID.ofNat 1) (UUID.ofNat 8) "token-b"),
             ok := errNil none },
           { call := .LoanGetByID (UUID.ofNat 1), ok := true },
           { call := .InvestmentGetTotalByLoanID (UUID.ofNat 1), ok := true },
           { call := .InvestmentCreate Example.row8, ok := true },
           { call := .LoanUpdate
               { Example.approvedLoan with State := StateInvested, UpdatedAt := 2 },
             ok := true },
           { call := .FileGetURL (agreementPath (UUID.ofNat 1)), ok := true },
           { call := .LoanUpdate
               { Example.approvedLoan with
                 State := StateInvested, UpdatedAt := 2
                 AgreementLetterURL :=
                   some ("http://localhost:8080/files" ++ "/" ++ agreementPath (UUID.ofNat 1)) },
             ok := true },
           { call := .InvestmentGetByLoanID (UUID.ofNat 1), ok := true }] ++
          attempts ("http://localhost:8080/files" ++ "/" ++ agreementPath (UUID.ofNat 1))
            [Example.row7, Example.row8] outcomes ++
          [{ call := .SetIdempotencyKey (investKey (UUID.ofNat 1) (UUID.ofNat 8) "token-b")
               "invested" (24 * Hour),
             ok := markerOk },
           { call := .ReleaseLock (investLockKey (UUID.ofNat 1)), ok := releaseOk }])) :=
  C20_notification_attempts World.useCase (Example.investRequest 8 4000 "token-b")
    Example.oneKnown _ _ _ _ _ _ _ _ _ _ _ _ [] none Example.approvedLoan 6000 (UUID.ofNat 1) 1 2
    ("http://localhost:8080/files" ++ "/" ++ agreementPath (UUID.ofNat 1))
    [Example.row7, Example.row8]
    (by with_unfolding_all rfl) (by with_unfolding_all rfl) (by with_unfolding_all rfl) rfl
    (by with_unfolding_all rfl) (by with_unfolding_all rfl) (by with_unfolding_all rfl)
    (by with_unfolding_all rfl) (by with_unfolding_all rfl) (by with_unfolding_all rfl)
    (by with_unfolding_all rfl) (by with_unfolding_all rfl) (by with_unfolding_all rfl)
    (by with_unfolding_all rfl) (by with_unfolding_all rfl)


/-! ## Theorems: the errors of the state machine -/

/-- C23: every error of `CanTransitionTo`, and so of `TransitionTo`, is a
`StateTransitionError` with `From` the loan's state and `To` the target, and one
of two causes. The cause is "unknown current state" exactly when the state is
none of proposed, approved, invested, disbursed; it is "transition not allowed"
exactly when the state is one of the four and the target is not its permitted
successor. -/
theorem C23_transition_error_form (l : Loan) (target : LoanState) (now : Time) :
    (l.TransitionTo target now).1 = l.CanTransitionTo target ∧
    (∀ e, l.CanTransitionTo target = some e →
      e = .transition { From := l.State, To := target, Cause := "unknown current state" } ∨
      e = .transition { From := l.State, To := target, Cause := "transition not allowed" }) ∧
    (l.CanTransitionTo target
        = some (.transition
            { From := l.State, To := target, Cause := "unknown current state" }) ↔
      l.State ≠ StateProposed ∧ l.State ≠ StateApproved ∧ l.State ≠ StateInvested ∧
        l.State ≠ StateDisbursed) ∧
    (l.CanTransitionTo target
        = some (.transition
            { From := l.State, To := target, Cause := "transition not allowed" }) ↔
      (l.State = StateProposed ∨ l.State = StateApproved ∨ l.State = StateInvested ∨
          l.State = StateDisbursed) ∧
        ¬ ((l.State = StateProposed ∧ target = StateApproved) ∨
           (l.State = StateApproved ∧ target = StateInvested) ∨
           (l.State = StateInvested ∧ target = StateDisbursed))) := by
  refine ⟨?_, ?_, ?_, ?_⟩
  · unfold Loan.TransitionTo
    split <;> simp [*]
  · intro e h
    unfold Loan.CanTransitionTo at h
    split at h
    · exact Or.inl (Option.some.inj h).symm
    · split_ifs at h
      exact Or.inr (Option.some.inj h).symm
  · unfold Loan.CanTransitionTo
    rw [lookup_validTransitions]
    simp only [StateProposed, StateApproved, StateInvested, StateDisbursed]
    split_ifs <;> simp [*]
  · unfold Loan.CanTransitionTo
    rw [lookup_validTransitions]
    simp only [StateProposed, StateApproved, StateInvested, StateDisbursed]
    split_ifs <;> simp [*]

/-! ## Theorems: when an investment makes the loan invested -/

theorem Float64.ne_nan_of_le {a b : Float64} (h : a ≤ b) : a ≠ .nan ∧ b ≠ .nan := by
  rw [Float64.le_iff] at h
  rcases a with _ | a | a <;> rcases b with _ | b | b <;> simp_all [Float64.le]

theorem Float64.ne_nan_of_sub {a b : Float64} (h : a - b ≠ .nan) : a ≠ .nan := by
  rintro rfl
  exact h (by cases b <;> rfl)

theorem Float64.le_of_not_lt {a b : Float64} (ha : a ≠ .nan) (hb : b ≠ .nan) (h : ¬ b < a) :
    a ≤ b := by
  rw [Float64.lt_iff] at h
  rw [Float64.le_iff]
  rcases a with _ | a | a <;> rcases b with _ | b | b <;>
    simp only [Float64.le, Float64.lt, ne_eq, not_true_eq_false] at ha hb h ⊢
  · cases a <;> cases b <;> simp_all
  · cases a <;> simp_all
  · cases b <;> simp_all
  · simpa using h

set_option maxRecDepth 8000 in
/-- Counterexample to C30 as stated, on the approved loan of 10000. With nothing
invested, a request for the `float64` nearest to 9999.99 returns nil and the loan
becomes invested, although total plus amount is below 10000 - 0.01. With 9999.5
invested, a request for 0.5 + 2⁻⁴¹ returns nil and the loan becomes invested,
although total plus amount is above the principal. -/
theorem C30_counterexample :
    (Example.funding.loans.map fun l => (l.State, l.PrincipalAmount))
      = [(StateApproved, .fin 10000)] ∧
    Example.funding.total (UUID.ofNat 1) = .fin 0 ∧
    Example.short = Float64.ofRat (999999 / 100) ∧
    Example.short = .fin (5497552641321861 / 549755813888) ∧
    (0 : ℚ) + 5497552641321861 / 549755813888 < 10000 - 1 / 100 ∧
    (World.useCase.Invest (Example.investRequest 7 Example.short "token-a") Example.funding).1
      = none ∧
    (World.useCase.Invest (Example.investRequest 7 Example.short "token-a")
      Example.funding).2.loans.map Loan.State = [StateInvested] ∧
    (Example.almostFunded.loans.map fun l => (l.State, l.PrincipalAmount))
      = [(StateApproved, .fin 10000)] ∧
    Example.almostFunded.total (UUID.ofNat 1) = .fin (19999 / 2) ∧
    Example.sliver.Amount = .fin (1 / 2 + 1 / 2 ^ 41) ∧
    (Float64.fin (1 / 2 + 1 / 2 ^ 41)).IsValue ∧
    (19999 / 2 : ℚ) + (1 / 2 + 1 / 2 ^ 41) > 10000 ∧
    (World.useCase.Invest Example.sliver Example.almostFunded).1 = none ∧
    (World.useCase.Invest Example.sliver Example.almostFunded).2.loans.map Loan.State
      = [StateInvested] := by
  refine ⟨?_, ?_, ?_, ?_, by norm_num, ?_, ?_, ?_, ?_, ?_, ?_, by norm_num, ?_, ?_⟩ <;>
    with_unfolding_all rfl

/-- C30, amended: on the in-memory collaborators, with any call failing, an
`Invest` call that returns nil for a stored loan with principal `P`, current
total `t` and amount `a` found the loan approved, with `a ≤ 0` false and
`t + a > P` false for the `float64` sum. The stored loan afterwards is invested
exactly when the `float64` sum `t + a` is at least the `float64` difference
`P - epsilon`, and then `P - epsilon ≤ t + a ≤ P` in `float64` arithmetic; it is
still approved exactly when that comparison fails. In exact arithmetic one
direction remains: if `t + a ≥ P - 1/100` the loan is invested, and if it is
still approved then `t + a < P - 1/100`. -/
theorem C30_invested_iff_within_tolerance (req : InvestRequest) (w : World) (loan : Loan)
    (hfind : w.loans.find? (fun l => l.ID = req.LoanID) = some loan)
    (hnil : (World.useCase.Invest req w).1 = none) :
    loan.State = StateApproved ∧ ¬ req.Amount ≤ 0 ∧
    ¬ w.total req.LoanID + req.Amount > loan.PrincipalAmount ∧
    ∃ l', (World.useCase.Invest req w).2.loans.find? (fun l => l.ID = req.LoanID) = some l' ∧
      (l'.State = StateInvested ∨ l'.State = StateApproved) ∧
      (l'.State = StateInvested ↔
        w.total req.LoanID + req.Amount ≥ loan.PrincipalAmount - epsilon) ∧
      (l'.State = StateInvested →
        loan.PrincipalAmount - epsilon ≤ w.total req.LoanID + req.Amount ∧
          w.total req.LoanID + req.Amount ≤ loan.PrincipalAmount) ∧
      (l'.State = StateApproved ↔
        ¬ w.total req.LoanID + req.Amount ≥ loan.PrincipalAmount - epsilon) ∧
      ∀ t a p : ℚ, w.total req.LoanID = .fin t → req.Amount = .fin a →
        loan.PrincipalAmount = .fin p →
          (t + a ≥ p - 1 / 100 → l'.State = StateInvested) ∧
          (l'.State = StateApproved → t + a < p - 1 / 100) := by
  have h := invest_outcome req w
  generalize World.useCase.Invest req w = r at h hnil
  cases h with
  | early err w' hsame => simp at hnil
  | stuck loan' inv cause w' hadd hfull' hloans => simp at hnil
  | halfway loan' inv t cause w' hadd hfull' hloans => simp at hnil
  | partly loan' inv w' hadd hopen hloans =>
    have e : loan' = loan := Option.some.inj (hadd.hfind.symm.trans hfind)
    subst e
    have hlt : ¬ w.total req.LoanID + req.Amount ≥ loan'.PrincipalAmount - epsilon := by
      have h := hopen
      simp only [Loan.IsFullyInvested, decide_eq_false_iff_not] at h
      exact h
    have hne : loan'.State ≠ StateInvested := by rw [hadd.hstate]; decide
    refine ⟨hadd.hstate, hadd.hpos, hadd.hfit, loan', ?_, Or.inr hadd.hstate, ?_, ?_, ?_, ?_⟩
    · show w'.loans.find? _ = _
      rw [hloans]; exact hfind
    · exact ⟨fun h => absurd h hne, fun h => absurd h hlt⟩
    · exact fun h => absurd h hne
    · exact ⟨fun _ => hlt, fun _ => hadd.hstate⟩
    · intro t a p ht ha hp
      have hex : ¬ t + a ≥ p - 1 / 100 := by
        intro hge
        have := @isFullyInvested_of_exact loan' t a p hp hge
        rw [← ht, ← ha, hopen] at this
        cases this
      exact ⟨fun h => absurd h hex, fun _ => not_le.mp hex⟩
  | funded loan' inv t w' hadd hfull hloans =>
    have e : loan' = loan := Option.some.inj (hadd.hfind.symm.trans hfind)
    subst e
    have hge : w.total req.LoanID + req.Amount ≥ loan'.PrincipalAmount - epsilon := by
      have h := hfull
      simp only [Loan.IsFullyInvested, decide_eq_true_eq] at h
      exact h
    have hle : w.total req.LoanID + req.Amount ≤ loan'.PrincipalAmount :=
      Float64.le_of_not_lt (Float64.ne_nan_of_le hge).2
        (Float64.ne_nan_of_sub (Float64.ne_nan_of_le hge).1) hadd.hfit
    obtain ⟨l', hl', hs⟩ : ∃ l', w'.loans.find? (fun l => l.ID = req.LoanID) = some l' ∧
        l'.State = StateInvested := by
      rw [hloans, find?_updateRows, find?_updateRows, hfind]
      exact ⟨_, rfl, by simp [Loan.updateFrom]⟩
    have hne : l'.State ≠ StateApproved := by rw [hs]; decide
    exact ⟨hadd.hstate, hadd.hpos, hadd.hfit, l', hl', Or.inl hs, ⟨fun _ => hge, fun _ => hs⟩,
      fun _ => ⟨hge, hle⟩,
      ⟨fun h => absurd h hne, fun h => absurd hge h⟩,
      fun _ _ _ _ _ _ => ⟨fun _ => hs, fun h => absurd h hne⟩⟩

set_option maxRecDepth 8000 in
/-- The amended claim C30 on the approved loan of 10000 with nothing invested: a
request for the `float64` nearest to 9999.995 returns nil and the loan becomes
invested, short of its principal. -/
theorem C30_invested_iff_within_tolerance_witness :
    Example.approvedLoan.State = StateApproved ∧ ¬ (Example.investRequest 7 (Float64.ofRat (1999999 / 200)) "token-a").Amount ≤ 0 ∧
    ¬ Example.funding.total (Example.investRequest 7 (Float64.ofRat (1999999 / 200)) "token-a").LoanID + (Example.investRequest 7 (Float64.ofRat (1999999 / 200)) "token-a").Amount > Example.approvedLoan.PrincipalAmount ∧
    ∃ l', (World.useCase.Invest (Example.investRequest 7 (Float64.ofRat (1999999 / 200)) "token-a")
        Example.funding).2.loans.find? (fun l => l.ID = (Example.investRequest 7 (Float64.ofRat (1999999 / 200)) "token-a").LoanID) = some l' ∧
      (l'.State = StateInvested ∨ l'.State = StateApproved) ∧
      (l'.State = StateInvested ↔
        Example.funding.total (Example.investRequest 7 (Float64.ofRat (1999999 / 200)) "token-a").LoanID + (Example.investRequest 7 (Float64.ofRat (1999999 / 200)) "token-a").Amount ≥ Example.approvedLoan.PrincipalAmount - epsilon) ∧
      (l'.State = StateInvested →
        Example.approvedLoan.PrincipalAmount - epsilon ≤ Example.funding.total (Example.investRequest 7 (Float64.ofRat (1999999 / 200)) "token-a").LoanID + (Example.investRequest 7 (Float64.ofRat (1999999 / 200)) "token-a").Amount ∧
          Example.funding.total (Example.investRequest 7 (Float64.ofRat (1999999 / 200)) "token-a").LoanID + (Example.investRequest 7 (Float64.ofRat (1999999 / 200)) "token-a").Amount ≤ Example.approvedLoan.PrincipalAmount) ∧
      (l'.State = StateApproved ↔
        ¬ Example.funding.total (Example.investRequest 7 (Float64.ofRat (1999999 / 200)) "token-a").LoanID + (Example.investRequest 7 (Float64.ofRat (1999999 / 200)) "token-a").Amount ≥ Example.approvedLoan.PrincipalAmount - epsilon) ∧
      ∀ t a p : ℚ, Example.funding.total (Example.investRequest 7 (Float64.ofRat (1999999 / 200)) "token-a").LoanID = .fin t → (Example.investRequest 7 (Float64.ofRat (1999999 / 200)) "token-a").Amount = .fin a →
        Example.approvedLoan.PrincipalAmount = .fin p →
          (t + a ≥ p - 1 / 100 → l'.State = StateInvested) ∧
          (l'.State = StateApproved → t + a < p - 1 / 100) :=
  C30_invested_iff_within_tolerance (Example.investRequest 7 (Float64.ofRat (1999999 / 200)) "token-a")
    Example.funding Example.approvedLoan rfl (by with_unfolding_all rfl)

/-! ## Theorems: the agreement reference is set only from invested on -/

section agreement

theorem agreementOnly_updateRows {rows : List Loan} {L : Loan}
    (h : ∀ l ∈ rows, l.AgreementLetterURL ≠ none →
      l.State = StateInvested ∨ l.State = StateDisbursed)
    (hL : L.AgreementLetterURL ≠ none → L.State = StateInvested ∨ L.State = StateDisbursed) :
    ∀ l ∈ updateRows rows L, l.AgreementLetterURL ≠ none →
      l.State = StateInvested ∨ l.State = StateDisbursed := by
  intro l hl
  simp only [updateRows, List.mem_map] at hl
  obtain ⟨row, hrow, rfl⟩ := hl
  split_ifs
  · exact hL
  · exact h row hrow

theorem agreementOnly_of_early {rows : List Loan} {loan : Loan} {id : UUID} {s : LoanState}
    (h : ∀ l ∈ rows, l.AgreementLetterURL ≠ none →
      l.State = StateInvested ∨ l.State = StateDisbursed)
    (hfind : rows.find? (fun l => l.ID = id) = some loan) (hstate : loan.State = s)
    (h1 : s ≠ StateInvested) (h2 : s ≠ StateDisbursed) : loan.AgreementLetterURL = none := by
  by_contra hne
  rcases h loan (find?_id hfind).1 hne with h' | h'
  · exact h1 (hstate.symm.trans h')
  · exact h2 (hstate.symm.trans h')

theorem step_agreementOnly (r : Request) (w : World) (hinv : w.AgreementOnlyWhenFunded) :
    (w.step r).AgreementOnlyWhenFunded := by
  cases r with
  | approve req =>
    have h := approveLoan_outcome req w
    show World.AgreementOnlyWhenFunded (World.useCase.ApproveLoan req w).2
    generalize World.useCase.ApproveLoan req w = r at h
    cases h with
    | early e w' hfail hsame =>
      unfold World.AgreementOnlyWhenFunded; rw [hsame.1]; exact hinv
    | updated loan t cause w' hfind hstate hloans hrest =>
      unfold World.AgreementOnlyWhenFunded; rw [hloans]
      exact agreementOnly_updateRows hinv fun hne =>
        absurd (agreementOnly_of_early hinv hfind hstate (by decide) (by decide)) hne
    | completed loan t a w' hfind hstate hloans =>
      unfold World.AgreementOnlyWhenFunded; rw [hloans]
      exact agreementOnly_updateRows hinv fun hne =>
        absurd (agreementOnly_of_early hinv hfind hstate (by decide) (by decide)) hne
  | invest req =>
    have h := invest_outcome req w
    show World.AgreementOnlyWhenFunded (World.useCase.Invest req w).2
    generalize World.useCase.Invest req w = r at h
    cases h with
    | early e w' hsame => unfold World.AgreementOnlyWhenFunded; rw [hsame.1]; exact hinv
    | partly loan inv w' hadd hopen hloans =>
      unfold World.AgreementOnlyWhenFunded; rw [hloans]; exact hinv
    | stuck loan inv cause w' hadd hfull hloans =>
      unfold World.AgreementOnlyWhenFunded; rw [hloans]; exact hinv
    | halfway loan inv t cause w' hadd hfull hloans =>
      unfold World.AgreementOnlyWhenFunded; rw [hloans]
      exact agreementOnly_updateRows hinv fun _ => Or.inl rfl
    | funded loan inv t w' hadd hfull hloans =>
      unfold World.AgreementOnlyWhenFunded; rw [hloans]
      exact agreementOnly_updateRows (agreementOnly_updateRows hinv fun _ => Or.inl rfl)
        fun _ => Or.inl rfl
  | disburse req =>
    have h := disburseLoan_outcome req w
    show World.AgreementOnlyWhenFunded (World.useCase.DisburseLoan req w).2
    generalize World.useCase.DisburseLoan req w = r at h
    cases h with
    | early e w' hsame => unfold World.AgreementOnlyWhenFunded; rw [hsame.1]; exact hinv
    | updated loan t cause w' hfind hstate hloans hrest =>
      unfold World.AgreementOnlyWhenFunded; rw [hloans]
      exact agreementOnly_updateRows hinv fun _ => Or.inr rfl
    | completed loan t d w' hfind hstate hloans =>
      unfold World.AgreementOnlyWhenFunded; rw [hloans]
      exact agreementOnly_updateRows hinv fun _ => Or.inr rfl

theorem run_agreementOnly (reqs : List Request) :
    ∀ w : World, w.AgreementOnlyWhenFunded → (w.run reqs).AgreementOnlyWhenFunded := by
  induction reqs with
  | nil => intro w h; exact h
  | cons r rest ih => intro w h; exact ih _ (step_agreementOnly r w h)

theorem loanCreate_effect {loan : Loan} {w w' : World} {r : Option GoError}
    (h : World.useCase.loanRepo.Create loan w = (r, w')) :
    (r ≠ none ∧ w'.loans = w.loans) ∨ (r = none ∧ w'.loans = w.loans ++ [loan]) := by
  change w.loanCreate loan = _ at h
  unfold World.loanCreate at h
  split_ifs at h
  · simp only [Prod.mk.injEq] at h
    obtain ⟨rfl, rfl⟩ := h
    exact Or.inl ⟨by simp, rfl⟩
  · simp only [Prod.mk.injEq] at h
    obtain ⟨rfl, rfl⟩ := h
    exact Or.inl ⟨by simp, rfl⟩
  · simp only [Prod.mk.injEq] at h
    obtain ⟨rfl, rfl⟩ := h
    exact Or.inr ⟨rfl, rfl⟩

/-- What `CreateLoan` does to the loan table: nothing, or one new row as
`NewLoan` makes it, which is the loan it returns. -/
theorem createLoan_effect (req : CreateLoanRequest) (w : World) :
    ((World.useCase.CreateLoan req w).2.loans = w.loans ∧
      ∃ err, (World.useCase.CreateLoan req w).1 = .error err) ∨
    (∃ id now,
      (World.useCase.CreateLoan req w).2.loans
        = w.loans ++ [NewLoan id now req.BorrowerID req.PrincipalAmount req.Rate req.ROI] ∧
      (World.useCase.CreateLoan req w).1
        = .ok (NewLoan id now req.BorrowerID req.PrincipalAmount req.Rate req.ROI)) := by
  simp only [LoanUseCase.CreateLoan]
  split
  · rename_i err s heq
    rcases loanCreate_effect heq with ⟨-, h⟩ | ⟨h, -⟩
    · exact Or.inl ⟨h, _, rfl⟩
    · cases h
  · rename_i s heq
    rcases loanCreate_effect heq with ⟨h, -⟩ | ⟨-, h⟩
    · exact absurd rfl h
    · exact Or.inr ⟨_, _, h, rfl⟩

end agreement

/-- C24: on the in-memory collaborators, with any call failing, start from a
world in which every stored loan with an agreement reference is invested or
disbursed (an empty loan table, for one), create a loan with `CreateLoan`, and
run any sequence of `ApproveLoan`, `Invest` and `DisburseLoan` calls. Then every
stored loan in state proposed or approved has no agreement reference, and every
stored loan with an agreement reference is invested or disbursed. -/
theorem C24_agreement_only_when_funded (w : World) (hinv : w.AgreementOnlyWhenFunded)
    (creq : CreateLoanRequest) (reqs : List Request) :
    (∀ l ∈ ((World.useCase.CreateLoan creq w).2.run reqs).loans,
      l.State = StateProposed ∨ l.State = StateApproved → l.AgreementLetterURL = none) ∧
    (∀ l ∈ ((World.useCase.CreateLoan creq w).2.run reqs).loans,
      l.AgreementLetterURL ≠ none → l.State = StateInvested ∨ l.State = StateDisbursed) := by
  have h1 : (World.useCase.CreateLoan creq w).2.AgreementOnlyWhenFunded := by
    intro l hl hne
    rcases createLoan_effect creq w with ⟨h, -⟩ | ⟨id, now, h, -⟩
    · rw [h] at hl
      exact hinv l hl hne
    · rw [h, List.mem_append, List.mem_singleton] at hl
      rcases hl with hl | rfl
      · exact hinv l hl hne
      · exact absurd rfl hne
  have h2 := run_agreementOnly reqs _ h1
  refine ⟨fun l hl hs => ?_, h2⟩
  by_contra hne
  rcases h2 l hl hne with h | h <;> rcases hs with hs | hs <;> rw [hs] at h <;>
    exact absurd h (by decide)

set_option maxRecDepth 8000 in
/-- The claim C24 on the life of the example loan: created, approved, funded,
disbursed. At the end the stored loan is disbursed and has its agreement
reference. -/
theorem C24_agreement_only_when_funded_witness :
    ((World.useCase.CreateLoan Example.createRequest Example.blank).2.run
        Example.lifecycle).loans.map (fun l => (l.State, l.AgreementLetterURL))
      = [(StateDisbursed, some ("http://localhost:8080/files" ++ "/" ++
          agreementPath (UUID.ofNat 1)))] ∧
    (∀ l ∈ ((World.useCase.CreateLoan Example.createRequest Example.blank).2.run
        Example.lifecycle).loans,
      l.State = StateProposed ∨ l.State = StateApproved → l.AgreementLetterURL = none) ∧
    (∀ l ∈ ((World.useCase.CreateLoan Example.createRequest Example.blank).2.run
        Example.lifecycle).loans,
      l.AgreementLetterURL ≠ none → l.State = StateInvested ∨ l.State = StateDisbursed) :=
  ⟨by with_unfolding_all rfl,
    C24_agreement_only_when_funded Example.blank (fun l hl => absurd hl (List.not_mem_nil l))
      Example.createRequest Example.lifecycle⟩

/-! ## Theorems: the shapes of the call logs -/

section traces

theorem approveLoan_trace (uc : LoanUseCase σ) (req : ApproveLoanRequest) (s : σ)
    (log : List Event) :
    ∃ body, (traced uc).ApproveLoan req (s, log)
        = ((uc.ApproveLoan req s).1, ((uc.ApproveLoan req s).2, log ++ body)) ∧
      ApproveTrace req (uc.ApproveLoan req s).1 body := by
  rcases h1 : uc.redisClient.CheckIdempotencyKey
    (approveKey req.LoanID req.IdempotencyKey) s with ⟨⟨b1, e1⟩, s1⟩
  cases b1 with
  | true =>
    simp only [LoanUseCase.ApproveLoan, traced_checkIdempotencyKey, logged_eq _ _ _ _ _ _ _ h1, h1]
    exact ⟨_, rfl, .duplicate _⟩
  | false =>
  rcases h2 : uc.loanRepo.GetByID req.LoanID s1 with ⟨r2, s2⟩
  cases r2 with
  | error err =>
    simp only [LoanUseCase.ApproveLoan, traced_checkIdempotencyKey, traced_loanGetByID,
      logged_eq _ _ _ _ _ _ _ h1, h1, logged_eq _ _ _ _ _ _ _ h2, h2, List.append_assoc,
      List.cons_append, List.nil_append, resNil]
    exact ⟨_, rfl, .notFound _ _⟩
  | ok loan =>
  cases h3 : loan.CanTransitionTo StateApproved with
  | some err =>
    simp only [LoanUseCase.ApproveLoan, traced_checkIdempotencyKey, traced_loanGetByID,
      logged_eq _ _ _ _ _ _ _ h1, h1, logged_eq _ _ _ _ _ _ _ h2, h2, h3, List.append_assoc,
      List.cons_append, List.nil_append, resNil]
    exact ⟨_, rfl, .illegal _ _⟩
  | none =>
  rcases h4 : uc.fileStorage.Store req.PictureProof req.PictureProofFilename s2 with ⟨r4, s4⟩
  cases r4 with
  | error err =>
    simp only [LoanUseCase.ApproveLoan, traced_checkIdempotencyKey, traced_loanGetByID,
      traced_fileStore, logged_eq _ _ _ _ _ _ _ h1, h1, logged_eq _ _ _ _ _ _ _ h2, h2, h3,
      logged_eq _ _ _ _ _ _ _ h4, h4, List.append_assoc, List.cons_append, List.nil_append, resNil]
    exact ⟨_, rfl, .storeFails _ _⟩
  | ok path =>
  rcases h5 : uc.fileStorage.GetURL path s4 with ⟨url, s5⟩
  rcases h6 : uc.runtime.Now s5 with ⟨t6, s6⟩
  rcases h7 : uc.runtime.Now s6 with ⟨t7, s7⟩
  rcases h8 : uc.loanRepo.Update { loan with State := StateApproved, UpdatedAt := t7 } s7
    with ⟨r8, s8⟩
  cases r8 with
  | some err =>
    simp only [LoanUseCase.ApproveLoan, traced_checkIdempotencyKey, traced_loanGetByID,
      traced_fileStore, traced_fileGetURL, traced_now, traced_loanUpdate,
      logged_eq _ _ _ _ _ _ _ h1, h1, logged_eq _ _ _ _ _ _ _ h2, h2, h3,
      logged_eq _ _ _ _ _ _ _ h4, h4, logged_eq _ _ _ _ _ _ _ h5, h5, h6, h7,
      transitionTo_of_none _ h3, logged_eq _ _ _ _ _ _ _ h8, h8, List.append_assoc,
      List.cons_append, List.nil_append, resNil, errNil, Option.isNone_some]
    exact ⟨_, rfl, .updateFails _ _ _ _⟩
  | none =>
  rcases h9 : uc.approvalRepo.Create
    { LoanID := req.LoanID, EmployeeID := req.EmployeeID, PictureProof := url,
      ApprovalDate := req.ApprovalDate, CreatedAt := t6 } s8 with ⟨r9, s9⟩
  cases r9 with
  | some err =>
    simp only [LoanUseCase.ApproveLoan, traced_checkIdempotencyKey, traced_loanGetByID,
      traced_fileStore, traced_fileGetURL, traced_now, traced_loanUpdate,
      traced_approvalCreate,
      logged_eq _ _ _ _ _ _ _ h1, h1, logged_eq _ _ _ _ _ _ _ h2, h2, h3,
      logged_eq _ _ _ _ _ _ _ h4, h4, logged_eq _ _ _ _ _ _ _ h5, h5, h6, h7,
      transitionTo_of_none _ h3, logged_eq _ _ _ _ _ _ _ h8, h8, logged_eq _ _ _ _ _ _ _ h9, h9,
      List.append_assoc, List.cons_append, List.nil_append, resNil, errNil,
      Option.isNone_some, Option.isNone_none]
    exact ⟨_, rfl, .insertFails _ _ _ _ _⟩
  | none =>
    rcases h10 : uc.redisClient.SetIdempotencyKey (approveKey req.LoanID req.IdempotencyKey)
      "approved" (24 * Hour) s9 with ⟨r10, s10⟩
    simp only [LoanUseCase.ApproveLoan, traced_checkIdempotencyKey, traced_loanGetByID,
      traced_fileStore, traced_fileGetURL, traced_now, traced_loanUpdate,
      traced_approvalCreate, traced_setIdempotencyKey,
      logged_eq _ _ _ _ _ _ _ h1, h1, logged_eq _ _ _ _ _ _ _ h2, h2, h3,
      logged_eq _ _ _ _ _ _ _ h4, h4, logged_eq _ _ _ _ _ _ _ h5, h5, h6, h7,
      transitionTo_of_none _ h3, logged_eq _ _ _ _ _ _ _ h8, h8, logged_eq _ _ _ _ _ _ _ h9, h9,
      logged_eq _ _ _ _ _ _ _ h10, h10,
      List.append_assoc, List.cons_append, List.nil_append, resNil, errNil,
      Option.isNone_none]
    exact ⟨_, rfl, .done _ _ _ _ _⟩

theorem disburseLoan_trace (uc : LoanUseCase σ) (req : DisburseLoanRequest) (s : σ)
    (log : List Event) :
    ∃ body, (traced uc).DisburseLoan req (s, log)
        = ((uc.DisburseLoan req s).1, ((uc.DisburseLoan req s).2, log ++ body)) ∧
      DisburseTrace req (uc.DisburseLoan req s).1 body := by
  rcases h1 : uc.redisClient.CheckIdempotencyKey
    (disburseKey req.LoanID req.IdempotencyKey) s with ⟨⟨b1, e1⟩, s1⟩
  cases b1 with
  | true =>
    simp only [LoanUseCase.DisburseLoan, traced_checkIdempotencyKey, logged_eq _ _ _ _ _ _ _ h1, h1]
    exact ⟨_, rfl, .duplicate _⟩
  | false =>
  rcases h2 : uc.loanRepo.GetByID req.LoanID s1 with ⟨r2, s2⟩
  cases r2 with
  | error err =>
    simp only [LoanUseCase.DisburseLoan, traced_checkIdempotencyKey, traced_loanGetByID,
      logged_eq _ _ _ _ _ _ _ h1, h1, logged_eq _ _ _ _ _ _ _ h2, h2, List.append_assoc,
      List.cons_append, List.nil_append, resNil]
    exact ⟨_, rfl, .notFound _ _⟩
  | ok loan =>
  cases h3 : loan.CanTransitionTo StateDisbursed with
  | some err =>
    simp only [LoanUseCase.DisburseLoan, traced_checkIdempotencyKey, traced_loanGetByID,
      logged_eq _ _ _ _ _ _ _ h1, h1, logged_eq _ _ _ _ _ _ _ h2, h2, h3, List.append_assoc,
      List.cons_append, List.nil_append, resNil]
    exact ⟨_, rfl, .illegal _ _⟩
  | none =>
  rcases h4 : uc.fileStorage.Store req.SignedAgreement req.SignedAgreementFilename s2 with ⟨r4, s4⟩
  cases r4 with
  | error err =>
    simp only [LoanUseCase.DisburseLoan, traced_checkIdempotencyKey, traced_loanGetByID,
      traced_fileStore, logged_eq _ _ _ _ _ _ _ h1, h1, logged_eq _ _ _ _ _ _ _ h2, h2, h3,
      logged_eq _ _ _ _ _ _ _ h4, h4, List.append_assoc, List.cons_append, List.nil_append, resNil]
    exact ⟨_, rfl, .storeFails _ _⟩
  | ok path =>
  rcases h5 : uc.fileStorage.GetURL path s4 with ⟨url, s5⟩
  rcases h6 : uc.runtime.Now s5 with ⟨t6, s6⟩
  rcases h7 : uc.runtime.Now s6 with ⟨t7, s7⟩
  rcases h8 : uc.loanRepo.Update { loan with State := StateDisbursed, UpdatedAt := t7 } s7
    with ⟨r8, s8⟩
  cases r8 with
  | some err =>
    simp only [LoanUseCase.DisburseLoan, traced_checkIdempotencyKey, traced_loanGetByID,
      traced_fileStore, traced_fileGetURL, traced_now, traced_loanUpdate,
      logged_eq _ _ _ _ _ _ _ h1, h1, logged_eq _ _ _ _ _ _ _ h2, h2, h3,
      logged_eq _ _ _ _ _ _ _ h4, h4, logged_eq _ _ _ _ _ _ _ h5, h5, h6, h7,
      transitionTo_of_none _ h3, logged_eq _ _ _ _ _ _ _ h8, h8, List.append_assoc,
      List.cons_append, List.nil_append, resNil, errNil, Option.isNone_some]
    exact ⟨_, rfl, .updateFails _ _ _ _⟩
  | none =>
  rcases h9 : uc.disbursementRepo.Create
    { LoanID := req.LoanID, EmployeeID := req.EmployeeID, SignedAgreementURL := url,
      DisbursementDate := req.DisbursementDate, CreatedAt := t6 } s8 with ⟨r9, s9⟩
  cases r9 with
  | some err =>
    simp only [LoanUseCase.DisburseLoan, traced_checkIdempotencyKey, traced_loanGetByID,
      traced_fileStore, traced_fileGetURL, traced_now, traced_loanUpdate,
      traced_disbursementCreate,
      logged_eq _ _ _ _ _ _ _ h1, h1, logged_eq _ _ _ _ _ _ _ h2, h2, h3,
      logged_eq _ _ _ _ _ _ _ h4, h4, logged_eq _ _ _ _ _ _ _ h5, h5, h6, h7,
      transitionTo_of_none _ h3, logged_eq _ _ _ _ _ _ _ h8, h8, logged_eq _ _ _ _ _ _ _ h9, h9,
      List.append_assoc, List.cons_append, List.nil_append, resNil, errNil,
      Option.isNone_some, Option.isNone_none]
    exact ⟨_, rfl, .insertFails _ _ _ _ _⟩
  | none =>
    rcases h10 : uc.redisClient.SetIdempotencyKey (disburseKey req.LoanID req.IdempotencyKey)
      "disbursed" (24 * Hour) s9 with ⟨r10, s10⟩
    simp only [LoanUseCase.DisburseLoan, traced_checkIdempotencyKey, traced_loanGetByID,
      traced_fileStore, traced_fileGetURL, traced_now, traced_loanUpdate,
      traced_disbursementCreate, traced_setIdempotencyKey,
      logged_eq _ _ _ _ _ _ _ h1, h1, logged_eq _ _ _ _ _ _ _ h2, h2, h3,
      logged_eq _ _ _ _ _ _ _ h4, h4, logged_eq _ _ _ _ _ _ _ h5, h5, h6, h7,
      transitionTo_of_none _ h3, logged_eq _ _ _ _ _ _ _ h8, h8, logged_eq _ _ _ _ _ _ _ h9, h9,
      logged_eq _ _ _ _ _ _ _ h10, h10,
      List.append_assoc, List.cons_append, List.nil_append, resNil, errNil,
      Option.isNone_none]
    exact ⟨_, rfl, .done _ _ _ _ _⟩

/-- The state the notification loop leaves is the same with and without the
log. -/
theorem notifyInvestors_erase (uc : LoanUseCase σ) (url : String) :
    ∀ (invs : List Investment) (s : σ) (log : List Event),
      ((traced uc).notifyInvestors url invs (s, log)).1 = uc.notifyInvestors url invs s := by
  intro invs
  induction invs with
  | nil => intro s log; rfl
  | cons inv rest ih =>
    intro s log
    rcases h1 : uc.userRepo.GetByID inv.InvestorID s with ⟨r, s1⟩
    cases r with
    | error err =>
      simp only [LoanUseCase.notifyInvestors, traced_userGetByID, logged_eq _ _ _ _ _ _ _ h1, h1]
      exact ih _ _
    | ok user =>
      rcases h2 : uc.emailService.SendAgreementEmail user.Email url s1 with ⟨e, s2⟩
      simp only [LoanUseCase.notifyInvestors, traced_userGetByID, traced_sendAgreementEmail,
        logged_eq _ _ _ _ _ _ _ h1, h1, logged_eq _ _ _ _ _ _ _ h2, h2]
      exact ih _ _

theorem investLocked_trace (uc : LoanUseCase σ) (req : InvestRequest) (s : σ)
    (log : List Event) :
    ∃ body, (traced uc).investLocked req (s, log)
        = ((uc.investLocked req s).1, ((uc.investLocked req s).2, log ++ body)) ∧
      LockedTrace req (uc.investLocked req s).1 body := by
  rcases h1 : uc.redisClient.CheckIdempotencyKey
    (investKey req.LoanID req.InvestorID req.IdempotencyKey) s with ⟨⟨b1, e1⟩, s1⟩
  cases b1 with
  | true =>
    simp only [LoanUseCase.investLocked, traced_checkIdempotencyKey,
      logged_eq _ _ _ _ _ _ _ h1, h1]
    exact ⟨_, rfl, .duplicate _⟩
  | false =>
  rcases h2 : uc.loanRepo.GetByID req.LoanID s1 with ⟨r2, s2⟩
  cases r2 with
  | error err =>
    simp only [LoanUseCase.investLocked, traced_checkIdempotencyKey, traced_loanGetByID,
      logged_eq _ _ _ _ _ _ _ h1, h1, logged_eq _ _ _ _ _ _ _ h2, h2, List.append_assoc, List.cons_append, List.nil_append, resNil, errNil,
      Option.isNone_some, Option.isNone_none]
    exact ⟨_, rfl, .notFound _ _⟩
  | ok loan =>
  by_cases hstate : loan.State = StateApproved
  swap
  · simp only [LoanUseCase.investLocked, traced_checkIdempotencyKey, traced_loanGetByID,
      logged_eq _ _ _ _ _ _ _ h1, h1, logged_eq _ _ _ _ _ _ _ h2, h2, ne_eq, hstate, not_false_eq_true, if_true, List.append_assoc, List.cons_append, List.nil_append, resNil, errNil,
      Option.isNone_some, Option.isNone_none]
    exact ⟨_, rfl, .notApproved _⟩
  have hcan := can_invest_of_approved hstate
  rcases h3 : uc.investmentRepo.GetTotalByLoanID req.LoanID s2 with ⟨r3, s3⟩
  cases r3 with
  | error err =>
    simp only [LoanUseCase.investLocked, traced_checkIdempotencyKey, traced_loanGetByID,
      logged_eq _ _ _ _ _ _ _ h1, h1, logged_eq _ _ _ _ _ _ _ h2, h2, ne_eq, hstate, not_true_eq_false, if_false,
      traced_investmentGetTotalByLoanID, logged_eq _ _ _ _ _ _ _ h3, h3, List.append_assoc, List.cons_append, List.nil_append, resNil, errNil,
      Option.isNone_some, Option.isNone_none]
    exact ⟨_, rfl, .totalFails _ _⟩
  | ok total =>
  cases hv : loan.ValidateInvestmentAmount req.Amount total with
  | some err =>
    simp only [LoanUseCase.investLocked, traced_checkIdempotencyKey, traced_loanGetByID,
      logged_eq _ _ _ _ _ _ _ h1, h1, logged_eq _ _ _ _ _ _ _ h2, h2, ne_eq, hstate, not_true_eq_false, if_false,
      traced_investmentGetTotalByLoanID, logged_eq _ _ _ _ _ _ _ h3, h3, hv, List.append_assoc, List.cons_append, List.nil_append, resNil, errNil,
      Option.isNone_some, Option.isNone_none]
    exact ⟨_, rfl, .invalid _ _⟩
  | none =>
  rcases h4 : uc.runtime.NewUUID s3 with ⟨id, s4⟩
  rcases h5 : uc.runtime.Now s4 with ⟨t5, s5⟩
  rcases h6 : uc.investmentRepo.Create
    { ID := id, LoanID := req.LoanID, InvestorID := req.InvestorID, Amount := req.Amount,
      CreatedAt := t5 } s5 with ⟨r6, s6⟩
  cases r6 with
  | some err =>
    simp only [LoanUseCase.investLocked, traced_checkIdempotencyKey, traced_loanGetByID,
      logged_eq _ _ _ _ _ _ _ h1, h1, logged_eq _ _ _ _ _ _ _ h2, h2, ne_eq, hstate, not_true_eq_false, if_false,
      traced_investmentGetTotalByLoanID, logged_eq _ _ _ _ _ _ _ h3, h3, hv, traced_newUUID,
      traced_now, h4, h5, traced_investmentCreate, logged_eq _ _ _ _ _ _ _ h6, h6, List.append_assoc, List.cons_append, List.nil_append, resNil, errNil,
      Option.isNone_some, Option.isNone_none]
    exact ⟨_, rfl, .insertFails _ _ _⟩
  | none =>
  by_cases hfull : loan.IsFullyInvested (total + req.Amount) = true
  swap
  · rcases h12 : uc.redisClient.SetIdempotencyKey
      (investKey req.LoanID req.InvestorID req.IdempotencyKey) "invested" (24 * Hour) s6
      with ⟨r12, s12⟩
    simp only [LoanUseCase.investLocked, traced_checkIdempotencyKey, traced_loanGetByID,
      logged_eq _ _ _ _ _ _ _ h1, h1, logged_eq _ _ _ _ _ _ _ h2, h2, ne_eq, hstate, not_true_eq_false, if_false,
      traced_investmentGetTotalByLoanID, logged_eq _ _ _ _ _ _ _ h3, h3, hv, traced_newUUID,
      traced_now, h4, h5, traced_investmentCreate, logged_eq _ _ _ _ _ _ _ h6, h6,
      Bool.not_eq_true _ ▸ hfull, Bool.false_eq_true,
      traced_setIdempotencyKey, logged_eq _ _ _ _ _ _ _ h12, h12, List.append_assoc, List.cons_append, List.nil_append, resNil, errNil,
      Option.isNone_some, Option.isNone_none]
    exact ⟨_, rfl, .partly _ _ _⟩
  rcases h7 : uc.runtime.Now s6 with ⟨t7, s7⟩
  rcases h8 : uc.loanRepo.Update { loan with State := StateInvested, UpdatedAt := t7 } s7
    with ⟨r8, s8⟩
  cases r8 with
  | some err =>
    simp only [LoanUseCase.investLocked, traced_checkIdempotencyKey, traced_loanGetByID,
      logged_eq _ _ _ _ _ _ _ h1, h1, logged_eq _ _ _ _ _ _ _ h2, h2, ne_eq, hstate, not_true_eq_false, if_false,
      traced_investmentGetTotalByLoanID, logged_eq _ _ _ _ _ _ _ h3, h3, hv, traced_newUUID,
      traced_now, h4, h5, traced_investmentCreate, logged_eq _ _ _ _ _ _ _ h6, h6, hfull,
      if_true, LoanUseCase.investFullyFunded, h7, transitionTo_of_none _ hcan,
      traced_loanUpdate, logged_eq _ _ _ _ _ _ _ h8, h8, List.append_assoc, List.cons_append, List.nil_append, resNil, errNil,
      Option.isNone_some, Option.isNone_none]
    exact ⟨_, rfl, .firstUpdateFails _ _ _ _⟩
  | none =>
  rcases h9 : uc.fileStorage.GetURL (agreementPath req.LoanID) s8 with ⟨url, s9⟩
  rcases h10 : uc.loanRepo.Update
    { loan with State := StateInvested, UpdatedAt := t7, AgreementLetterURL := some url } s9
    with ⟨r10, s10⟩
  cases r10 with
  | some err =>
    simp only [LoanUseCase.investLocked, traced_checkIdempotencyKey, traced_loanGetByID,
      logged_eq _ _ _ _ _ _ _ h1, h1, logged_eq _ _ _ _ _ _ _ h2, h2, ne_eq, hstate, not_true_eq_false, if_false,
      traced_investmentGetTotalByLoanID, logged_eq _ _ _ _ _ _ _ h3, h3, hv, traced_newUUID,
      traced_now, h4, h5, traced_investmentCreate, logged_eq _ _ _ _ _ _ _ h6, h6, hfull,
      if_true, LoanUseCase.investFullyFunded, h7, transitionTo_of_none _ hcan,
      traced_loanUpdate, logged_eq _ _ _ _ _ _ _ h8, h8, traced_fileGetURL,
      logged_eq _ _ _ _ _ _ _ h9, h9, logged_eq _ _ _ _ _ _ _ h10, h10, List.append_assoc, List.cons_append, List.nil_append, resNil, errNil,
      Option.isNone_some, Option.isNone_none]
    exact ⟨_, rfl, .secondUpdateFails _ _ _ _ _⟩
  | none =>
  rcases h11 : uc.investmentRepo.GetByLoanID req.LoanID s10 with ⟨r11, s11⟩
  cases r11 with
  | error err =>
    rcases h12 : uc.redisClient.SetIdempotencyKey
      (investKey req.LoanID req.InvestorID req.IdempotencyKey) "invested" (24 * Hour) s11
      with ⟨r12, s12⟩
    simp only [LoanUseCase.investLocked, traced_checkIdempotencyKey, traced_loanGetByID,
      logged_eq _ _ _ _ _ _ _ h1, h1, logged_eq _ _ _ _ _ _ _ h2, h2, ne_eq, hstate, not_true_eq_false, if_false,
      traced_investmentGetTotalByLoanID, logged_eq _ _ _ _ _ _ _ h3, h3, hv, traced_newUUID,
      traced_now, h4, h5, traced_investmentCreate, logged_eq _ _ _ _ _ _ _ h6, h6, hfull,
      if_true, LoanUseCase.investFullyFunded, h7, transitionTo_of_none _ hcan,
      traced_loanUpdate, logged_eq _ _ _ _ _ _ _ h8, h8, traced_fileGetURL,
      logged_eq _ _ _ _ _ _ _ h9, h9, logged_eq _ _ _ _ _ _ _ h10, h10,
      traced_investmentGetByLoanID, logged_eq _ _ _ _ _ _ _ h11, h11,
      traced_setIdempotencyKey, logged_eq _ _ _ _ _ _ _ h12, h12, List.append_assoc, List.cons_append, List.nil_append, resNil, errNil,
      Option.isNone_some, Option.isNone_none]
    exact ⟨_, rfl, .rowsFail _ _ _ _ _⟩
  | ok invs =>
    have key : ∀ {L : List Event} {N : σ × List Event},
        (traced uc).notifyInvestors url invs (s11, L) = N →
        ∃ outcomes : List (Except GoError User × Bool),
          N = (uc.notifyInvestors url invs s11, L ++ attempts url invs outcomes) := by
      intro L N hN
      subst hN
      obtain ⟨os, -, h⟩ := notifyInvestors_attempts uc url invs s11 L
      exact ⟨os, Prod.ext (notifyInvestors_erase uc url invs s11 L) h⟩
    simp only [LoanUseCase.investLocked, traced_checkIdempotencyKey, traced_loanGetByID,
      logged_eq _ _ _ _ _ _ _ h1, h1, logged_eq _ _ _ _ _ _ _ h2, h2, ne_eq, hstate, not_true_eq_false, if_false,
      traced_investmentGetTotalByLoanID, logged_eq _ _ _ _ _ _ _ h3, h3, hv, traced_newUUID,
      traced_now, h4, h5, traced_investmentCreate, logged_eq _ _ _ _ _ _ _ h6, h6, hfull,
      if_true, LoanUseCase.investFullyFunded, h7, transitionTo_of_none _ hcan,
      traced_loanUpdate, logged_eq _ _ _ _ _ _ _ h8, h8, traced_fileGetURL,
      logged_eq _ _ _ _ _ _ _ h9, h9, logged_eq _ _ _ _ _ _ _ h10, h10,
      traced_investmentGetByLoanID, logged_eq _ _ _ _ _ _ _ h11, h11,
      traced_setIdempotencyKey]
    generalize hN : (traced uc).notifyInvestors url invs _ = N
    obtain ⟨outcomes, hlog⟩ := key hN
    subst hlog
    simp only [logged, List.append_assoc, List.cons_append, List.nil_append, resNil, errNil,
      Option.isNone_some, Option.isNone_none]
    exact ⟨_, rfl, .notified _ _ _ _ url invs outcomes _⟩

theorem invest_trace (uc : LoanUseCase σ) (req : InvestRequest) (s : σ) (log : List Event) :
    ∃ body, (traced uc).Invest req (s, log)
        = ((uc.Invest req s).1, ((uc.Invest req s).2, log ++ body)) ∧
      InvestTrace req (uc.Invest req s).1 body := by
  rcases h1 : uc.redisClient.AcquireLock (investLockKey req.LoanID) (30 * Second) s
    with ⟨⟨b, e⟩, s1⟩
  cases e with
  | some err =>
    simp only [LoanUseCase.Invest, traced_acquireLock, logged_eq _ _ _ _ _ _ _ h1, h1, errNil,
      Option.isNone_some]
    exact ⟨_, rfl, .lockFails _⟩
  | none =>
  cases b with
  | false =>
    simp only [LoanUseCase.Invest, traced_acquireLock, logged_eq _ _ _ _ _ _ _ h1, h1, errNil,
      Option.isNone_none]
    exact ⟨_, rfl, .lockBusy⟩
  | true =>
    simp only [LoanUseCase.Invest, traced_acquireLock, logged_eq _ _ _ _ _ _ _ h1, h1, errNil,
      Option.isNone_none, traced_releaseLock]
    obtain ⟨body, hbody, htrace⟩ := investLocked_trace uc req s1
      (log ++ [{ call := .AcquireLock (investLockKey req.LoanID) (30 * Second), ok := true }])
    rw [hbody]
    simp only [logged, List.append_assoc, List.cons_append, List.nil_append]
    exact ⟨_, rfl, .locked _ _ _ htrace⟩

end traces

/-! ## Theorems: which failures abort a call -/

section aborts

/-- In a list cut at an entry with property `P`, when the list is also
`good ++ e0 :: tail` with no entry of `good` or `tail` having `P`, the cut is at
`e0`. -/
theorem split_unique {P : Event → Prop} {pre post good tail : List Event} {e e0 : Event}
    (h : good ++ e0 :: tail = pre ++ e :: post) (hP : P e)
    (hgood : ∀ x ∈ good, ¬ P x) (htail : ∀ x ∈ tail, ¬ P x) :
    pre = good ∧ e = e0 ∧ post = tail := by
  rcases List.append_eq_append_iff.1 h with ⟨a, h1, h2⟩ | ⟨c, h1, h2⟩
  · cases a with
    | nil =>
      simp only [List.nil_append, List.cons.injEq] at h2
      exact ⟨by simpa using h1, h2.1.symm, h2.2.symm⟩
    | cons x a =>
      simp only [List.cons_append, List.cons.injEq] at h2
      exact absurd hP (htail e (by rw [h2.2]; simp))
  · cases c with
    | nil =>
      simp only [List.nil_append, List.cons.injEq] at h2
      exact ⟨by simpa using h1.symm, h2.1, h2.2⟩
    | cons x c =>
      simp only [List.cons_append, List.cons.injEq] at h2
      exact absurd hP (hgood e (by rw [h1]; simp [h2.1]))

theorem bestEffort_of_release {c : Call} (h : c.isReleaseLock = true) :
    c.isBestEffort = true := by
  cases c <;> simp_all [Call.isReleaseLock, Call.isBestEffort]

theorem failStops_clean {r : Option GoError} {body : List Event}
    (h : ∀ x ∈ body, x.ok = true ∨ x.call.isBestEffort = true) : FailStops r body := by
  intro pre e post hb hok hbe
  have he : e ∈ body := by rw [hb]; simp
  rcases h e he with h' | h'
  · rw [h'] at hok; cases hok
  · rw [h'] at hbe; cases hbe

theorem failStops_last {r : Option GoError} (good : List Event) (e0 : Event)
    (tail : List Event) (hr : r ≠ none)
    (hgood : ∀ x ∈ good, x.ok = true ∨ x.call.isBestEffort = true)
    (htail : ∀ x ∈ tail, x.call.isReleaseLock = true) :
    FailStops r (good ++ e0 :: tail) := by
  intro pre e post hb hok hbe
  have h := split_unique (P := fun x => x.ok = false ∧ x.call.isBestEffort = false) hb
    ⟨hok, hbe⟩
    (fun x hx hP => by
      rcases hgood x hx with h' | h'
      · exact absurd (h'.symm.trans hP.1) (by decide)
      · exact absurd (h'.symm.trans hP.2) (by decide))
    (fun x hx hP =>
      absurd ((bestEffort_of_release (htail x hx)).symm.trans hP.2) (by decide))
  exact ⟨hr, by rw [h.2.2]; exact htail⟩

theorem attempts_bestEffort (url : String) :
    ∀ (invs : List Investment) (outcomes : List (Except GoError User × Bool)),
      ∀ x ∈ attempts url invs outcomes, x.call.isBestEffort = true := by
  intro invs
  induction invs with
  | nil => intro outcomes x hx; simp [attempts] at hx
  | cons inv rest ih =>
    intro outcomes x hx
    cases outcomes with
    | nil => simp [attempts] at hx
    | cons o os =>
      simp only [attempts, List.mem_append] at hx
      rcases hx with hx | hx
      · rcases o with ⟨lookup, sent⟩
        cases lookup <;> simp only [rowAttempt, List.mem_cons, List.mem_singleton,
          List.not_mem_nil, or_false] at hx
        · subst hx; rfl
        · rcases hx with rfl | rfl <;> rfl
      · exact ih os x hx

theorem approve_failStops {req : ApproveLoanRequest} {r : Option GoError} {body : List Event}
    (h : ApproveTrace req r body) : FailStops r body := by
  cases h with
  | duplicate c => exact failStops_clean (by simp [Call.isBestEffort])
  | notFound c err => exact failStops_last [_] _ [] (by simp) (by simp [Call.isBestEffort]) (by simp)
  | illegal c err => exact failStops_clean (by simp [Call.isBestEffort])
  | storeFails c err =>
    exact failStops_last [_, _] _ [] (by simp) (by simp [Call.isBestEffort]) (by simp)
  | updateFails c path loan err =>
    exact failStops_last [_, _, _, _] _ [] (by simp) (by simp [Call.isBestEffort]) (by simp)
  | insertFails c path loan a err =>
    exact failStops_last [_, _, _, _, _] _ [] (by simp) (by simp [Call.isBestEffort]) (by simp)
  | done c path loan a m => exact failStops_clean (by simp [Call.isBestEffort])

theorem disburse_failStops {req : DisburseLoanRequest} {r : Option GoError}
    {body : List Event} (h : DisburseTrace req r body) : FailStops r body := by
  cases h with
  | duplicate c => exact failStops_clean (by simp [Call.isBestEffort])
  | notFound c err => exact failStops_last [_] _ [] (by simp) (by simp [Call.isBestEffort]) (by simp)
  | illegal c err => exact failStops_clean (by simp [Call.isBestEffort])
  | storeFails c err =>
    exact failStops_last [_, _] _ [] (by simp) (by simp [Call.isBestEffort]) (by simp)
  | updateFails c path loan err =>
    exact failStops_last [_, _, _, _] _ [] (by simp) (by simp [Call.isBestEffort]) (by simp)
  | insertFails c path loan a err =>
    exact failStops_last [_, _, _, _, _] _ [] (by simp) (by simp [Call.isBestEffort]) (by simp)
  | done c path loan a m => exact failStops_clean (by simp [Call.isBestEffort])

theorem invest_failStops {req : InvestRequest} {r : Option GoError} {body : List Event}
    (h : InvestTrace req r body) : FailStops r body := by
  cases h with
  | lockFails err => exact failStops_last [] _ [] (by simp) (by simp) (by simp)
  | lockBusy => exact failStops_clean (by simp)
  | locked r body k h =>
    cases h with
    | duplicate c => exact failStops_clean (by simp [Call.isBestEffort])
    | notFound c err =>
      exact failStops_last [_, _] _ [_] (by simp) (by simp [Call.isBestEffort])
        (by simp [Call.isReleaseLock])
    | notApproved c => exact failStops_clean (by simp [Call.isBestEffort])
    | totalFails c err =>
      exact failStops_last [_, _, _] _ [_] (by simp) (by simp [Call.isBestEffort])
        (by simp [Call.isReleaseLock])
    | invalid c err => exact failStops_clean (by simp [Call.isBestEffort])
    | insertFails c inv err =>
      exact failStops_last [_, _, _, _] _ [_] (by simp) (by simp [Call.isBestEffort])
        (by simp [Call.isReleaseLock])
    | partly c inv m => exact failStops_clean (by simp [Call.isBestEffort])
    | firstUpdateFails c inv loan err =>
      exact failStops_last [_, _, _, _, _] _ [_] (by simp) (by simp [Call.isBestEffort])
        (by simp [Call.isReleaseLock])
    | secondUpdateFails c inv loan withURL err =>
      exact failStops_last [_, _, _, _, _, _, _] _ [_] (by simp) (by simp [Call.isBestEffort])
        (by simp [Call.isReleaseLock])
    | rowsFail c inv loan withURL m => exact failStops_clean (by simp [Call.isBestEffort])
    | notified c inv loan withURL url invs outcomes m =>
      apply failStops_clean
      have ha := attempts_bestEffort url invs outcomes
      intro x hx
      simp only [List.mem_cons, List.mem_append, List.mem_singleton, List.not_mem_nil,
        or_false, List.cons_append, List.nil_append] at hx
      rcases hx with rfl | rfl | rfl | rfl | rfl | rfl | rfl | rfl | rfl | (hx | rfl) | rfl
      all_goals first
        | exact Or.inl rfl
        | exact Or.inr rfl
        | exact Or.inr (ha _ hx)

end aborts

/-- Counterexample to C21 as stated: the idempotency check of `ApproveLoan`
returns an error, the call goes on, stores the loan as approved with its
approval record and returns nil. -/
theorem C21_counterexample :
    (World.useCase.redisClient.CheckIdempotencyKey
        (approveKey Example.approveRequest.LoanID Example.approveRequest.IdempotencyKey)
        Example.checkFails).1 = (false, some errInjected) ∧
    ((traced World.useCase).ApproveLoan Example.approveRequest (Example.checkFails, [])).1
      = none ∧
    ((traced World.useCase).ApproveLoan Example.approveRequest
        (Example.checkFails, [])).2.2.head?
      = some { call := .CheckIdempotencyKey
                 (approveKey Example.approveRequest.LoanID
                   Example.approveRequest.IdempotencyKey),
               ok := false } ∧
    ((traced World.useCase).ApproveLoan Example.approveRequest
        (Example.checkFails, [])).2.1.loans.map Loan.State = [StateApproved] ∧
    (((traced World.useCase).ApproveLoan Example.approveRequest
        (Example.checkFails, [])).2.1.approvalsOf (UUID.ofNat 1)).length = 1 :=
  ⟨rfl, rfl, rfl, rfl, rfl⟩

/-- C21, amended: for any collaborators, each of `ApproveLoan`, `Invest` and
`DisburseLoan` stops at the first failed call whose error it does not discard.
Whenever a call made during the use case fails and is not the idempotency
check, the marker commit, the lock release or a call of the notification step
(rows query, user lookup, send), the use case returns an error and makes no
further call, apart from the deferred lock release of `Invest`. -/
theorem C21_fatal_errors_abort (uc : LoanUseCase σ) (s : σ) (log : List Event) :
    (∀ req : ApproveLoanRequest, ∃ body,
      (traced uc).ApproveLoan req (s, log)
        = ((uc.ApproveLoan req s).1, ((uc.ApproveLoan req s).2, log ++ body)) ∧
      FailStops (uc.ApproveLoan req s).1 body) ∧
    (∀ req : InvestRequest, ∃ body,
      (traced uc).Invest req (s, log)
        = ((uc.Invest req s).1, ((uc.Invest req s).2, log ++ body)) ∧
      FailStops (uc.Invest req s).1 body) ∧
    (∀ req : DisburseLoanRequest, ∃ body,
      (traced uc).DisburseLoan req (s, log)
        = ((uc.DisburseLoan req s).1, ((uc.DisburseLoan req s).2, log ++ body)) ∧
      FailStops (uc.DisburseLoan req s).1 body) := by
  refine ⟨fun req => ?_, fun req => ?_, fun req => ?_⟩
  · obtain ⟨body, h, ht⟩ := approveLoan_trace uc req s log
    exact ⟨body, h, approve_failStops ht⟩
  · obtain ⟨body, h, ht⟩ := invest_trace uc req s log
    exact ⟨body, h, invest_failStops ht⟩
  · obtain ⟨body, h, ht⟩ := disburseLoan_trace uc req s log
    exact ⟨body, h, disburse_failStops ht⟩

/-! ## Theorems: the marker is committed after the writes -/

section commits

theorem commit_cut {good tail pre post : List Event} {e0 e : Event}
    (hb : good ++ e0 :: tail = pre ++ e :: post)
    (he : e.call.isSetIdempotencyKey = true)
    (hgood : ∀ x ∈ good, x.call.isSetIdempotencyKey = false)
    (htail : ∀ x ∈ tail, x.call.isSetIdempotencyKey = false) :
    pre = good ∧ e = e0 ∧ post = tail :=
  split_unique (P := fun x => x.call.isSetIdempotencyKey = true) hb he
    (fun x hx hP => absurd ((hgood x hx).symm.trans hP) (by decide))
    (fun x hx hP => absurd ((htail x hx).symm.trans hP) (by decide))

theorem commits_none {r : Option GoError} {body : List Event}
    (h : ∀ x ∈ body, x.call.isSetIdempotencyKey = false) :
    CommitsAfterWrites r body ∧ UpdatesBeforeCommit body := by
  refine ⟨fun pre e post hb he => ?_, fun pre e post hb he => ?_⟩ <;>
    exact absurd ((h e (by rw [hb]; simp)).symm.trans he) (by decide)

theorem commits_absent {r : Option GoError} {body : List Event}
    (h : ∀ x ∈ body, x.call.isSetIdempotencyKey = false) :
    CommitsAfterWrites r body ∧ UpdatesBeforeCommit body ∧
      (r ≠ none → ∀ x ∈ body, x.call.isSetIdempotencyKey = false) :=
  ⟨(commits_none h).1, (commits_none (r := r) h).2, fun _ => h⟩

theorem commits_last (good : List Event) (e0 : Event) (tail : List Event)
    (hgood : ∀ x ∈ good, x.call.isSetIdempotencyKey = false)
    (htail : ∀ x ∈ tail, x.call.isSetIdempotencyKey = false)
    (hrel : ∀ x ∈ tail, x.call.isReleaseLock = true)
    (hwrites : ∀ x ∈ good, x.call.isWrite = true → x.ok = true)
    (hinsert : ∃ x ∈ good, x.call.isInsert = true ∧ x.ok = true) :
    CommitsAfterWrites none (good ++ e0 :: tail) := by
  intro pre e post hb he
  obtain ⟨h1, -, h3⟩ := commit_cut hb he hgood htail
  subst h1 h3
  exact ⟨rfl, hwrites, hinsert, hrel⟩

theorem updates_last (good : List Event) (e0 : Event) (tail : List Event)
    (hgood : ∀ x ∈ good, x.call.isSetIdempotencyKey = false)
    (htail : ∀ x ∈ tail, x.call.isSetIdempotencyKey = false)
    (hupdate : ∃ x ∈ good, x.call.isLoanUpdate = true ∧ x.ok = true) :
    UpdatesBeforeCommit (good ++ e0 :: tail) := by
  intro pre e post hb he
  obtain ⟨h1, -, -⟩ := commit_cut hb he hgood htail
  subst h1
  exact hupdate

theorem attempts_calls (url : String) :
    ∀ (invs : List Investment) (outcomes : List (Except GoError User × Bool)),
      ∀ x ∈ attempts url invs outcomes,
        x.call.isSetIdempotencyKey = false ∧ x.call.isWrite = false := by
  intro invs
  induction invs with
  | nil => intro outcomes x hx; simp [attempts] at hx
  | cons inv rest ih =>
    intro outcomes x hx
    cases outcomes with
    | nil => simp [attempts] at hx
    | cons o os =>
      simp only [attempts, List.mem_append] at hx
      rcases hx with hx | hx
      · rcases o with ⟨lookup, sent⟩
        cases lookup <;> simp only [rowAttempt, List.mem_cons, List.mem_singleton,
          List.not_mem_nil, or_false] at hx
        · subst hx; exact ⟨rfl, rfl⟩
        · rcases hx with rfl | rfl <;> exact ⟨rfl, rfl⟩
      · exact ih os x hx

theorem approve_commits {req : ApproveLoanRequest} {r : Option GoError} {body : List Event}
    (h : ApproveTrace req r body) :
    CommitsAfterWrites r body ∧ UpdatesBeforeCommit body ∧
      (r ≠ none → ∀ x ∈ body, x.call.isSetIdempotencyKey = false) := by
  cases h with
  | duplicate c =>
    exact commits_absent (by simp [Call.isSetIdempotencyKey])
  | notFound c err =>
    exact commits_absent (by simp [Call.isSetIdempotencyKey])
  | illegal c err =>
    exact commits_absent (by simp [Call.isSetIdempotencyKey])
  | storeFails c err =>
    exact commits_absent (by simp [Call.isSetIdempotencyKey])
  | updateFails c path loan err =>
    exact commits_absent (by simp [Call.isSetIdempotencyKey])
  | insertFails c path loan a err =>
    exact commits_absent (by simp [Call.isSetIdempotencyKey])
  | done c path loan a m =>
    exact ⟨commits_last [_, _, _, _, _, _] _ [] (by simp [Call.isSetIdempotencyKey]) (by simp)
        (by simp) (by simp [Call.isWrite, Call.isLoanUpdate, Call.isInsert])
        ⟨⟨.ApprovalCreate a, true⟩, by simp, rfl, rfl⟩,
      updates_last [_, _, _, _, _, _] _ [] (by simp [Call.isSetIdempotencyKey]) (by simp)
        ⟨⟨.LoanUpdate loan, true⟩, by simp, rfl, rfl⟩,
      fun h => absurd rfl h⟩

theorem disburse_commits {req : DisburseLoanRequest} {r : Option GoError} {body : List Event}
    (h : DisburseTrace req r body) :
    CommitsAfterWrites r body ∧ UpdatesBeforeCommit body ∧
      (r ≠ none → ∀ x ∈ body, x.call.isSetIdempotencyKey = false) := by
  cases h with
  | duplicate c =>
    exact commits_absent (by simp [Call.isSetIdempotencyKey])
  | notFound c err =>
    exact commits_absent (by simp [Call.isSetIdempotencyKey])
  | illegal c err =>
    exact commits_absent (by simp [Call.isSetIdempotencyKey])
  | storeFails c err =>
    exact commits_absent (by simp [Call.isSetIdempotencyKey])
  | updateFails c path loan err =>
    exact commits_absent (by simp [Call.isSetIdempotencyKey])
  | insertFails c path loan a err =>
    exact commits_absent (by simp [Call.isSetIdempotencyKey])
  | done c path loan a m =>
    exact ⟨commits_last [_, _, _, _, _, _] _ [] (by simp [Call.isSetIdempotencyKey]) (by simp)
        (by simp) (by simp [Call.isWrite, Call.isLoanUpdate, Call.isInsert])
        ⟨⟨.DisbursementCreate a, true⟩, by simp, rfl, rfl⟩,
      updates_last [_, _, _, _, _, _] _ [] (by simp [Call.isSetIdempotencyKey]) (by simp)
        ⟨⟨.LoanUpdate loan, true⟩, by simp, rfl, rfl⟩,
      fun h => absurd rfl h⟩

theorem locked_shape (a e0 rel : Event) (X : List Event) :
    a :: ((X ++ [e0]) ++ [rel]) = (a :: X) ++ e0 :: [rel] := by simp

theorem commits_locked (a e0 rel : Event) (X : List Event)
    (ha : a.call.isSetIdempotencyKey = false ∧ a.call.isWrite = false)
    (hrel : rel.call.isReleaseLock = true)
    (hX : ∀ x ∈ X, x.call.isSetIdempotencyKey = false)
    (hwrites : ∀ x ∈ X, x.call.isWrite = true → x.ok = true)
    (hinsert : ∃ x ∈ X, x.call.isInsert = true ∧ x.ok = true) :
    CommitsAfterWrites none (a :: ((X ++ [e0]) ++ [rel])) := by
  have hrel' : rel.call.isSetIdempotencyKey = false := by
    cases rel with
    | mk c ok => cases c <;> simp_all [Call.isReleaseLock, Call.isSetIdempotencyKey]
  rw [locked_shape]
  refine commits_last (a :: X) e0 [rel] ?_ ?_ ?_ ?_ ?_
  · intro x hx
    rcases List.mem_cons.1 hx with rfl | hx
    · exact ha.1
    · exact hX x hx
  · intro x hx
    rw [List.mem_singleton.1 hx]; exact hrel'
  · intro x hx
    rw [List.mem_singleton.1 hx]; exact hrel
  · intro x hx hw
    rcases List.mem_cons.1 hx with rfl | hx
    · exact absurd (ha.2.symm.trans hw) (by decide)
    · exact hwrites x hx hw
  · obtain ⟨x, hx, h⟩ := hinsert
    exact ⟨x, List.mem_cons_of_mem _ hx, h⟩

theorem invest_commits {req : InvestRequest} {r : Option GoError} {body : List Event}
    (h : InvestTrace req r body) :
    CommitsAfterWrites r body ∧
      (r ≠ none → ∀ x ∈ body, x.call.isSetIdempotencyKey = false) := by
  have absent : ∀ {r : Option GoError} {body : List Event},
      (∀ x ∈ body, x.call.isSetIdempotencyKey = false) →
      CommitsAfterWrites r body ∧
        (r ≠ none → ∀ x ∈ body, x.call.isSetIdempotencyKey = false) :=
    fun h => ⟨(commits_absent h).1, (commits_absent h).2.2⟩
  cases h with
  | lockFails err => exact absent (by simp [Call.isSetIdempotencyKey])
  | lockBusy => exact absent (by simp [Call.isSetIdempotencyKey])
  | locked r body k h =>
    cases h with
    | duplicate c => exact absent (by simp [Call.isSetIdempotencyKey])
    | notFound c err => exact absent (by simp [Call.isSetIdempotencyKey])
    | notApproved c => exact absent (by simp [Call.isSetIdempotencyKey])
    | totalFails c err => exact absent (by simp [Call.isSetIdempotencyKey])
    | invalid c err => exact absent (by simp [Call.isSetIdempotencyKey])
    | insertFails c inv err => exact absent (by simp [Call.isSetIdempotencyKey])
    | firstUpdateFails c inv loan err => exact absent (by simp [Call.isSetIdempotencyKey])
    | secondUpdateFails c inv loan withURL err =>
      exact absent (by simp [Call.isSetIdempotencyKey])
    | partly c inv m =>
      exact ⟨commits_locked _ _ _ [_, _, _, _] ⟨rfl, rfl⟩ rfl
          (by simp [Call.isSetIdempotencyKey])
          (by simp [Call.isWrite, Call.isLoanUpdate, Call.isInsert])
          ⟨⟨.InvestmentCreate inv, true⟩, by simp, rfl, rfl⟩,
        fun h => absurd rfl h⟩
    | rowsFail c inv loan withURL m =>
      exact ⟨commits_locked _ _ _ [_, _, _, _, _, _, _, _] ⟨rfl, rfl⟩ rfl
          (by simp [Call.isSetIdempotencyKey])
          (by simp [Call.isWrite, Call.isLoanUpdate, Call.isInsert])
          ⟨⟨.InvestmentCreate inv, true⟩, by simp, rfl, rfl⟩,
        fun h => absurd rfl h⟩
    | notified c inv loan withURL url invs outcomes m =>
      have ha := attempts_calls url invs outcomes
      refine ⟨commits_locked _ _ _ _ ⟨rfl, rfl⟩ rfl ?_ ?_
          ⟨⟨.InvestmentCreate inv, true⟩, by simp, rfl, rfl⟩,
        fun h => absurd rfl h⟩
      · intro x hx
        rcases List.mem_append.1 hx with h | h
        · clear hx; revert x; simp [Call.isSetIdempotencyKey]
        · exact (ha x h).1
      · intro x hx hw
        rcases List.mem_append.1 hx with h | h
        · simp only [List.mem_cons, List.mem_singleton, List.not_mem_nil, or_false] at h
          rcases h with rfl | rfl | rfl | rfl | rfl | rfl | rfl | rfl
          all_goals first
            | rfl
            | simp [Call.isWrite, Call.isLoanUpdate, Call.isInsert] at hw
        · exact absurd ((ha x h).2.symm.trans hw) (by decide)

end commits

/-- C26: for any collaborators and on every execution, a marker commit of
`ApproveLoan`, `Invest` or `DisburseLoan` comes after the writes of the call.
Whenever `SetIdempotencyKey` is called, the use case returns nil, every loan
update and record insert of the call was made before and returned nil, the
record insert is among them (and for `ApproveLoan` and `DisburseLoan` the loan
update too), and only the lock release follows. On every execution that returns
an error, `SetIdempotencyKey` is not called. -/
theorem C26_marker_after_writes (uc : LoanUseCase σ) (s : σ) (log : List Event) :
    (∀ req : ApproveLoanRequest, ∃ body,
      (traced uc).ApproveLoan req (s, log)
        = ((uc.ApproveLoan req s).1, ((uc.ApproveLoan req s).2, log ++ body)) ∧
      CommitsAfterWrites (uc.ApproveLoan req s).1 body ∧ UpdatesBeforeCommit body ∧
      ((uc.ApproveLoan req s).1 ≠ none → ∀ x ∈ body, x.call.isSetIdempotencyKey = false)) ∧
    (∀ req : InvestRequest, ∃ body,
      (traced uc).Invest req (s, log)
        = ((uc.Invest req s).1, ((uc.Invest req s).2, log ++ body)) ∧
      CommitsAfterWrites (uc.Invest req s).1 body ∧
      ((uc.Invest req s).1 ≠ none → ∀ x ∈ body, x.call.isSetIdempotencyKey = false)) ∧
    (∀ req : DisburseLoanRequest, ∃ body,
      (traced uc).DisburseLoan req (s, log)
        = ((uc.DisburseLoan req s).1, ((uc.DisburseLoan req s).2, log ++ body)) ∧
      CommitsAfterWrites (uc.DisburseLoan req s).1 body ∧ UpdatesBeforeCommit body ∧
      ((uc.DisburseLoan req s).1 ≠ none → ∀ x ∈ body, x.call.isSetIdempotencyKey = false)) := by
  refine ⟨fun req => ?_, fun req => ?_, fun req => ?_⟩
  · obtain ⟨body, h, ht⟩ := approveLoan_trace uc req s log
    exact ⟨body, h, approve_commits ht⟩
  · obtain ⟨body, h, ht⟩ := invest_trace uc req s log
    exact ⟨body, h, invest_commits ht⟩
  · obtain ⟨body, h, ht⟩ := disburseLoan_trace uc req s log
    exact ⟨body, h, disburse_commits ht⟩

/-! ## Theorems: a failed marker commit -/

/-- An entry of a list cuts it in two. -/
theorem cut_of_mem {body : List Event} {e : Event} (h : e ∈ body) :
    ∃ pre post, body = pre ++ e :: post :=
  List.append_of_mem h

/-- C22: on the in-memory collaborators, with any call failing, whenever the
marker commit of `ApproveLoan`, `Invest` or `DisburseLoan` is made and fails,
the use case returns nil and its durable writes are in the tables it leaves:
the loan row updated and the approval or disbursement record appended, or the
investment row appended and, when the total counts as fully invested, the loan
row updated twice. -/
theorem C22_commit_failure_not_propagated (w : World) (log : List Event) :
    (∀ req : ApproveLoanRequest, ∃ body,
      (traced World.useCase).ApproveLoan req (w, log)
        = ((World.useCase.ApproveLoan req w).1,
            ((World.useCase.ApproveLoan req w).2, log ++ body)) ∧
      ∀ e ∈ body, e.call.isSetIdempotencyKey = true → e.ok = false →
        (World.useCase.ApproveLoan req w).1 = none ∧
        ∃ (loan : Loan) (t : Time) (a : LoanApproval),
          w.loans.find? (fun l => l.ID = req.LoanID) = some loan ∧
          (World.useCase.ApproveLoan req w).2.loans
            = updateRows w.loans { loan with State := StateApproved, UpdatedAt := t } ∧
          (World.useCase.ApproveLoan req w).2.approvals = w.approvals ++ [a] ∧
          a.LoanID = req.LoanID) ∧
    (∀ req : InvestRequest, ∃ body,
      (traced World.useCase).Invest req (w, log)
        = ((World.useCase.Invest req w).1, ((World.useCase.Invest req w).2, log ++ body)) ∧
      ∀ e ∈ body, e.call.isSetIdempotencyKey = true → e.ok = false →
        (World.useCase.Invest req w).1 = none ∧
        ∃ (loan : Loan) (inv : Investment),
          w.loans.find? (fun l => l.ID = req.LoanID) = some loan ∧
          (World.useCase.Invest req w).2.investments = w.investments ++ [inv] ∧
          inv.LoanID = req.LoanID ∧ inv.InvestorID = req.InvestorID ∧
          inv.Amount = req.Amount ∧
          (loan.IsFullyInvested (w.total req.LoanID + req.Amount) = false →
            (World.useCase.Invest req w).2.loans = w.loans) ∧
          (loan.IsFullyInvested (w.total req.LoanID + req.Amount) = true →
            ∃ t, (World.useCase.Invest req w).2.loans
              = updateRows
                  (updateRows w.loans { loan with State := StateInvested, UpdatedAt := t })
                  { loan with
                    State := StateInvested
                    UpdatedAt := t
                    AgreementLetterURL :=
                      some (w.baseURL ++ "/" ++ agreementPath req.LoanID) })) ∧
    (∀ req : DisburseLoanRequest, ∃ body,
      (traced World.useCase).DisburseLoan req (w, log)
        = ((World.useCase.DisburseLoan req w).1,
            ((World.useCase.DisburseLoan req w).2, log ++ body)) ∧
      ∀ e ∈ body, e.call.isSetIdempotencyKey = true → e.ok = false →
        (World.useCase.DisburseLoan req w).1 = none ∧
        ∃ (loan : Loan) (t : Time) (d : Disbursement),
          w.loans.find? (fun l => l.ID = req.LoanID) = some loan ∧
          (World.useCase.DisburseLoan req w).2.loans
            = updateRows w.loans { loan with State := StateDisbursed, UpdatedAt := t } ∧
          (World.useCase.DisburseLoan req w).2.disbursements = w.disbursements ++ [d] ∧
          d.LoanID = req.LoanID) := by
  refine ⟨fun req => ?_, fun req => ?_, fun req => ?_⟩
  · obtain ⟨body, h, ht⟩ := approveLoan_trace World.useCase req w log
    refine ⟨body, h, fun e he hset _ => ?_⟩
    obtain ⟨pre, post, hb⟩ := cut_of_mem he
    have hnil := ((approve_commits ht).1 pre e post hb hset).1
    have ho := approveLoan_outcome req w
    generalize World.useCase.ApproveLoan req w = r at ho hnil
    cases ho with
    | early err w' hfail hsame => simp at hnil
    | updated loan t cause w' hfind hstate hloans hrest => simp at hnil
    | completed loan t a w' hfind hstate hloans hid happ =>
      exact ⟨rfl, loan, t, a, hfind, hloans, happ, hid⟩
  · obtain ⟨body, h, ht⟩ := invest_trace World.useCase req w log
    refine ⟨body, h, fun e he hset _ => ?_⟩
    obtain ⟨pre, post, hb⟩ := cut_of_mem he
    have hnil := ((invest_commits ht).1 pre e post hb hset).1
    have ho := invest_outcome req w
    generalize World.useCase.Invest req w = r at ho hnil
    cases ho with
    | early err w' hsame => simp at hnil
    | stuck loan inv cause w' hadd hfull hloans => simp at hnil
    | halfway loan inv t cause w' hadd hfull hloans => simp at hnil
    | partly loan inv w' hadd hopen hloans =>
      exact ⟨rfl, loan, inv, hadd.hfind, hadd.hinv, hadd.hloan, hadd.hinvestor, hadd.hamount,
        fun _ => hloans, fun h => absurd (hopen.symm.trans h) (by decide)⟩
    | funded loan inv t w' hadd hfull hloans =>
      exact ⟨rfl, loan, inv, hadd.hfind, hadd.hinv, hadd.hloan, hadd.hinvestor, hadd.hamount,
        fun h => absurd (hfull.symm.trans h) (by decide), fun _ => ⟨t, hloans⟩⟩
  · obtain ⟨body, h, ht⟩ := disburseLoan_trace World.useCase req w log
    refine ⟨body, h, fun e he hset _ => ?_⟩
    obtain ⟨pre, post, hb⟩ := cut_of_mem he
    have hnil := ((disburse_commits ht).1 pre e post hb hset).1
    have ho := disburseLoan_outcome req w
    generalize World.useCase.DisburseLoan req w = r at ho hnil
    cases ho with
    | early err w' hsame => simp at hnil
    | updated loan t cause w' hfind hstate hloans hrest => simp at hnil
    | completed loan t d w' hfind hstate hloans hid happ hinv hdis =>
      exact ⟨rfl, loan, t, d, hfind, hloans, hdis, hid⟩

/-- The claim C22 on the proposed loan when the marker commit of `ApproveLoan`
fails: the call returns nil, the loan is stored as approved with its approval
record, and no marker is written. -/
theorem C22_commit_failure_not_propagated_witness :
    (World.useCase.ApproveLoan Example.approveRequest Example.commitFails).2.redis = [] ∧
    (World.useCase.ApproveLoan Example.approveRequest Example.commitFails).2.loans.map
      Loan.State = [StateApproved] ∧
    (World.useCase.ApproveLoan Example.approveRequest Example.commitFails).1 = none ∧
    ∃ (loan : Loan) (t : Time) (a : LoanApproval),
      Example.commitFails.loans.find? (fun l => l.ID = Example.approveRequest.LoanID)
        = some loan ∧
      (World.useCase.ApproveLoan Example.approveRequest Example.commitFails).2.loans
        = updateRows Example.commitFails.loans
            { loan with State := StateApproved, UpdatedAt := t } ∧
      (World.useCase.ApproveLoan Example.approveRequest Example.commitFails).2.approvals
        = Example.commitFails.approvals ++ [a] ∧
      a.LoanID = Example.approveRequest.LoanID := by
  obtain ⟨body, hb, h⟩ :=
    (C22_commit_failure_not_propagated Example.commitFails []).1 Example.approveRequest
  have hbody : body
      = ((traced World.useCase).ApproveLoan Example.approveRequest
          (Example.commitFails, [])).2.2 := by
    rw [hb]; rfl
  have hmem : (⟨.SetIdempotencyKey
        (approveKey Example.approveRequest.LoanID Example.approveRequest.IdempotencyKey)
        "approved" (24 * Hour), false⟩ : Event) ∈ body := by
    rw [hbody]; decide
  exact ⟨rfl, rfl, h _ hmem rfl rfl⟩

/-! ## Theorems: the order of the guard and the lock -/

/-- Counterexample to C27 as stated. With the marker of the request already
written and the lock held by somebody else, `Invest` answers with the
lock-contention error, not the duplicate-request error, and its only call is
`AcquireLock`. With the marker written and the lock free, the first call of
`Invest` is `AcquireLock` and the idempotency check comes second. -/
theorem C27_counterexample :
    Example.lockedAndMarked.hasKey
      ("idempotency:" ++ investKey (UUID.ofNat 1) (UUID.ofNat 7) "token-a") = true ∧
    (traced World.useCase).Invest (Example.investRequest 7 4000 "token-a")
        (Example.lockedAndMarked, [])
      = (some errLockNotAcquired,
          (Example.lockedAndMarked,
            [{ call := .AcquireLock (investLockKey (UUID.ofNat 1)) (30 * Second), ok := true }])) ∧
    errLockNotAcquired ≠ errDuplicateRequest ∧
    ((traced World.useCase).Invest (Example.investRequest 7 4000 "token-a")
        (Example.markedOnly, [])).1 = some errDuplicateRequest ∧
    ((traced World.useCase).Invest (Example.investRequest 7 4000 "token-a")
        (Example.markedOnly, [])).2.2
      = [{ call := .AcquireLock (investLockKey (UUID.ofNat 1)) (30 * Second), ok := true },
         { call := .CheckIdempotencyKey (investKey (UUID.ofNat 1) (UUID.ofNat 7) "token-a"),
           ok := true },
         { call := .ReleaseLock (investLockKey (UUID.ofNat 1)), ok := true }] :=
  ⟨rfl, rfl, by decide, rfl, rfl⟩

/-- C27, amended: for any collaborators, the idempotency check is the first call
of `ApproveLoan` and of `DisburseLoan`. The first call of `Invest` is the lock
acquisition, and the idempotency check is its second call, made only once the
lock is held. While somebody else holds the lock, `Invest` returns the
lock-contention error without making the check; with the lock acquired, a request
whose key is reported used gets the duplicate-request error and makes no other
call than releasing the lock. -/
theorem C27_guard_order (uc : LoanUseCase σ) (s : σ) (log : List Event) :
    (∀ req : ApproveLoanRequest, ∃ c rest,
      ((traced uc).ApproveLoan req (s, log)).2.2
        = log ++ ⟨.CheckIdempotencyKey (approveKey req.LoanID req.IdempotencyKey), c⟩ ::
            rest) ∧
    (∀ req : DisburseLoanRequest, ∃ c rest,
      ((traced uc).DisburseLoan req (s, log)).2.2
        = log ++ ⟨.CheckIdempotencyKey (disburseKey req.LoanID req.IdempotencyKey), c⟩ ::
            rest) ∧
    (∀ req : InvestRequest,
      (∃ c rest,
        ((traced uc).Invest req (s, log)).2.2
          = log ++ ⟨.AcquireLock (investLockKey req.LoanID) (30 * Second), c⟩ :: rest ∧
        (rest = [] ∨ ∃ c2 rest2,
          rest = ⟨.CheckIdempotencyKey
            (investKey req.LoanID req.InvestorID req.IdempotencyKey), c2⟩ :: rest2)) ∧
      (∀ s1, uc.redisClient.AcquireLock (investLockKey req.LoanID) (30 * Second) s
          = ((false, none), s1) →
        (traced uc).Invest req (s, log)
          = (some errLockNotAcquired,
              (s1, log ++
                [⟨.AcquireLock (investLockKey req.LoanID) (30 * Second), true⟩]))) ∧
      (∀ s1 s2 e2,
        uc.redisClient.AcquireLock (investLockKey req.LoanID) (30 * Second) s
          = ((true, none), s1) →
        uc.redisClient.CheckIdempotencyKey
            (investKey req.LoanID req.InvestorID req.IdempotencyKey) s1
          = ((true, e2), s2) →
        (traced uc).Invest req (s, log)
          = (some errDuplicateRequest,
              ((uc.redisClient.ReleaseLock (investLockKey req.LoanID) s2).2, log ++
                [⟨.AcquireLock (investLockKey req.LoanID) (30 * Second), true⟩,
                 ⟨.CheckIdempotencyKey
                    (investKey req.LoanID req.InvestorID req.IdempotencyKey), errNil e2⟩,
                 ⟨.ReleaseLock (investLockKey req.LoanID),
                    errNil (uc.redisClient.ReleaseLock (investLockKey req.LoanID) s2).1⟩])))) := by
  refine ⟨fun req => ?_, fun req => ?_, fun req => ⟨?_, ?_, ?_⟩⟩
  · obtain ⟨body, h, ht⟩ := approveLoan_trace uc req s log
    rw [h]
    generalize (uc.ApproveLoan req s).1 = r at ht
    cases ht <;> exact ⟨_, _, rfl⟩
  · obtain ⟨body, h, ht⟩ := disburseLoan_trace uc req s log
    rw [h]
    generalize (uc.DisburseLoan req s).1 = r at ht
    cases ht <;> exact ⟨_, _, rfl⟩
  · obtain ⟨body, h, ht⟩ := invest_trace uc req s log
    rw [h]
    generalize (uc.Invest req s).1 = r at ht
    cases ht with
    | lockFails err => exact ⟨_, _, rfl, Or.inl rfl⟩
    | lockBusy => exact ⟨_, _, rfl, Or.inl rfl⟩
    | locked r body k hl => cases hl <;> exact ⟨_, _, rfl, Or.inr ⟨_, _, rfl⟩⟩
  · intro s1 h1
    simp only [LoanUseCase.Invest, traced_acquireLock, logged_eq _ _ _ _ _ _ _ h1]
    rfl
  · intro s1 s2 e2 h1 h2
    rcases h3 : uc.redisClient.ReleaseLock (investLockKey req.LoanID) s2 with ⟨r3, s3⟩
    simp only [LoanUseCase.Invest, LoanUseCase.investLocked, traced_acquireLock,
      traced_checkIdempotencyKey, traced_releaseLock, logged_eq _ _ _ _ _ _ _ h1,
      logged_eq _ _ _ _ _ _ _ h2, logged_eq _ _ _ _ _ _ _ h3, List.append_assoc,
      List.cons_append, List.nil_append]
    rfl

/-! ## Theorems: the idempotency keys -/

section keys

theorem hexChar_inj : ∀ a b : Fin 16, hexChar a.val = hexChar b.val → a = b := by decide

theorem hex_succ (u : UUID) (i n : Nat) :
    u.hex i (n + 1)
      = u.hex i n ++ [hexChar (u.byte (i + n) / 16), hexChar (u.byte (i + n) % 16)] := by
  simp [UUID.hex, List.range_succ]

theorem hex_length (u : UUID) (i n : Nat) : (u.hex i n).length = 2 * n := by
  induction n with
  | zero => simp [UUID.hex]
  | succ n ih => rw [hex_succ, List.length_append, ih]; simp; omega

theorem string_length (u : UUID) : u.String.data.length = 36 := by
  simp [UUID.String, hex_length]

theorem byte_lt (u : UUID) (i : Nat) : u.byte i < 256 := Nat.mod_lt _ (by decide)

/-- Two bytes with the same two hexadecimal digits are equal. -/
theorem byte_eq_of_hexChar {x y : Nat} (hx : x < 256) (hy : y < 256)
    (h1 : hexChar (x / 16) = hexChar (y / 16)) (h2 : hexChar (x % 16) = hexChar (y % 16)) :
    x = y := by
  have e1 := hexChar_inj ⟨x / 16, by omega⟩ ⟨y / 16, by omega⟩ h1
  have e2 := hexChar_inj ⟨x % 16, by omega⟩ ⟨y % 16, by omega⟩ h2
  simp only [Fin.mk.injEq] at e1 e2
  omega

theorem byte_eq_of_hex (u v : UUID) (i : Nat) :
    ∀ n, u.hex i n = v.hex i n → ∀ k < n, u.byte (i + k) = v.byte (i + k) := by
  intro n
  induction n with
  | zero => intro _ k hk; omega
  | succ n ih =>
    intro h k hk
    rw [hex_succ, hex_succ] at h
    obtain ⟨h1, h2⟩ := List.append_inj h (by rw [hex_length, hex_length])
    simp only [List.cons.injEq, and_true] at h2
    rcases Nat.lt_succ_iff_lt_or_eq.1 hk with hk | rfl
    · exact ih h1 k hk
    · exact byte_eq_of_hexChar (byte_lt _ _) (byte_lt _ _) h2.1 h2.2

/-- A number below `256 ^ k` is determined by its `k` base-256 digits. -/
theorem eq_of_digits : ∀ (k n m : Nat), n < 256 ^ k → m < 256 ^ k →
    (∀ j < k, n / 256 ^ j % 256 = m / 256 ^ j % 256) → n = m := by
  intro k
  induction k with
  | zero => intro n m hn hm _; simp at hn hm; omega
  | succ k ih =>
    intro n m hn hm h
    have h0 := h 0 (Nat.succ_pos k)
    simp only [pow_zero, Nat.div_one] at h0
    have hrec : n / 256 = m / 256 := by
      apply ih
      · rw [Nat.div_lt_iff_lt_mul (by decide)]; rw [pow_succ] at hn; exact hn
      · rw [Nat.div_lt_iff_lt_mul (by decide)]; rw [pow_succ] at hm; exact hm
      · intro j hj
        have := h (j + 1) (Nat.succ_lt_succ hj)
        rw [pow_succ, Nat.mul_comm, ← Nat.div_div_eq_div_mul, ← Nat.div_div_eq_div_mul] at this
        exact this
    omega

theorem UUID.String_injective {u v : UUID} (h : u.String = v.String) : u = v := by
  have hd : u.String.data = v.String.data := congrArg String.data h
  simp only [UUID.String] at hd
  obtain ⟨h4, e5⟩ := List.append_inj hd (by simp [hex_length])
  obtain ⟨h3, e4⟩ := List.append_inj h4 (by simp [hex_length])
  obtain ⟨h2, e3⟩ := List.append_inj h3 (by simp [hex_length])
  obtain ⟨e1, e2⟩ := List.append_inj h2 (by simp [hex_length])
  simp only [List.cons.injEq, true_and] at e2 e3 e4 e5
  have hb : ∀ i < 16, u.byte i = v.byte i := by
    intro i hi
    by_cases c1 : i < 4
    · simpa using byte_eq_of_hex u v 0 4 e1 i c1
    by_cases c2 : i < 6
    · have := byte_eq_of_hex u v 4 2 e2 (i - 4) (by omega)
      rwa [show 4 + (i - 4) = i by omega] at this
    by_cases c3 : i < 8
    · have := byte_eq_of_hex u v 6 2 e3 (i - 6) (by omega)
      rwa [show 6 + (i - 6) = i by omega] at this
    by_cases c4 : i < 10
    · have := byte_eq_of_hex u v 8 2 e4 (i - 8) (by omega)
      rwa [show 8 + (i - 8) = i by omega] at this
    · have := byte_eq_of_hex u v 10 6 e5 (i - 10) (by omega)
      rwa [show 10 + (i - 10) = i by omega] at this
  have hv : u.val.val = v.val.val := by
    apply eq_of_digits 16
    · have := u.val.isLt
      rw [show (256 : Nat) ^ 16 = 2 ^ 128 by norm_num]; exact this
    · have := v.val.isLt
      rw [show (256 : Nat) ^ 16 = 2 ^ 128 by norm_num]; exact this
    · intro j hj
      have := hb (15 - j) (by omega)
      simp only [UUID.byte] at this
      rwa [show 15 - (15 - j) = j by omega] at this
  cases u with
  | mk a => cases v with
    | mk b => simp only [UUID.mk.injEq]; exact Fin.ext hv

theorem investKey_inj {l l' i i' : UUID} {t t' : String}
    (h : investKey l i t = investKey l' i' t') : l = l' ∧ i = i' ∧ t = t' := by
  have hd := congrArg String.data h
  simp only [investKey, String.data_append, List.append_assoc] at hd
  have h1 := List.append_cancel_left hd
  obtain ⟨hl, h2⟩ := List.append_inj h1 (by rw [string_length, string_length])
  have h3 := List.append_cancel_left h2
  obtain ⟨hi, h4⟩ := List.append_inj h3 (by rw [string_length, string_length])
  have h5 := List.append_cancel_left h4
  exact ⟨UUID.String_injective (String.ext hl), UUID.String_injective (String.ext hi),
    String.ext h5⟩

end keys

section keysUsed

theorem attempts_noKey (url : String) :
    ∀ (invs : List Investment) (outcomes : List (Except GoError User × Bool)),
      ∀ x ∈ attempts url invs outcomes, x.call.idempotencyKey? = none := by
  intro invs
  induction invs with
  | nil => intro outcomes x hx; simp [attempts] at hx
  | cons inv rest ih =>
    intro outcomes x hx
    cases outcomes with
    | nil => simp [attempts] at hx
    | cons o os =>
      simp only [attempts, List.mem_append] at hx
      rcases hx with hx | hx
      · rcases o with ⟨lookup, sent⟩
        cases lookup <;> simp only [rowAttempt, List.mem_cons, List.mem_singleton,
          List.not_mem_nil, or_false] at hx
        · subst hx; rfl
        · rcases hx with rfl | rfl <;> rfl
      · exact ih os x hx

theorem approve_keys {req : ApproveLoanRequest} {r : Option GoError} {body : List Event}
    (h : ApproveTrace req r body) :
    ∀ e ∈ body, ∀ k, e.call.idempotencyKey? = some k →
      k = approveKey req.LoanID req.IdempotencyKey := by
  cases h <;> simp [Call.idempotencyKey?]

theorem disburse_keys {req : DisburseLoanRequest} {r : Option GoError} {body : List Event}
    (h : DisburseTrace req r body) :
    ∀ e ∈ body, ∀ k, e.call.idempotencyKey? = some k →
      k = disburseKey req.LoanID req.IdempotencyKey := by
  cases h <;> simp [Call.idempotencyKey?]

theorem invest_keys {req : InvestRequest} {r : Option GoError} {body : List Event}
    (h : InvestTrace req r body) :
    ∀ e ∈ body, ∀ k, e.call.idempotencyKey? = some k →
      k = investKey req.LoanID req.InvestorID req.IdempotencyKey := by
  cases h with
  | lockFails err => simp [Call.idempotencyKey?]
  | lockBusy => simp [Call.idempotencyKey?]
  | locked r body k0 h =>
    cases h with
    | notified c inv loan withURL url invs outcomes m =>
      have ha := attempts_noKey url invs outcomes
      intro e he k hk
      simp only [List.mem_cons, List.mem_append, List.mem_singleton, List.not_mem_nil,
        or_false, List.cons_append, List.nil_append] at he
      rcases he with rfl | rfl | rfl | rfl | rfl | rfl | rfl | rfl | rfl | (he | rfl) | rfl
      all_goals first
        | (simp only [Call.idempotencyKey?, Option.some.injEq] at hk; exact hk.symm)
        | (simp only [Call.idempotencyKey?] at hk; cases hk)
        | (rw [ha _ he] at hk; cases hk)
    | _ =>
      intro e he k hk
      simp only [List.mem_cons, List.mem_append, List.mem_singleton, List.not_mem_nil,
        or_false, List.cons_append, List.nil_append] at he
      rcases he with rfl | he
      · simp only [Call.idempotencyKey?] at hk; cases hk
      · repeat' rcases he with rfl | he
        all_goals first
          | (simp only [Call.idempotencyKey?, Option.some.injEq] at hk; exact hk.symm)
          | (simp only [Call.idempotencyKey?] at hk; cases hk)

end keysUsed

/-- C29: the investment key `invest:{loanID}:{investorID}:{token}`, with both
ids in canonical UUID text, is injective in the triple for arbitrary tokens, so
two different investors with the same token on the same loan get different
keys. For any collaborators, every idempotency check and marker commit of
`Invest` uses that key, and those of `ApproveLoan` and `DisburseLoan` use
`approve:{loanID}:{token}` and `disburse:{loanID}:{token}`, in which the
employee id does not occur. -/
theorem C29_idempotency_keys :
    (∀ (l l' i i' : UUID) (t t' : String),
      investKey l i t = investKey l' i' t' ↔ l = l' ∧ i = i' ∧ t = t') ∧
    (∀ (l i i' : UUID) (t : String), i ≠ i' → investKey l i t ≠ investKey l i' t) ∧
    (∀ (σ : Type) (uc : LoanUseCase σ) (s : σ) (log : List Event),
      (∀ req : InvestRequest, ∃ body,
        ((traced uc).Invest req (s, log)).2.2 = log ++ body ∧
        ∀ e ∈ body, ∀ k, e.call.idempotencyKey? = some k →
          k = investKey req.LoanID req.InvestorID req.IdempotencyKey) ∧
      (∀ req : ApproveLoanRequest, ∃ body,
        ((traced uc).ApproveLoan req (s, log)).2.2 = log ++ body ∧
        ∀ e ∈ body, ∀ k, e.call.idempotencyKey? = some k →
          k = approveKey req.LoanID req.IdempotencyKey) ∧
      (∀ req : DisburseLoanRequest, ∃ body,
        ((traced uc).DisburseLoan req (s, log)).2.2 = log ++ body ∧
        ∀ e ∈ body, ∀ k, e.call.idempotencyKey? = some k →
          k = disburseKey req.LoanID req.IdempotencyKey)) := by
  refine ⟨fun l l' i i' t t' => ⟨investKey_inj, ?_⟩, fun l i i' t hne h => ?_,
    fun σ uc s log => ⟨fun req => ?_, fun req => ?_, fun req => ?_⟩⟩
  · rintro ⟨rfl, rfl, rfl⟩; rfl
  · exact hne (investKey_inj h).2.1
  · obtain ⟨body, h, ht⟩ := invest_trace uc req s log
    exact ⟨body, by rw [h], invest_keys ht⟩
  · obtain ⟨body, h, ht⟩ := approveLoan_trace uc req s log
    exact ⟨body, by rw [h], approve_keys ht⟩
  · obtain ⟨body, h, ht⟩ := disburseLoan_trace uc req s log
    exact ⟨body, by rw [h], disburse_keys ht⟩

/-! ## Theorems: the totals of `Invest` are those of the stored rows -/

theorem investLocked_recomputing (req : InvestRequest) (w : World) :
    World.useCase.investLocked req w
      = World.useCase.investLockedRecomputing World.total req w := by
  rcases h1 : World.useCase.redisClient.CheckIdempotencyKey
    (investKey req.LoanID req.InvestorID req.IdempotencyKey) w with ⟨⟨b1, e1⟩, w1⟩
  cases b1 with
  | true => simp only [LoanUseCase.investLocked, LoanUseCase.investLockedRecomputing, h1]
  | false =>
  rcases h2 : World.useCase.loanRepo.GetByID req.LoanID w1 with ⟨r2, w2⟩
  cases r2 with
  | error err =>
    simp only [LoanUseCase.investLocked, LoanUseCase.investLockedRecomputing, h1, h2]
  | ok loan =>
  by_cases hstate : loan.State = StateApproved
  swap
  · simp only [LoanUseCase.investLocked, LoanUseCase.investLockedRecomputing, h1, h2, ne_eq,
      hstate, not_false_eq_true, if_true]
  rcases h3 : World.useCase.investmentRepo.GetTotalByLoanID req.LoanID w2 with ⟨r3, w3⟩
  cases r3 with
  | error err =>
    simp only [LoanUseCase.investLocked, LoanUseCase.investLockedRecomputing, h1, h2, ne_eq,
      hstate, not_true_eq_false, if_false, h3]
  | ok total =>
  have ht : total = w3.total req.LoanID :=
    (getTotal_ok h3).trans (total_of_investments
      (World.SameTables.of_tables h3 (sameTables_getTotal _ _)).2.2.1 _).symm
  cases hv : loan.ValidateInvestmentAmount req.Amount total with
  | some err =>
    simp only [LoanUseCase.investLocked, LoanUseCase.investLockedRecomputing, h1, h2, ne_eq,
      hstate, not_true_eq_false, if_false, h3, ← ht, hv]
  | none =>
  rcases h4 : World.useCase.runtime.NewUUID w3 with ⟨id, w4⟩
  rcases h5 : World.useCase.runtime.Now w4 with ⟨t5, w5⟩
  rcases h6 : World.useCase.investmentRepo.Create
    { ID := id, LoanID := req.LoanID, InvestorID := req.InvestorID, Amount := req.Amount,
      CreatedAt := t5 } w5 with ⟨r6, w6⟩
  cases r6 with
  | some err =>
    simp only [LoanUseCase.investLocked, LoanUseCase.investLockedRecomputing, h1, h2, ne_eq,
      hstate, not_true_eq_false, if_false, h3, ← ht, hv, h4, h5, h6]
  | none =>
    have e4 : w4.total req.LoanID = w3.total req.LoanID :=
      total_of_investments (World.SameTables.of_tables h4 (sameTables_newUUID _)).2.2.1 _
    have e5 : w5.total req.LoanID = w4.total req.LoanID :=
      total_of_investments (World.SameTables.of_tables h5 (sameTables_now _)).2.2.1 _
    have e6 : w6.total req.LoanID = total + req.Amount := by
      rw [total_append w5 w6 _ req.LoanID (investmentCreate_none h6).2, e5, e4, ← ht]
      simp
    simp only [LoanUseCase.investLocked, LoanUseCase.investLockedRecomputing, h1, h2, ne_eq,
      hstate, not_true_eq_false, if_false, h3, ← ht, hv, h4, h5, h6, e6]

/-- The exact sum of a loan after one more row. -/
theorem exactTotal_append (w w' : World) (inv : Investment) (id : UUID)
    (h : w'.investments = w.investments ++ [inv]) :
    w'.exactTotal id = w.exactTotal id + (if inv.LoanID = id then inv.Amount.toRat else 0) := by
  unfold World.exactTotal
  rw [h, List.filter_append, List.map_append, List.sum_append]
  by_cases hc : inv.LoanID = id <;> simp [List.filter_cons, hc]

/-- C28: on the in-memory collaborators, with any call failing, `Invest` is the
same function as its variant that reads both totals from the store: validation
against the sum of the persisted rows of the loan at that moment, full funding
decided on the sum of the persisted rows right after the insert. The total the
query returns is the sum of the stored rows, added up as the store does, and
after a successful insert the sum of the stored rows is the total the code
passes to `IsFullyInvested`: the old sum plus the amount. With exact arithmetic,
that is when the old total is the exact sum of the rows and adding the amount
needs no rounding, that total is the exact sum of the rows including the new
one. -/
theorem C28_totals_from_store (req : InvestRequest) (w : World) :
    World.useCase.Invest req w = World.useCase.InvestRecomputing World.total req w ∧
    (∀ (t : Float64) (w' : World),
      World.useCase.investmentRepo.GetTotalByLoanID req.LoanID w = (.ok t, w') →
      t = ((w.investments.filter fun i => i.LoanID = req.LoanID).map
            Investment.Amount).foldl (· + ·) 0 ∧
        t = w'.total req.LoanID) ∧
    (∀ (inv : Investment) (w' : World), inv.LoanID = req.LoanID →
      inv.Amount = req.Amount →
      World.useCase.investmentRepo.Create inv w = (none, w') →
      w'.total req.LoanID = w.total req.LoanID + req.Amount ∧
        w'.investments = w.investments ++ [inv] ∧
        ∀ a : ℚ, req.Amount = .fin a →
          w.total req.LoanID = .fin (w.exactTotal req.LoanID) →
          Float64.ofRat (w.exactTotal req.LoanID + a) = .fin (w.exactTotal req.LoanID + a) →
          w.total req.LoanID + req.Amount = .fin (w'.exactTotal req.LoanID)) := by
  refine ⟨?_, fun t w' h => ?_, fun inv w' hl ha h => ?_⟩
  · simp only [LoanUseCase.Invest, LoanUseCase.InvestRecomputing, investLocked_recomputing]
  · exact ⟨getTotal_ok h, (getTotal_ok h).trans (total_of_investments
      (World.SameTables.of_tables h (sameTables_getTotal _ _)).2.2.1 _).symm⟩
  · refine ⟨?_, (investmentCreate_none h).2, fun a hreq ht hex => ?_⟩
    · rw [total_append w w' inv req.LoanID (investmentCreate_none h).2, if_pos hl, ha]
    · rw [exactTotal_append w w' inv req.LoanID (investmentCreate_none h).2, if_pos hl, ha, hreq,
        ht, Float64.fin_add_fin]
      exact hex

end LoanService
